import Mathlib

/-!
# CBI-MMTools: the ArduControl and ArdIllu device adapters

A shallow embedding of `DeviceAdapters/ArduControl/ArduControl.cpp` and
`ArduControl.h`: the framed serial protocol of `ControlHub`, the typed payload
encoders, and the property handlers of the hub and of its dependent devices
(`TriggerSelect`, `EnableShutter`, `AnalogMod`); of the two functions of the
protocol run statement by statement by concurrent threads; and of the port
write and the two property writes of `DeviceAdapters/ArdIllu/ArdIllu.cpp`.

Conventions of the embedding.

* A byte (`unsigned char`, `char`, `byte`) is a `Nat`; a `std::string` and a
  byte buffer are a `List Nat` of character codes. Casts to `byte` are written
  `% 256`, casts to `int` are `toInt32`.
* `long` property values are `Int`. A `double` is the rational number it stands
  for; the product and the sum of `SendTimeMs` are rounded to the nearest
  `double` (`roundDouble`), the quotient of `UpdateDeltaT` is kept exact.
* The serial port is an external collaborator. Its behaviour is a script: the
  results of the successive `PurgeComPort`, `WriteToComPort`, `ReadFromComPort`
  and `GetSerialAnswer` calls, and the time each read takes.
* `assert(e)` is recorded, not executed: when `e` is false the flag
  `Port.assertFailed` is raised and the run goes on as a build with `NDEBUG`
  does. A run with assertions enabled stops where the flag is first raised.
-/

namespace ArduControl

/-! ## Constants -/

/-- Result code of the device framework for success (`MMDeviceConstants.h`). -/
def DEVICE_OK : Int := 0

def ERR_INVALID_VALUE : Int := 101
def ERR_BOARD_NOT_FOUND : Int := 102
def ERR_COMMUNICATION : Int := 103
def ERR_NO_PORT_SET : Int := 104
def ERR_VERSION_MISMATCH : Int := 105
def ERR_MOD_PROTOCOL : Int := 106
def ERR_MOD_LENGTH : Int := 107
def ERR_NMOD : Int := 108
def ERR_TRIGGER : Int := 110

/-- Source `SERIAL_TIMEOUT = 500`, milliseconds, here in microseconds (the unit of the clock). -/
def SERIAL_TIMEOUT : Nat := 500 * 1000

def ASCII_START : Nat := 1
def ASCII_END : Nat := 4
def ASCII_ACK : Nat := 6
def ASCII_NACK : Nat := 21

def HEADER_ANAMOD : Nat := 65      -- 'A'
def HEADER_ACQUIRE : Nat := 66     -- 'B'
def HEADER_DIGMOD : Nat := 68      -- 'D'
def HEADER_EXPOSURE : Nat := 69    -- 'E'
def HEADER_FIRMWARE : Nat := 70    -- 'F'
def HEADER_GATE : Nat := 71        -- 'G'
def HEADER_ENABLE : Nat := 72      -- 'H'
def HEADER_AMPLITUDE : Nat := 73   -- 'I'
def HEADER_LOOPF : Nat := 76       -- 'L'
def HEADER_NFRAMES : Nat := 77     -- 'M'
def HEADER_NSTEPS : Nat := 78      -- 'N'
def HEADER_MODA : Nat := 79        -- 'O'
def HEADER_MODD : Nat := 80        -- 'P'
def HEADER_RESET : Nat := 82       -- 'R'
def HEADER_TRIGGER : Nat := 83     -- 'S'
def HEADER_DELTAT : Nat := 84      -- 'T'
def HEADER_VERSION : Nat := 86     -- 'V'
def HEADER_WAITBEFORE : Nat := 87  -- 'W'
def HEADER_WAITAFTER : Nat := 88   -- 'X'

/-- Source `ControlHub::MAX_MOD_LENGTH`. -/
def MAX_MOD_LENGTH : Int := 250

/-! ## The serial port -/

/-- One call of `ReadFromComPort(port, buf, 1, bytesRead)`: the time it takes
(microseconds), its return code, and the byte it stores (`bytesRead = 1`) or
`none` (`bytesRead = 0`). -/
structure ReadEvent where
  dt : Nat
  ret : Int
  data : Option Nat
deriving DecidableEq, Repr

/-- The serial port as the adapter sees it. The scripts give the results of the
calls still to come (an exhausted purge or write script answers `DEVICE_OK`, an
exhausted read script is a silent line, an exhausted answer script lets
`GetSerialAnswer` fail); `written` logs every `WriteToComPort` call, oldest
first; `purges` and `answersRead` count the `PurgeComPort` and
`GetSerialAnswer` calls; `now` is `GetCurrentMMTime()`. -/
structure Port where
  purgeScript : List Int
  writeScript : List Int
  readScript : List ReadEvent
  answerScript : List (Int × List Nat)
  now : Nat
  written : List (List Nat)
  purges : Nat
  answersRead : Nat
  assertFailed : Bool
deriving DecidableEq, Repr

/-- Source `PurgeComPort(port_.c_str())`. -/
def Port.PurgeComPort (p : Port) : Int × Port :=
  match p.purgeScript with
  | [] => (DEVICE_OK, { p with purges := p.purges + 1 })
  | r :: rs => (r, { p with purgeScript := rs, purges := p.purges + 1 })

/-- Source `WriteToComPort(port_.c_str(), msg, msg_len)`. -/
def Port.WriteToComPort (p : Port) (msg : List Nat) : Int × Port :=
  match p.writeScript with
  | [] => (DEVICE_OK, { p with written := p.written ++ [msg] })
  | r :: rs => (r, { p with writeScript := rs, written := p.written ++ [msg] })

/-- Result code of `GetSerialAnswer` on a line that delivers no terminated
answer (`DEVICE_SERIAL_TIMEOUT` of the device framework, a code other than
`DEVICE_OK`). -/
def DEVICE_SERIAL_TIMEOUT : Int := 17

/-- Source `GetSerialAnswer(port_.c_str(), "\r\n", answer)`: the code, and the line
without its terminator when the code is `DEVICE_OK` (`answer` keeps its value
otherwise). -/
def Port.GetSerialAnswer (p : Port) (answer : List Nat) : Int × List Nat × Port :=
  match p.answerScript with
  | [] => (DEVICE_SERIAL_TIMEOUT, answer, { p with answersRead := p.answersRead + 1 })
  | (r, line) :: rs =>
    (r, if r = DEVICE_OK then line else answer,
      { p with answerScript := rs, answersRead := p.answersRead + 1 })

/-- The polling loop
`while ((bytesRead < 1) && ((GetCurrentMMTime() - startTime).getMsec() < timeout))`
with body `ret = ReadFromComPort(..); if (ret != DEVICE_OK) return ret;`.
Arguments: the read script, the clock, the content of the one-byte buffer.
Result: `Except.error ret` when a read fails, else `Except.ok` of the buffer
when the loop is left; then the clock and the rest of the script. -/
def pollLoop (timeout start : Nat) :
    List ReadEvent → Nat → Nat → Except Int Nat × Nat × List ReadEvent
  | [], now, answer => (Except.ok answer, max now (start + timeout), [])
  | e :: es, now, answer =>
    if now - start < timeout then
      if e.ret ≠ DEVICE_OK then (Except.error e.ret, now + e.dt, es)
      else
        match e.data with
        | some b => (Except.ok b, now + e.dt, es)
        | none => pollLoop timeout start es (now + e.dt) answer
    else (Except.ok answer, now, e :: es)

/-- The wait for the one-byte response: `startTime = GetCurrentMMTime()`, then
the polling loop. -/
def Port.pollByte (p : Port) (timeout answer : Nat) : Except Int Nat × Port :=
  let r := pollLoop timeout p.now p.readScript p.now answer
  (r.1, { p with now := r.2.1, readScript := r.2.2 })

/-- Record the outcome of `assert(cond)`. -/
def Port.assert (p : Port) (cond : Bool) : Port :=
  { p with assertFailed := p.assertFailed || !cond }

/-! ## Integer conversions and `snprintf` -/

/-- The cast `(int)v` of a `long`, and the conversion of a `long` stored into an
`int`: the value modulo `2^32`, read as a signed 32-bit number. -/
def toInt32 (v : Int) : Int :=
  if v % 2 ^ 32 < 2 ^ 31 then v % 2 ^ 32 else v % 2 ^ 32 - 2 ^ 32

/-- An `int` passed to the conversion `%x`, which reads it as `unsigned`. -/
def toUInt32 (v : Int) : Nat := (v % 2 ^ 32).toNat

/-- The cast `(byte)v` of a `long`, and the conversion of a `long` stored into
a `byte`. -/
def toByte (v : Int) : Nat := (v % 256).toNat

/-- The digit characters `0`..`9`, `a`..`f` of `printf`. -/
def digitChar (d : Nat) : Nat := if d < 10 then 48 + d else 87 + d

/-- The digits of `v` in base `base`, most significant first, without padding
(at least one digit). The first argument bounds the number of digits. -/
def toDigits (base : Nat) : Nat → Nat → List Nat
  | 0, _ => []
  | fuel + 1, v =>
    if v < base then [digitChar v]
    else toDigits base fuel (v / base) ++ [digitChar (v % base)]

/-- The text of the conversions `%0<width>x` and `%0<width>lx` of an unsigned
value: lowercase hexadecimal, padded on the left with `0` to `width`. -/
def fmtHex (width v : Nat) : List Nat :=
  List.replicate (width - (toDigits 16 (v + 1) v).length) 48 ++ toDigits 16 (v + 1) v

/-- The text of the conversion `%d` of a non-negative value. -/
def fmtDec (v : Nat) : List Nat := toDigits 10 (v + 1) v

/-- The call `snprintf(buf, size, fmt, v)` where `text` is the full text of the
conversion: the return value is the length of the full text, the buffer
receives its first `size - 1` characters. -/
def snprintf (size : Nat) (text : List Nat) : Nat × List Nat :=
  (text.length, text.take (size - 1))

/-! ## The devices -/

/-- The cached fields of `AnalogMod`. -/
structure AnalogMod where
  channel_ : Nat
  gate_ : Bool
  amplitude_ : Int
  modulationA_ : List Nat
  modulationD_ : List Nat
deriving DecidableEq, Repr

/-- The fields of `ControlHub`. The registered modulators `modulators_`
(pointers in the source) are positions in the list of `AnalogMod` devices of
the `World`. -/
structure ControlHub where
  modulators_ : List Nat
  selectTrigger_ : Int
  initialized_ : Bool
  portAvailable_ : Bool
  version_ : Int
  exposure_ : ℚ
  frameT_ : ℚ
  deltaT_ : ℚ
  waitBefore_ : ℚ
  waitAfter_ : ℚ
  NSteps_ : Nat
  NFrames_ : Nat
  acquire_ : Int
  digMod_ : Bool
  anaMod_ : Bool
  loopFrame_ : Bool
deriving DecidableEq

/-- The cached field of `TriggerSelect`. -/
structure TriggerSelect where
  position_ : Int
deriving DecidableEq, Repr

/-- The cached field of `EnableShutter`. -/
structure EnableShutter where
  enabled_ : Bool
deriving DecidableEq, Repr

/-- The hub, its dependent devices and the serial port. Every dependent device
has the hub as its parent (`GetParentHub()` is never null). -/
structure World where
  hub : ControlHub
  trigger : TriggerSelect
  shutter : EnableShutter
  mods : List AnalogMod
  port : Port
deriving DecidableEq

/-! ## `ControlHub`: the protocol -/

/-- Source `ControlHub::SendCommand(unsigned char header, const unsigned char *payload,
unsigned payload_len)`. -/
def ControlHub.SendCommand (hub : ControlHub) (header : Nat) (payload : List Nat)
    (p : Port) : Int × Port :=
  if !hub.portAvailable_ then (ERR_NO_PORT_SET, p)
  else
    let msg := [ASCII_START, header] ++ payload ++ [ASCII_END]
    let r1 := p.PurgeComPort
    if r1.1 ≠ DEVICE_OK then r1
    else
      let r2 := r1.2.WriteToComPort msg
      if r2.1 ≠ DEVICE_OK then r2
      else
        let r3 := r2.2.pollByte SERIAL_TIMEOUT ASCII_NACK
        match r3.1 with
        | Except.error ret => (ret, r3.2)
        | Except.ok answer =>
          if answer ≠ ASCII_ACK then (ERR_COMMUNICATION, r3.2) else (DEVICE_OK, r3.2)

/-- Source `ControlHub::SendCommand(unsigned char header, unsigned long payload)`. -/
def ControlHub.SendCommand_ulong (hub : ControlHub) (header payload : Nat)
    (p : Port) : Int × Port :=
  let s := snprintf 9 (fmtHex 8 payload)
  hub.SendCommand header s.2 (p.assert (s.1 == 8))

/-- Source `ControlHub::SendCommand(unsigned char header, int payload)`. -/
def ControlHub.SendCommand_int (hub : ControlHub) (header : Nat) (payload : Int)
    (p : Port) : Int × Port :=
  let payload := if payload < 0 then 65535 else payload
  let s := snprintf 5 (fmtHex 4 (toUInt32 payload))
  hub.SendCommand header s.2 (p.assert (s.1 == 4))

/-- Source `ControlHub::SendCommand(unsigned char header, byte payload)`. -/
def ControlHub.SendCommand_byte (hub : ControlHub) (header payload : Nat)
    (p : Port) : Int × Port :=
  let s := snprintf 3 (fmtHex 2 payload)
  hub.SendCommand header s.2 (p.assert (s.1 == 2))

/-- Source `ControlHub::SendCommand(unsigned char header, bool payload)`. -/
def ControlHub.SendCommand_bool (hub : ControlHub) (header : Nat) (payload : Bool)
    (p : Port) : Int × Port :=
  hub.SendCommand header [if payload then 49 else 48] p

/-- Source `ControlHub::SendCommand(unsigned char header)`. -/
def ControlHub.SendCommand_header (hub : ControlHub) (header : Nat) (p : Port) :
    Int × Port :=
  hub.SendCommand header [] p

/-- Source `ControlHub::AskAnswer(unsigned char header, std::string &answer)`: the
code, the value of `answer` afterwards, the port. -/
def ControlHub.AskAnswer (hub : ControlHub) (header : Nat) (answer : List Nat)
    (p : Port) : Int × List Nat × Port :=
  if !hub.portAvailable_ then (ERR_NO_PORT_SET, answer, p)
  else
    let msg := [ASCII_START, header, ASCII_END]
    let r1 := p.PurgeComPort
    if r1.1 ≠ DEVICE_OK then (r1.1, answer, r1.2)
    else
      let r2 := r1.2.WriteToComPort msg
      if r2.1 ≠ DEVICE_OK then (r2.1, answer, r2.2)
      else
        let r3 := r2.2.pollByte SERIAL_TIMEOUT ASCII_NACK
        match r3.1 with
        | Except.error ret => (ret, answer, r3.2)
        | Except.ok answer_ =>
          if answer_ ≠ ASCII_ACK then (ERR_COMMUNICATION, answer, r3.2)
          else r3.2.GetSerialAnswer answer

/-! ## Text to number conversions of the C++ library -/

/-- The characters `isspace` accepts. -/
def isSpace (c : Nat) : Bool := c == 32 || (9 ≤ c && c ≤ 13)

/-- The decimal digits. -/
def isDigit (c : Nat) : Bool := 48 ≤ c && c ≤ 57

/-- The value of a run of decimal digits. -/
def decValue (ds : List Nat) : Int :=
  ds.foldl (fun acc c => acc * 10 + ((c - 48 : Nat) : Int)) 0

/-- Split an optional sign off the front of a text. -/
def splitSign : List Nat → Bool × List Nat
  | 45 :: t => (true, t)
  | 43 :: t => (false, t)
  | s => (false, s)

/-- Source `std::stoi(str)`: leading white space, an optional sign and decimal digits;
what follows the digits is ignored. `none` when it throws
(`std::invalid_argument` without a digit, `std::out_of_range` outside `int`). -/
def stoi (s : List Nat) : Option Int :=
  let s2 := splitSign (s.dropWhile isSpace)
  let ds := s2.2.takeWhile isDigit
  if ds = [] then none
  else
    let v := if s2.1 then - decValue ds else decValue ds
    if v < - 2 ^ 31 ∨ 2 ^ 31 - 1 < v then none else some v

/-- Source `std::istringstream is(answer); is >> version;` for an `int`: the value
of `version` afterwards. On a text that is empty or white space only the
extraction does not take place (the stream is at its end after the leading
white space) and `version` keeps its value. Otherwise, without a digit after
the optional sign the extraction fails and stores `0`; a value outside `int`
fails and stores the nearest bound. -/
def extractInt (version : Int) (s : List Nat) : Int :=
  if s.dropWhile isSpace = [] then version
  else
    let s2 := splitSign (s.dropWhile isSpace)
    let ds := s2.2.takeWhile isDigit
    if ds = [] then 0
    else
      let v := if s2.1 then - decValue ds else decValue ds
      if v < - 2 ^ 31 then - 2 ^ 31 else if 2 ^ 31 - 1 < v then 2 ^ 31 - 1 else v

/-- The tokens the loop `while (getline(ss, substr, '-'))` visits: the text is
cut at every `-`; a text that is empty or ends in `-` has no empty last token.
The first argument is the token being read. -/
def getlineTokens : List Nat → List Nat → List (List Nat)
  | cur, [] => if cur = [] then [] else [cur]
  | cur, c :: cs =>
    if c = 45 then cur :: getlineTokens [] cs else getlineTokens (cur ++ [c]) cs

/-! ## Arithmetic on `double`

A `double` is the rational number it stands for. The two operations of
`(timeMs * 1000) + 0.5` each deliver the double nearest to the exact result
(IEEE 754 binary64, round to nearest, ties to even). -/

/-- The number of binary digits of `n` (none for 0). The first argument bounds
the number of digits. -/
def bitLength : Nat → Nat → Nat
  | 0, _ => 0
  | fuel + 1, n => if n = 0 then 0 else bitLength fuel (n / 2) + 1

/-- The power `2 ^ e` for an integer exponent. -/
def pow2 (e : Int) : ℚ :=
  if 0 ≤ e then ((2 ^ e.toNat : Nat) : ℚ) else 1 / ((2 ^ (- e).toNat : Nat) : ℚ)

/-- The exponent of the highest binary digit of a positive `x`: the integer part
of its logarithm to base 2. -/
def floorLog2 (x : ℚ) : Int :=
  let k : Int := (bitLength x.num.toNat x.num.toNat : Int) - (bitLength x.den x.den : Int)
  if pow2 k ≤ x then k else k - 1

/-- The integer nearest to `x`; of two that are equally near, the even one. -/
def roundHalfEven (x : ℚ) : Int :=
  if x - (Rat.floor x : ℚ) < 1 / 2 then Rat.floor x
  else if 1 / 2 < x - (Rat.floor x : ℚ) then Rat.floor x + 1
  else if Rat.floor x % 2 = 0 then Rat.floor x else Rat.floor x + 1

/-- The `double` nearest to `x`: 53 significant binary digits, the last of weight
`2 ^ -1074` at least, ties to even. Magnitudes are taken to stay below the
overflow threshold of `double`. -/
def roundDouble (x : ℚ) : ℚ :=
  if x = 0 then 0
  else (roundHalfEven (x / pow2 (max (floorLog2 |x| - 52) (-1074))) : ℚ)
    * pow2 (max (floorLog2 |x| - 52) (-1074))

/-! ## `ControlHub`: version query, helpers -/

/-- Source `FIRMWARE_ID = "MM-AC"`. -/
def FIRMWARE_ID : List Nat := [77, 77, 45, 65, 67]

def g_Min_MMVersion : Int := 1
def g_Max_MMVersion : Int := 2

/-- Source `ControlHub::GetControllerVersion(int &version)`: the code, the value of
`version` afterwards, the port. -/
def ControlHub.GetControllerVersion (hub : ControlHub) (version : Int) (p : Port) :
    Int × Int × Port :=
  let r1 := hub.AskAnswer HEADER_FIRMWARE [] p
  if r1.1 ≠ DEVICE_OK then (r1.1, version, r1.2.2)
  else if r1.2.1 ≠ FIRMWARE_ID then (ERR_BOARD_NOT_FOUND, version, r1.2.2)
  else
    let r2 := hub.AskAnswer HEADER_VERSION r1.2.1 r1.2.2
    if r2.1 ≠ DEVICE_OK then (r2.1, version, r2.2.2)
    else (r2.1, extractInt version r2.2.1, r2.2.2)

/-- Source `ControlHub::GetSequenceLength()`. -/
def ControlHub.GetSequenceLength (hub : ControlHub) : Int :=
  (hub.NSteps_ : Int) * (hub.NFrames_ : Int)

/-- Source `AnalogMod::ResetModulation()`. -/
def AnalogMod.ResetModulation (m : AnalogMod) : AnalogMod :=
  { m with modulationA_ := [], modulationD_ := [] }

/-- Source `ControlHub::ResetModulations()`: the loop over `modulators_`. -/
def ControlHub.ResetModulations (modulators : List Nat) (mods : List AnalogMod) : List AnalogMod :=
  modulators.foldl (fun ms i => List.modify AnalogMod.ResetModulation i ms) mods

/-- Source `ControlHub::SendTimeMs(unsigned char header, double timeMs)`: the
product `timeMs * 1000` and the sum with `0.5` are each rounded to a `double`;
the cast `(unsigned long)` drops the fraction. -/
def ControlHub.SendTimeMs (hub : ControlHub) (header : Nat) (timeMs : ℚ) (p : Port) :
    Int × Port :=
  if timeMs < 0 then (ERR_INVALID_VALUE, p)
  else
    hub.SendCommand_ulong header
      (Rat.floor (roundDouble (roundDouble (timeMs * 1000) + 1 / 2))).toNat p

/-- The value `deltaT` that `ControlHub::UpdateDeltaT()` computes. -/
def ControlHub.stepTime (hub : ControlHub) : ℚ :=
  let masterT := if hub.loopFrame_ || decide (hub.exposure_ = 0) then hub.frameT_
    else hub.exposure_
  if hub.NSteps_ ≠ 0 then masterT / (hub.NSteps_ : ℚ) else 0

/-- Source `ControlHub::UpdateDeltaT()`. -/
def ControlHub.UpdateDeltaT (w : World) : Int × World :=
  let deltaT := w.hub.stepTime
  let r := w.hub.SendTimeMs HEADER_DELTAT deltaT w.port
  if r.1 ≠ DEVICE_OK then (r.1, { w with port := r.2 })
  else (DEVICE_OK, { w with port := r.2, hub := { w.hub with deltaT_ := deltaT } })

/-! ## `ControlHub`: the property handlers

Each handler is its `MM::AfterSet` branch, the write of a property; the argument
is the value `pProp->Get` delivers. The `MM::BeforeGet` branch copies the cached
field into the property and touches neither the state nor the port. -/

/-- Source `ControlHub::OnPort`. -/
def ControlHub.OnPort (w : World) : Int × World :=
  (DEVICE_OK, { w with hub := { w.hub with portAvailable_ := true } })

/-- Source `ControlHub::OnExposure`. -/
def ControlHub.OnExposure (w : World) (exposureMs : ℚ) : Int × World :=
  let r := w.hub.SendTimeMs HEADER_EXPOSURE exposureMs w.port
  if r.1 ≠ DEVICE_OK then (r.1, { w with port := r.2 })
  else
    ControlHub.UpdateDeltaT
      { w with port := r.2, hub := { w.hub with exposure_ := exposureMs } }

/-- Source `ControlHub::OnFrameT`. -/
def ControlHub.OnFrameT (w : World) (frameT : ℚ) : Int × World :=
  if frameT ≤ 0 then (ERR_INVALID_VALUE, w)
  else
    let r := ControlHub.UpdateDeltaT w
    if r.1 ≠ DEVICE_OK then r
    else (DEVICE_OK, { r.2 with hub := { r.2.hub with frameT_ := frameT } })

/-- Source `ControlHub::OnWaitBefore`. -/
def ControlHub.OnWaitBefore (w : World) (waitBefore : ℚ) : Int × World :=
  let r := w.hub.SendTimeMs HEADER_WAITBEFORE waitBefore w.port
  if r.1 ≠ DEVICE_OK then (r.1, { w with port := r.2 })
  else (DEVICE_OK, { w with port := r.2, hub := { w.hub with waitBefore_ := waitBefore } })

/-- Source `ControlHub::OnWaitAfter`. -/
def ControlHub.OnWaitAfter (w : World) (waitAfter : ℚ) : Int × World :=
  let r := w.hub.SendTimeMs HEADER_WAITAFTER waitAfter w.port
  if r.1 ≠ DEVICE_OK then (r.1, { w with port := r.2 })
  else (DEVICE_OK, { w with port := r.2, hub := { w.hub with waitAfter_ := waitAfter } })

/-- Source `ControlHub::OnNSteps`. The product `NFrames_ * NSteps` is a `long`; for a
request within the limits 0..255 of the property it cannot overflow. -/
def ControlHub.OnNSteps (w : World) (NSteps : Int) : Int × World :=
  if NSteps = (w.hub.NSteps_ : Int) ∧ NSteps ≠ 0 then (DEVICE_OK, w)
  else if (w.hub.NFrames_ : Int) * NSteps > MAX_MOD_LENGTH then (ERR_NMOD, w)
  else
    let r := w.hub.SendCommand_byte HEADER_NSTEPS (toByte NSteps) w.port
    if r.1 ≠ DEVICE_OK then (r.1, { w with port := r.2 })
    else
      ControlHub.UpdateDeltaT
        { w with
          port := r.2
          mods := ControlHub.ResetModulations w.hub.modulators_ w.mods
          hub := { w.hub with NSteps_ := toByte NSteps, digMod_ := false, anaMod_ := false } }

/-- Source `ControlHub::OnNFrames`. The product `NFrames * NSteps_` is a `long`; for a
request within the limits 0..255 of the property it cannot overflow. -/
def ControlHub.OnNFrames (w : World) (NFrames : Int) : Int × World :=
  if NFrames = (w.hub.NFrames_ : Int) ∧ NFrames ≠ 0 then (DEVICE_OK, w)
  else if NFrames * (w.hub.NSteps_ : Int) > MAX_MOD_LENGTH then (ERR_NMOD, w)
  else
    let r := w.hub.SendCommand_byte HEADER_NFRAMES (toByte NFrames) w.port
    if r.1 ≠ DEVICE_OK then (r.1, { w with port := r.2 })
    else
      (DEVICE_OK,
        { w with
          port := r.2
          mods := ControlHub.ResetModulations w.hub.modulators_ w.mods
          hub := { w.hub with NFrames_ := toByte NFrames, digMod_ := false, anaMod_ := false } })

/-- Source `ControlHub::OnDigMod`. -/
def ControlHub.OnDigMod (w : World) (digMod : Int) : Int × World :=
  if digMod ≠ 0 ∧ (w.hub.GetSequenceLength = 0 ∨ w.hub.deltaT_ = 0) then (ERR_NMOD, w)
  else
    let r := w.hub.SendCommand_bool HEADER_DIGMOD (decide (digMod ≠ 0)) w.port
    if r.1 ≠ DEVICE_OK then (r.1, { w with port := r.2 })
    else (DEVICE_OK, { w with port := r.2, hub := { w.hub with digMod_ := decide (digMod ≠ 0) } })

/-- Source `ControlHub::OnAnaMod`. -/
def ControlHub.OnAnaMod (w : World) (anaMod : Int) : Int × World :=
  if anaMod ≠ 0 ∧ (w.hub.GetSequenceLength = 0 ∨ w.hub.deltaT_ = 0) then (ERR_NMOD, w)
  else
    let r := w.hub.SendCommand_bool HEADER_ANAMOD (decide (anaMod ≠ 0)) w.port
    if r.1 ≠ DEVICE_OK then (r.1, { w with port := r.2 })
    else (DEVICE_OK, { w with port := r.2, hub := { w.hub with anaMod_ := decide (anaMod ≠ 0) } })

/-- Source `ControlHub::OnLoopFrame`. -/
def ControlHub.OnLoopFrame (w : World) (loopFrame : Int) : Int × World :=
  let r := w.hub.SendCommand_bool HEADER_LOOPF (decide (loopFrame ≠ 0)) w.port
  if r.1 ≠ DEVICE_OK then (r.1, { w with port := r.2 })
  else
    ControlHub.UpdateDeltaT
      { w with port := r.2, hub := { w.hub with loopFrame_ := decide (loopFrame ≠ 0) } }

/-- Source `ControlHub::OnAcquire`. -/
def ControlHub.OnAcquire (w : World) (acquireFrames : Int) : Int × World :=
  if acquireFrames ≠ 0 ∧ w.hub.selectTrigger_ ≠ 4 then (ERR_TRIGGER, w)
  else
    let r := w.hub.SendCommand_int HEADER_ACQUIRE (toInt32 acquireFrames) w.port
    if r.1 ≠ DEVICE_OK then (r.1, { w with port := r.2 })
    else
      (DEVICE_OK,
        { w with port := r.2, hub := { w.hub with acquire_ := toInt32 acquireFrames } })

/-- Source `ControlHub::Initialize()`. The calls into the device framework
(`CreateProperty`, `UpdateStatus`, `SetPropertyLimits`, `SetAllowedValues`) are
taken to return `DEVICE_OK`; the result of the reset command is not looked at. -/
def ControlHub.Initialize (w : World) : Int × World :=
  let r := w.hub.GetControllerVersion w.hub.version_ w.port
  let w1 : World := { w with port := r.2.2, hub := { w.hub with version_ := r.2.1 } }
  if r.1 ≠ DEVICE_OK then (r.1, w1)
  else if r.2.1 < g_Min_MMVersion ∨ r.2.1 > g_Max_MMVersion then (ERR_VERSION_MISMATCH, w1)
  else
    let r2 := w1.hub.SendCommand_header HEADER_RESET w1.port
    (DEVICE_OK, { w1 with port := r2.2, hub := { w1.hub with initialized_ := true } })

/-- Source `ControlHub::Shutdown()`. -/
def ControlHub.Shutdown (w : World) : Int × World :=
  let p := if w.hub.initialized_ then (w.hub.SendCommand_header HEADER_RESET w.port).2
    else w.port
  (DEVICE_OK, { w with port := p, hub := { w.hub with initialized_ := false } })

/-! ## `TriggerSelect` and `EnableShutter` -/

/-- Source `TriggerSelect::Initialize()` (framework calls taken to succeed). -/
def TriggerSelect.Initialize (w : World) : Int × World :=
  if !w.hub.portAvailable_ then (ERR_NO_PORT_SET, w)
  else (DEVICE_OK, { w with hub := { w.hub with selectTrigger_ := 4 } })

/-- Source `TriggerSelect::OnState`, the write of the position. -/
def TriggerSelect.OnState (w : World) (pos : Int) : Int × World :=
  if !w.hub.portAvailable_ then (ERR_NO_PORT_SET, w)
  else
    let r := w.hub.SendCommand_byte HEADER_TRIGGER (toByte pos) w.port
    if r.1 ≠ DEVICE_OK then (r.1, { w with port := r.2 })
    else
      (DEVICE_OK,
        { w with
          port := r.2
          trigger := { position_ := pos }
          hub := { w.hub with selectTrigger_ := pos } })

/-- Source `EnableShutter::OnEnable`, the write of the enable flag. -/
def EnableShutter.OnEnable (w : World) (pos : Int) : Int × World :=
  let r := w.hub.SendCommand_bool HEADER_ENABLE (decide (pos ≠ 0)) w.port
  if r.1 ≠ DEVICE_OK then (r.1, { w with port := r.2 })
  else (DEVICE_OK, { w with port := r.2, shutter := { enabled_ := decide (pos ≠ 0) } })

/-! ## `AnalogMod` -/

/-- How a call ends: with a result code, with an exception of `std::stoi` that
nothing catches, or (for a write addressed to a device that does not exist) not
at all. -/
inductive Result where
  | ret (code : Int)
  | thrown
  | noDevice
deriving DecidableEq, Repr

/-- The call `snprintf(payload, 2, "%d", channel_)`. -/
def AnalogMod.channelText (m : AnalogMod) : Nat × List Nat :=
  snprintf 2 (fmtDec m.channel_)

/-- The loop `while (getline(ss, substr, '-'))` of `AnalogMod::SendModulationA`
over the tokens of the text: the scaled values, or the way the loop is left. -/
def AnalogMod.scanA (m : AnalogMod) : List (List Nat) → Except Result (List Int)
  | [] => Except.ok []
  | substr :: rest =>
    match stoi substr with
    | none => Except.error Result.thrown
    | some val =>
      if val > 255 ∨ val < 0 then Except.error (Result.ret ERR_INVALID_VALUE)
      else
        match scanA m rest with
        | Except.error e => Except.error e
        | Except.ok values =>
          Except.ok (toInt32 (Int.tdiv (val * m.amplitude_) 255) :: values)

/-- The payload `AnalogMod::SendModulationA` builds: the channel, then the
first two characters of `%02x` of every value. -/
def AnalogMod.payloadA (m : AnalogMod) (values : List Int) : List Nat :=
  m.channelText.2 ++ (values.map fun v => (snprintf 3 (fmtHex 2 (toUInt32 v))).2).flatten

/-- The assertions `ret == 1` and `ret == 2` of `AnalogMod::SendModulationA`. -/
def AnalogMod.assertsA (m : AnalogMod) (values : List Int) : Bool :=
  m.channelText.1 == 1 && values.all fun v => (snprintf 3 (fmtHex 2 (toUInt32 v))).1 == 2

/-- Source `AnalogMod::SendModulationA(std::string modString)`. -/
def AnalogMod.SendModulationA (hub : ControlHub) (m : AnalogMod) (modString : List Nat)
    (p : Port) : Result × Port :=
  if !hub.portAvailable_ then (Result.ret ERR_NO_PORT_SET, p)
  else
    match m.scanA (getlineTokens [] modString) with
    | Except.error e => (e, p)
    | Except.ok values =>
      if (values.length : Int) ≠ hub.GetSequenceLength then (Result.ret ERR_MOD_LENGTH, p)
      else
        let r := hub.SendCommand HEADER_MODA (m.payloadA values) (p.assert (m.assertsA values))
        (Result.ret r.1, r.2)

/-- Source `AnalogMod::OnAmplitude`, the write of the amplitude. -/
def AnalogMod.OnAmplitude (hub : ControlHub) (m : AnalogMod) (amplitude : Int) (p : Port) :
    Result × AnalogMod × Port :=
  if !hub.portAvailable_ then (Result.ret ERR_NO_PORT_SET, m, p)
  else
    let s := snprintf 3 (fmtHex 2 (toByte amplitude))
    let r := hub.SendCommand HEADER_AMPLITUDE (m.channelText.2 ++ s.2)
      ((p.assert (m.channelText.1 == 1)).assert (s.1 == 2))
    if r.1 ≠ DEVICE_OK then (Result.ret r.1, m, r.2)
    else
      let m1 := { m with amplitude_ := amplitude }
      if m1.modulationA_ ≠ [] then
        let r2 := AnalogMod.SendModulationA hub m1 m1.modulationA_ r.2
        (r2.1, m1, r2.2)
      else (Result.ret DEVICE_OK, m1, r.2)

/-- Source `AnalogMod::OnGate`, the write of the gate. -/
def AnalogMod.OnGate (hub : ControlHub) (m : AnalogMod) (gate : Int) (p : Port) :
    Result × AnalogMod × Port :=
  if !hub.portAvailable_ then (Result.ret ERR_NO_PORT_SET, m, p)
  else
    let r := hub.SendCommand HEADER_GATE (m.channelText.2 ++ [if gate ≠ 0 then 49 else 48])
      (p.assert (m.channelText.1 == 1))
    if r.1 ≠ DEVICE_OK then (Result.ret r.1, m, r.2)
    else (Result.ret DEVICE_OK, { m with gate_ := decide (gate ≠ 0) }, r.2)

/-- Source `AnalogMod::OnModulationA`, the write of the analog table. -/
def AnalogMod.OnModulationA (hub : ControlHub) (m : AnalogMod) (modTableA : List Nat)
    (p : Port) : Result × AnalogMod × Port :=
  if !hub.portAvailable_ then (Result.ret ERR_NO_PORT_SET, m, p)
  else
    let r := AnalogMod.SendModulationA hub m modTableA p
    if r.1 ≠ Result.ret DEVICE_OK then (r.1, m, r.2)
    else (Result.ret DEVICE_OK, { m with modulationA_ := modTableA }, r.2)

/-- The loop `while (getline(ss, substr, '-'))` of `AnalogMod::OnModulationD`,
whose body catches the exceptions of `std::stoi`: the values, or the code the
handler returns from inside the loop. -/
def scanD : List (List Nat) → Except Int (List Bool)
  | [] => Except.ok []
  | substr :: rest =>
    match stoi substr with
    | none => Except.error ERR_INVALID_VALUE
    | some val =>
      if val > 1 ∨ val < 0 then Except.error ERR_INVALID_VALUE
      else
        match scanD rest with
        | Except.error e => Except.error e
        | Except.ok values => Except.ok (decide (val ≠ 0) :: values)

/-- The payload `AnalogMod::OnModulationD` builds. -/
def AnalogMod.payloadD (m : AnalogMod) (values : List Bool) : List Nat :=
  m.channelText.2 ++ values.map fun v => if v then 49 else 48

/-- Source `AnalogMod::OnModulationD`, the write of the digital table. -/
def AnalogMod.OnModulationD (hub : ControlHub) (m : AnalogMod) (modTableD : List Nat)
    (p : Port) : Result × AnalogMod × Port :=
  if !hub.portAvailable_ then (Result.ret ERR_NO_PORT_SET, m, p)
  else
    match scanD (getlineTokens [] modTableD) with
    | Except.error e => (Result.ret e, m, p)
    | Except.ok values =>
      if (values.length : Int) ≠ hub.GetSequenceLength then (Result.ret ERR_MOD_LENGTH, m, p)
      else
        let r := hub.SendCommand HEADER_MODD (m.payloadD values)
          (p.assert (m.channelText.1 == 1))
        if r.1 ≠ DEVICE_OK then (Result.ret r.1, m, r.2)
        else (Result.ret DEVICE_OK, { m with modulationD_ := modTableD }, r.2)

/-- Run a handler of the `AnalogMod` device at position `i`. -/
def World.onMod (w : World) (i : Nat)
    (f : ControlHub → AnalogMod → Port → Result × AnalogMod × Port) : Result × World :=
  match w.mods[i]? with
  | none => (Result.noDevice, w)
  | some m =>
    ((f w.hub m w.port).1,
      { w with mods := w.mods.set i (f w.hub m w.port).2.1, port := (f w.hub m w.port).2.2 })

/-- Source `AnalogMod::Initialize()` of the device at position `i` (framework calls
taken to succeed): it ends with `hub->RegisterModulator(this)`. -/
def AnalogMod.Initialize (w : World) (i : Nat) : Result × World :=
  match w.mods[i]? with
  | none => (Result.noDevice, w)
  | some _ =>
    if !w.hub.portAvailable_ then (Result.ret ERR_NO_PORT_SET, w)
    else
      (Result.ret DEVICE_OK,
        { w with hub := { w.hub with modulators_ := w.hub.modulators_ ++ [i] } })

/-! ## The system as a state machine -/

/-- What can happen to the system: the calls the device framework makes into
the adapter, and time passing between two calls. -/
inductive Action where
  | OnPort
  | HubInitialize
  | HubShutdown
  | OnExposure (exposureMs : ℚ)
  | OnFrameT (frameT : ℚ)
  | OnWaitBefore (waitBefore : ℚ)
  | OnWaitAfter (waitAfter : ℚ)
  | OnNSteps (NSteps : Int)
  | OnNFrames (NFrames : Int)
  | OnDigMod (digMod : Int)
  | OnAnaMod (anaMod : Int)
  | OnLoopFrame (loopFrame : Int)
  | OnAcquire (acquireFrames : Int)
  | TriggerInitialize
  | OnState (pos : Int)
  | OnEnable (pos : Int)
  | ModInitialize (i : Nat)
  | OnAmplitude (i : Nat) (amplitude : Int)
  | OnGate (i : Nat) (gate : Int)
  | OnModulationA (i : Nat) (modTableA : List Nat)
  | OnModulationD (i : Nat) (modTableD : List Nat)
  | elapse (dt : Nat)
deriving DecidableEq

/-- Lift a hub result to `Result`. -/
def liftRet (r : Int × World) : Result × World := (Result.ret r.1, r.2)

/-- One call. -/
def step (w : World) : Action → Result × World
  | Action.OnPort => liftRet (ControlHub.OnPort w)
  | Action.HubInitialize => liftRet (ControlHub.Initialize w)
  | Action.HubShutdown => liftRet (ControlHub.Shutdown w)
  | Action.OnExposure v => liftRet (ControlHub.OnExposure w v)
  | Action.OnFrameT v => liftRet (ControlHub.OnFrameT w v)
  | Action.OnWaitBefore v => liftRet (ControlHub.OnWaitBefore w v)
  | Action.OnWaitAfter v => liftRet (ControlHub.OnWaitAfter w v)
  | Action.OnNSteps n => liftRet (ControlHub.OnNSteps w n)
  | Action.OnNFrames n => liftRet (ControlHub.OnNFrames w n)
  | Action.OnDigMod n => liftRet (ControlHub.OnDigMod w n)
  | Action.OnAnaMod n => liftRet (ControlHub.OnAnaMod w n)
  | Action.OnLoopFrame n => liftRet (ControlHub.OnLoopFrame w n)
  | Action.OnAcquire n => liftRet (ControlHub.OnAcquire w n)
  | Action.TriggerInitialize => liftRet (TriggerSelect.Initialize w)
  | Action.OnState pos => liftRet (TriggerSelect.OnState w pos)
  | Action.OnEnable pos => liftRet (EnableShutter.OnEnable w pos)
  | Action.ModInitialize i => AnalogMod.Initialize w i
  | Action.OnAmplitude i a => w.onMod i fun hub m p => AnalogMod.OnAmplitude hub m a p
  | Action.OnGate i g => w.onMod i fun hub m p => AnalogMod.OnGate hub m g p
  | Action.OnModulationA i s => w.onMod i fun hub m p => AnalogMod.OnModulationA hub m s p
  | Action.OnModulationD i s => w.onMod i fun hub m p => AnalogMod.OnModulationD hub m s p
  | Action.elapse dt =>
    (Result.ret DEVICE_OK, { w with port := { w.port with now := w.port.now + dt } })

/-- The requested step and frame counts respect `SetPropertyLimits(.., 0, 255)`. -/
def Action.countsInRange : Action → Prop
  | Action.OnNSteps n => 0 ≤ n ∧ n ≤ 255
  | Action.OnNFrames n => 0 ≤ n ∧ n ≤ 255
  | _ => True

/-- The value written respects the limits and allowed values the adapter
declares for the property (`SetPropertyLimits`, `SetAllowedValues`); the
framework does not call the handler otherwise. -/
def Action.withinLimits : Action → Prop
  | Action.OnNSteps n => 0 ≤ n ∧ n ≤ 255
  | Action.OnNFrames n => 0 ≤ n ∧ n ≤ 255
  | Action.OnDigMod n => n = 0 ∨ n = 1
  | Action.OnAnaMod n => n = 0 ∨ n = 1
  | Action.OnLoopFrame n => n = 0 ∨ n = 1
  | Action.OnState pos => 0 ≤ pos ∧ pos ≤ 4
  | Action.OnEnable pos => pos = 0 ∨ pos = 1
  | Action.OnAmplitude _ a => 0 ≤ a ∧ a ≤ 255
  | Action.OnGate _ g => g = 0 ∨ g = 1
  | _ => True

/-- The hub as `ControlHub::ControlHub()` leaves it. -/
def ControlHub.new : ControlHub :=
  { modulators_ := [], selectTrigger_ := -1, initialized_ := false, portAvailable_ := false,
    version_ := -1, exposure_ := 10, frameT_ := 10, deltaT_ := 0, waitBefore_ := 10,
    waitAfter_ := 10, NSteps_ := 0, NFrames_ := 0, acquire_ := 0, digMod_ := false,
    anaMod_ := false, loopFrame_ := false }

/-- A channel as `AnalogMod::AnalogMod(channel, deviceName)` leaves it. -/
def AnalogMod.new (channel : Nat) : AnalogMod :=
  { channel_ := channel, gate_ := false, amplitude_ := 0, modulationA_ := [],
    modulationD_ := [] }

/-- A port on which nothing has happened yet, with the behaviour to come. -/
def Port.new (purgeScript writeScript : List Int) (readScript : List ReadEvent)
    (answerScript : List (Int × List Nat)) (now : Nat) : Port :=
  { purgeScript := purgeScript, writeScript := writeScript, readScript := readScript,
    answerScript := answerScript, now := now, written := [], purges := 0, answersRead := 0,
    assertFailed := false }

/-- The system after the constructors: the hub, the trigger selector
(`position_(4)`), the shutter (`enabled_(false)`) and one `AnalogMod` per entry
of `channels`. -/
def World.new (channels : List Nat) (port : Port) : World :=
  { hub := ControlHub.new, trigger := { position_ := 4 }, shutter := { enabled_ := false },
    mods := channels.map AnalogMod.new, port := port }

/-- The states the system reaches from its initial state by calls that satisfy
`ok`, whatever the port does. -/
inductive ReachableBy (ok : Action → Prop) : World → Prop where
  | init (channels : List Nat) (purgeScript writeScript : List Int)
      (readScript : List ReadEvent) (answerScript : List (Int × List Nat)) (now : Nat) :
      ReachableBy ok
        (World.new channels (Port.new purgeScript writeScript readScript answerScript now))
  | step {w : World} (a : Action) : ReachableBy ok w → ok a → ReachableBy ok (step w a).2

/-- The states the system reaches when the framework enforces the declared
limits of every property. -/
def Reachable (w : World) : Prop := ReachableBy Action.withinLimits w

/-! ## What a port is about to do -/

/-- The next exchange on the port passes `PurgeComPort` and `WriteToComPort`. -/
def Port.Accepts (p : Port) : Prop :=
  p.purgeScript.headD DEVICE_OK = DEVICE_OK ∧ p.writeScript.headD DEVICE_OK = DEVICE_OK

/-- The reads of the script deliver `b` as the first byte, `dt` microseconds
after the last of the reads `pre` that come back empty, and before `timeout`
microseconds have passed. -/
def FirstByte (timeout : Nat) (script pre : List ReadEvent) (dt b : Nat)
    (rest : List ReadEvent) : Prop :=
  script = pre ++ { dt := dt, ret := DEVICE_OK, data := some b } :: rest ∧
    (∀ e ∈ pre, e.ret = DEVICE_OK ∧ e.data = none) ∧
    (pre.map ReadEvent.dt).sum < timeout

/-- The next exchange on the port passes purge and write, and the first
response byte, within `SERIAL_TIMEOUT`, is `b`. -/
def Port.Delivers (p : Port) (b : Nat) : Prop :=
  p.Accepts ∧ ∃ pre dt rest, FirstByte SERIAL_TIMEOUT p.readScript pre dt b rest

instance Action.decCountsInRange (a : Action) : Decidable a.countsInRange := by
  cases a <;> unfold Action.countsInRange <;> infer_instance

instance Action.decWithinLimits (a : Action) : Decidable a.withinLimits := by
  cases a <;> unfold Action.withinLimits <;> infer_instance

/-- A sequence of calls, one after the other. -/
def run (w : World) : List Action → World
  | [] => w
  | a :: as => run (step w a).2 as

/-- Every registered modulator has empty cached tables. -/
def World.tablesEmpty (w : World) : Prop :=
  ∀ i ∈ w.hub.modulators_, ∀ m, w.mods[i]? = some m →
    m.modulationA_ = [] ∧ m.modulationD_ = []

/-! ## Sample behaviours and states -/

/-- A read that delivers `ASCII_ACK` after one millisecond. -/
def ackEvent : ReadEvent := { dt := 1000, ret := DEVICE_OK, data := some ASCII_ACK }

/-- A fresh port that acknowledges the next sixteen frames. -/
def ackPort : Port := Port.new [] [] (List.replicate 16 ackEvent) [] 0

/-- The four channels of `CreateDevice` on an acknowledging port, after the port
is set, the trigger selector and the first channel are initialised, the
sequence is 5 steps by 2 frames and the amplitude of the first channel is 255. -/
def sampleWorld : World :=
  run (World.new [2, 0, 1, 3] ackPort)
    [Action.OnPort, Action.TriggerInitialize, Action.ModInitialize 0, Action.OnNSteps 5,
      Action.OnNFrames 2, Action.OnAmplitude 0 255]

/-- The table text `0-25-50-75-100-125-150-175-200-255`. -/
def sampleTable : List Nat :=
  [48, 45, 50, 53, 45, 53, 48, 45, 55, 53, 45, 49, 48, 48, 45, 49, 50, 53, 45, 49, 53, 48, 45,
    49, 55, 53, 45, 50, 48, 48, 45, 50, 53, 53]

/-- The sample state after the first channel has accepted the sample table. -/
def tableWorld : World := (step sampleWorld (Action.OnModulationA 0 sampleTable)).2

/-- The token converts (`std::stoi` does not throw) to a value in `0..hi`. -/
def tokenInRange (hi : Int) (tok : List Nat) : Prop :=
  match stoi tok with
  | some v => 0 ≤ v ∧ v ≤ hi
  | none => False

instance tokenInRange.dec (hi : Int) (tok : List Nat) : Decidable (tokenInRange hi tok) := by
  unfold tokenInRange
  split <;> infer_instance

/-! ## Fixed-width hexadecimal text and its decoding -/

/-- The `width` low-order hexadecimal digits of `v` as lowercase text, most
significant first: the text of `v` in `width` zero-padded digits when
`v < 16 ^ width`. -/
def hexText : Nat → Nat → List Nat
  | 0, _ => []
  | width + 1, v => hexText width (v / 16) ++ [digitChar (v % 16)]

/-- The value of one lowercase hexadecimal digit character. -/
def hexDigitValue (c : Nat) : Option Nat :=
  if 48 ≤ c ∧ c ≤ 57 then some (c - 48)
  else if 97 ≤ c ∧ c ≤ 102 then some (c - 87)
  else none

/-- Parse a text as a hexadecimal number (digits `0`..`9`, `a`..`f`), the
decoding on the controller's side of the wire. -/
def parseHex (s : List Nat) : Option Nat :=
  s.foldl (fun acc c => acc.bind fun a => (hexDigitValue c).map fun d => a * 16 + d) (some 0)

/-- The text is `width` characters, each a digit `0`..`9` or a lowercase letter
`a`..`f`, and parses as the hexadecimal number `v`. -/
def IsHexOf (width v : Nat) (s : List Nat) : Prop :=
  s.length = width ∧ (∀ c ∈ s, (48 ≤ c ∧ c ≤ 57) ∨ (97 ≤ c ∧ c ≤ 102)) ∧
    parseHex s = some v

/-- The sample state after the trigger selector has been moved to position 2
(`CamFireN`). -/
def auxTriggerWorld : World := (step sampleWorld (Action.OnState 2)).2

/-- The plain text of a table of values: their decimal texts, separated by `-`. -/
def renderTable : List Nat → List Nat
  | [] => []
  | [v] => fmtDec v
  | v :: w :: vs => fmtDec v ++ 45 :: renderTable (w :: vs)

/-- The four channels on an acknowledging port, after the port is set, the
sequence has 5 steps and the frame is looped: the step duration follows the
frame period (10 ms by default), `deltaT_` is 2 ms. -/
def loopWorld : World :=
  run (World.new [2, 0, 1, 3] ackPort)
    [Action.OnPort, Action.OnNSteps 5, Action.OnLoopFrame 1]

/-- The writes of the properties the adapter creates in the `Initialize`
functions: those of the hub (exposure, frame period, waits, NSteps, NFrames,
modulation enables, loop frame, acquire), the trigger selector, the enable gate
and the modulation channels. -/
def Action.isPropertyWrite : Action → Prop
  | Action.OnExposure _ => True
  | Action.OnFrameT _ => True
  | Action.OnWaitBefore _ => True
  | Action.OnWaitAfter _ => True
  | Action.OnNSteps _ => True
  | Action.OnNFrames _ => True
  | Action.OnDigMod _ => True
  | Action.OnAnaMod _ => True
  | Action.OnLoopFrame _ => True
  | Action.OnAcquire _ => True
  | Action.OnState _ => True
  | Action.OnEnable _ => True
  | Action.OnAmplitude _ _ => True
  | Action.OnGate _ _ => True
  | Action.OnModulationA _ _ => True
  | Action.OnModulationD _ _ => True
  | _ => False

instance Action.decIsPropertyWrite (a : Action) : Decidable a.isPropertyWrite := by
  cases a <;> unfold Action.isPropertyWrite <;> infer_instance

/-- The cached fields of the hub and of every endpoint: the state without the
port. -/
def World.cached (w : World) : ControlHub × TriggerSelect × EnableShutter × List AnalogMod :=
  (w.hub, w.trigger, w.shutter, w.mods)

/-- A read that delivers `ASCII_NACK` after one millisecond. -/
def nackEvent : ReadEvent := { dt := 1000, ret := DEVICE_OK, data := some ASCII_NACK }

/-- The four channels, port set, on a port that acknowledges the next frame and
answers the one after it with `ASCII_NACK`. -/
def halfAckWorld : World :=
  (step (World.new [2, 0, 1, 3] (Port.new [] [] [ackEvent, nackEvent] [] 0)) Action.OnPort).2

/-- The sample state on a port that answers the next frame with `ASCII_NACK`. -/
def nackWorld : World :=
  { tableWorld with port := Port.new [] [] [nackEvent] [] 0 }

/-- The number of microseconds `ControlHub::SendTimeMs` sends for a duration of
`timeMs` milliseconds: `(unsigned long)((timeMs * 1000) + 0.5)`, computed in
`double`. -/
def timeUs (timeMs : ℚ) : Nat :=
  (Rat.floor (roundDouble (roundDouble (timeMs * 1000) + 1 / 2))).toNat

/-- The digital table text `0-1-0-1-0-1-0-1-0-1`. -/
def sampleDigitalTable : List Nat :=
  [48, 45, 49, 45, 48, 45, 49, 45, 48, 45, 49, 45, 48, 45, 49, 45, 48, 45, 49]

/-- The states after `TriggerSelect::Initialize`: it has returned `DEVICE_OK`
on a selector as the constructor leaves it (the State property does not exist
before `Initialize` creates it, so no position has been written), and any calls
followed, except `TriggerSelect::Initialize` itself (a second call returns at
the `CreateProperty` of the State property, which exists, before
`SelectTrigger`). -/
inductive AfterTriggerInitialize : World → Prop where
  | init {w : World} : w.trigger.position_ = 4 →
      (TriggerSelect.Initialize w).1 = DEVICE_OK →
      AfterTriggerInitialize (TriggerSelect.Initialize w).2
  | step {w : World} (a : Action) : AfterTriggerInitialize w →
      a ≠ Action.TriggerInitialize → AfterTriggerInitialize (step w a).2

/-- The text begins, after white space and an optional sign, with a decimal
digit: it is numeric for `std::stoi` and for the extraction `is >> version`. -/
def beginsWithInteger (s : List Nat) : Prop :=
  (splitSign (s.dropWhile isSpace)).2.takeWhile isDigit ≠ []

instance beginsWithInteger.dec (s : List Nat) : Decidable (beginsWithInteger s) := by
  unfold beginsWithInteger
  infer_instance

/-- A fresh port that acknowledges the next four frames and answers the
firmware query with `MM-AC` and the version query with `2`. -/
def versionPort : Port :=
  Port.new [] [] (List.replicate 4 ackEvent)
    [(DEVICE_OK, [77, 77, 45, 65, 67]), (DEVICE_OK, [50])] 0

/-- A fresh port that acknowledges the next four frames and answers the
firmware query with `MM-AC` and the version query with `abc`. -/
def garbledVersionPort : Port :=
  Port.new [] [] (List.replicate 4 ackEvent)
    [(DEVICE_OK, [77, 77, 45, 65, 67]), (DEVICE_OK, [97, 98, 99])] 0

/-- A fresh port that acknowledges the next four frames and answers the
firmware query with `MM-AC` and the version query with an empty line. -/
def blankVersionPort : Port :=
  Port.new [] [] (List.replicate 4 ackEvent)
    [(DEVICE_OK, [77, 77, 45, 65, 67]), (DEVICE_OK, [])] 0

/-- A fresh port that acknowledges the next four frames and answers the
firmware query with `MM-AD`. -/
def otherBoardPort : Port :=
  Port.new [] [] (List.replicate 4 ackEvent) [(DEVICE_OK, [77, 77, 45, 65, 68])] 0

/-- The system after the constructors and the setting of the port. -/
def connectedWorld (port : Port) : World :=
  (step (World.new [2, 0, 1, 3] port) Action.OnPort).2

/-- What the hub's cached durations and modulation enables satisfy in every
state the calls reach: the exposure is not negative, the frame period is
positive, the step duration is not negative, and a set modulation enable comes
with a sequence of at least one step and a positive step duration. -/
def ControlHub.Consistent (hub : ControlHub) : Prop :=
  0 ≤ hub.exposure_ ∧ 0 < hub.frameT_ ∧ 0 ≤ hub.deltaT_ ∧
    ((hub.digMod_ = true ∨ hub.anaMod_ = true) →
      1 ≤ hub.NSteps_ * hub.NFrames_ ∧ 0 < hub.deltaT_)

/-- The sample state after digital modulation has been enabled. -/
def modulatedWorld : World := (step sampleWorld (Action.OnDigMod 1)).2

/-- The channel whose property a call writes, if it writes one. -/
def Action.channel? : Action → Option Nat
  | Action.OnAmplitude i _ => some i
  | Action.OnGate i _ => some i
  | Action.OnModulationA i _ => some i
  | Action.OnModulationD i _ => some i
  | _ => none

/-- The states the system reaches from its initial state, whatever the port
does, when the properties of a channel are written only once they exist:
`AnalogMod::Initialize` creates them and, the framework calls succeeding,
registers the channel with the hub before it returns. -/
inductive Operated : World → Prop where
  | init (channels : List Nat) (purgeScript writeScript : List Int)
      (readScript : List ReadEvent) (answerScript : List (Int × List Nat)) (now : Nat) :
      Operated
        (World.new channels (Port.new purgeScript writeScript readScript answerScript now))
  | step {w : World} (a : Action) : Operated w →
      (∀ i, a.channel? = some i → i ∈ w.hub.modulators_) → Operated (step w a).2

/-- The text is empty, or it has as many dash-separated tokens as the hub's
sequence is long and every token converts to a value in `0..hi`. -/
def tableFits (hub : ControlHub) (hi : Int) (text : List Nat) : Prop :=
  text = [] ∨
    ((getlineTokens [] text).length = hub.NSteps_ * hub.NFrames_ ∧
      ∀ tok ∈ getlineTokens [] text, tokenInRange hi tok)

/-- The cached tables of a channel fit the sequence of the hub: values in
0..255 for the analog table, 0 or 1 for the digital table. -/
def AnalogMod.tablesFit (m : AnalogMod) (hub : ControlHub) : Prop :=
  tableFits hub 255 m.modulationA_ ∧ tableFits hub 1 m.modulationD_

/-- Every channel either has empty tables or is registered with tables that
fit the sequence. -/
def World.tablesFit (w : World) : Prop :=
  ∀ i m, w.mods[i]? = some m →
    (m.modulationA_ = [] ∧ m.modulationD_ = []) ∨
      (i ∈ w.hub.modulators_ ∧ m.tablesFit w.hub)

/-! ## The single-channel illuminator adapter `ArdIllu`

Source `DeviceAdapters/ArdIllu/ArdIllu.cpp` and `ArdIllu.h`. The adapter talks to
the same kind of serial port; its codes and its one-byte responses are its
own. -/

namespace ArdIllu

def ERR_BOARD_NOT_FOUND : Int := 105
def ERR_COMMUNICATION : Int := 107
/-- The text `OFF`. -/
def OFF : List Nat := [79, 70, 70]

/-- The text `ON`. -/
def ON : List Nat := [79, 78]

end ArdIllu

/-- The cached fields of `ArdIllu`. -/
structure ArdIllu where
  initialized_ : Bool
  portAvailable_ : Bool
  external_ : Bool
  version_ : Int
  shutterState_ : List Nat
  intensityState_ : ℚ
  changedTime_ : Nat
deriving DecidableEq

/-- The device as `ArdIllu::ArdIllu()` leaves it. -/
def ArdIllu.new : ArdIllu :=
  { initialized_ := false, portAvailable_ := false, external_ := false, version_ := -1,
    shutterState_ := ArdIllu.OFF, intensityState_ := 0, changedTime_ := 0 }

/-- Source `ArdIllu::OnPort`, the write of the port name. -/
def ArdIllu.OnPort (d : ArdIllu) : Int × ArdIllu :=
  (DEVICE_OK, { d with portAvailable_ := true })

/-- A call of one of the two functions that talk to the controller. -/
inductive Call where
  | SendCommand (header : Nat) (payload : List Nat)
  | AskAnswer (header : Nat)
deriving DecidableEq, Repr

/-- The frame the call writes. -/
def Call.msg : Call → List Nat
  | Call.SendCommand header payload => [ASCII_START, header] ++ payload ++ [ASCII_END]
  | Call.AskAnswer header => [ASCII_START, header, ASCII_END]

/-- The statement a thread executes next: outside the two functions (`idle`),
the guard declaration, the port test, `PurgeComPort`, `WriteToComPort`,
`startTime = GetCurrentMMTime()`, the loop test with one `ReadFromComPort`, the
test of the response byte, `GetSerialAnswer`, the return. -/
inductive Pc where
  | idle
  | guard
  | portCheck
  | purge
  | write
  | clock
  | loop (startTime answer bytesRead : Nat)
  | test (answer : Nat)
  | getAnswer
  | ret (code : Int)
deriving DecidableEq, Repr

/-- A call made on the serial port. -/
inductive PortOp where
  | purge
  | write (msg : List Nat)
  | read
  | answer
deriving DecidableEq, Repr

/-- A thread: the calls it still has to make (the one in progress first), the
statement it executes next, the codes and the answer its calls returned. -/
structure Thread where
  todo : List Call
  pc : Pc
  returned : List Int
  answer : List Nat
deriving DecidableEq, Repr

/-- The threads, the lock `ControlHub::lock_` (the thread that holds it), the
port, and the calls made on the port so far, oldest first, each with the thread
that made it. -/
structure Sys where
  portAvailable_ : Bool
  lock_ : Option Nat
  port : Port
  threads : List Thread
  log : List (Nat × PortOp)
deriving DecidableEq

/-- One call `ReadFromComPort(port, buf, 1, bytesRead)` of a loop that gives up
at `deadline`: the code, the byte if one was read, the port. On an exhausted
script the line is silent until the deadline. -/
def Port.ReadFromComPort (p : Port) (deadline : Nat) : Int × Option Nat × Port :=
  match p.readScript with
  | [] => (DEVICE_OK, none, { p with now := max p.now deadline })
  | e :: es =>
    (e.ret, if e.ret = DEVICE_OK then e.data else none,
      { p with now := p.now + e.dt, readScript := es })

/-- Thread `t` moves on to the statement `pc`. -/
def Sys.goto (s : Sys) (t : Nat) (th : Thread) (pc : Pc) : Sys :=
  { s with threads := s.threads.set t { th with pc := pc } }

/-- Thread `t` executes its next statement; a thread that waits for the lock,
or has nothing left to do, stays where it is. -/
def Sys.step (s : Sys) (t : Nat) : Sys :=
  match s.threads[t]? with
  | none => s
  | some th =>
    match th.todo with
    | [] => s
    | call :: rest =>
      match th.pc with
      | Pc.idle => s.goto t th Pc.guard
      | Pc.guard =>
        if s.lock_ = none then { s.goto t th Pc.portCheck with lock_ := some t } else s
      | Pc.portCheck =>
        if !s.portAvailable_ then s.goto t th (Pc.ret ERR_NO_PORT_SET)
        else s.goto t th Pc.purge
      | Pc.purge =>
        let r := s.port.PurgeComPort
        { s.goto t th (if r.1 ≠ DEVICE_OK then Pc.ret r.1 else Pc.write) with
          port := r.2, log := s.log ++ [(t, PortOp.purge)] }
      | Pc.write =>
        let r := s.port.WriteToComPort call.msg
        { s.goto t th (if r.1 ≠ DEVICE_OK then Pc.ret r.1 else Pc.clock) with
          port := r.2, log := s.log ++ [(t, PortOp.write call.msg)] }
      | Pc.clock => s.goto t th (Pc.loop s.port.now ASCII_NACK 0)
      | Pc.loop startTime answer bytesRead =>
        if bytesRead < 1 ∧ s.port.now - startTime < SERIAL_TIMEOUT then
          let r := s.port.ReadFromComPort (startTime + SERIAL_TIMEOUT)
          { s.goto t th
              (if r.1 ≠ DEVICE_OK then Pc.ret r.1
                else
                  match r.2.1 with
                  | some b => Pc.loop startTime b 1
                  | none => Pc.loop startTime answer 0) with
            port := r.2.2, log := s.log ++ [(t, PortOp.read)] }
        else s.goto t th (Pc.test answer)
      | Pc.test answer =>
        if answer ≠ ASCII_ACK then s.goto t th (Pc.ret ERR_COMMUNICATION)
        else
          match call with
          | Call.SendCommand _ _ => s.goto t th (Pc.ret DEVICE_OK)
          | Call.AskAnswer _ => s.goto t th Pc.getAnswer
      | Pc.getAnswer =>
        let r := s.port.GetSerialAnswer th.answer
        { s with
          threads := s.threads.set t { th with pc := Pc.ret r.1, answer := r.2.1 }
          port := r.2.2, log := s.log ++ [(t, PortOp.answer)] }
      | Pc.ret code =>
        { s with
          threads := s.threads.set t
            { th with todo := rest, pc := Pc.idle, returned := th.returned ++ [code] }
          lock_ := none }

/-- The threads take their steps in the order of the schedule. -/
def Sys.run (s : Sys) : List Nat → Sys
  | [] => s
  | t :: ts => Sys.run (s.step t) ts

/-- Before any thread has moved: nobody holds the lock, every thread is outside
the two functions, nothing has been done on the port. -/
def Sys.Initial (s : Sys) : Prop :=
  s.lock_ = none ∧ s.log = [] ∧ ∀ th ∈ s.threads, th.pc = Pc.idle

/-- The thread is between the guard declaration and the end of the function:
it owns the guard. -/
def Pc.inside : Pc → Prop
  | Pc.idle => False
  | Pc.guard => False
  | _ => True

/-- The thread has made a call on the port in the exchange it is in, and has
not reached the return. -/
def Pc.begun : Pc → Prop
  | Pc.write => True
  | Pc.clock => True
  | Pc.loop _ _ _ => True
  | Pc.test _ => True
  | Pc.getAnswer => True
  | _ => False

/-- The calls on the port come exchange by exchange: the first call is a purge,
and every call other than a purge (which opens an exchange) comes right after
a call of the same thread. -/
def ExchangesApart (log : List (Nat × PortOp)) : Prop :=
  (∀ e, log[0]? = some e → e.2 = PortOp.purge) ∧
    ∀ k e1 e2, log[k]? = some e1 → log[k + 1]? = some e2 → e2.2 ≠ PortOp.purge → e2.1 = e1.1

/-- Two threads that have one command and one query to make, on a port that
acknowledges and answers `MM-AC`. -/
def twoThreads : Sys :=
  { portAvailable_ := true, lock_ := none, port := versionPort,
    threads := [
      { todo := [Call.SendCommand HEADER_NSTEPS [48, 53]], pc := Pc.idle, returned := [],
        answer := [] },
      { todo := [Call.AskAnswer HEADER_FIRMWARE], pc := Pc.idle, returned := [],
        answer := [] }],
    log := [] }

/-- What holds of the threads in every state they reach: a thread inside one of
the two functions holds the lock, a thread in the middle of an exchange made
the last call on the port, and the calls on the port come exchange by
exchange. -/
def Sys.Guarded (s : Sys) : Prop :=
  (∀ t th, s.threads[t]? = some th → th.pc.inside → s.lock_ = some t) ∧
    (∀ t th, s.threads[t]? = some th → th.pc.begun → ∃ l op, s.log = l ++ [(t, op)]) ∧
    ExchangesApart s.log

/-- A schedule that alternates between the two threads, then lets the second
one finish. -/
def twoThreadsSchedule : List Nat :=
  [0, 1, 0, 1, 0, 1, 0, 1, 0, 1, 0, 1, 0, 1, 0, 1, 0, 1, 0, 1, 1, 1, 1, 1, 1, 1, 1, 1, 1]

/-! # Lemmas and theorems -/

/-! ## The exchange: frame, acknowledgement, answer (C1, C2, C3) -/

theorem pollLoop_firstByte (timeout start dt b : Nat) (rest : List ReadEvent) :
    ∀ (pre : List ReadEvent) (now answer : Nat),
      (∀ e ∈ pre, e.ret = DEVICE_OK ∧ e.data = none) →
      (now - start) + (pre.map ReadEvent.dt).sum < timeout →
      pollLoop timeout start (pre ++ { dt := dt, ret := DEVICE_OK, data := some b } :: rest)
          now answer
        = (Except.ok b, now + (pre.map ReadEvent.dt).sum + dt, rest) := by
  intro pre
  induction pre with
  | nil =>
    intro now answer _ h
    simp at h
    simp [pollLoop, h]
  | cons e es ih =>
    intro now answer hs h
    have he := hs e (List.mem_cons_self _ _)
    simp only [List.map_cons, List.sum_cons] at h
    have h1 : now - start < timeout := by omega
    have h2 : (now + e.dt) - start + (es.map ReadEvent.dt).sum < timeout := by omega
    have := ih (now + e.dt) answer (fun x hx => hs x (List.mem_cons_of_mem _ hx)) h2
    simp only [List.cons_append, pollLoop, h1, if_true, he.1, ne_eq, not_true_eq_false,
      if_false, he.2, List.map_cons, List.sum_cons]
    show pollLoop timeout start (es ++ _) (now + e.dt) answer = _
    rw [this]
    simp [Nat.add_assoc]

theorem pollLoop_written (p : Port) (timeout answer : Nat) :
    (p.pollByte timeout answer).2.written = p.written ∧
    (p.pollByte timeout answer).2.answersRead = p.answersRead ∧
    (p.pollByte timeout answer).2.answerScript = p.answerScript ∧
    (p.pollByte timeout answer).2.assertFailed = p.assertFailed := by
  simp [Port.pollByte]

theorem purge_fields (p : Port) :
    p.PurgeComPort.1 = p.purgeScript.headD DEVICE_OK ∧
    p.PurgeComPort.2.written = p.written ∧
    p.PurgeComPort.2.writeScript = p.writeScript ∧
    p.PurgeComPort.2.readScript = p.readScript ∧
    p.PurgeComPort.2.answerScript = p.answerScript ∧
    p.PurgeComPort.2.answersRead = p.answersRead ∧
    p.PurgeComPort.2.now = p.now ∧
    p.PurgeComPort.2.assertFailed = p.assertFailed := by
  unfold Port.PurgeComPort
  cases p.purgeScript <;> simp

theorem write_fields (p : Port) (msg : List Nat) :
    (p.WriteToComPort msg).1 = p.writeScript.headD DEVICE_OK ∧
    (p.WriteToComPort msg).2.written = p.written ++ [msg] ∧
    (p.WriteToComPort msg).2.readScript = p.readScript ∧
    (p.WriteToComPort msg).2.answerScript = p.answerScript ∧
    (p.WriteToComPort msg).2.answersRead = p.answersRead ∧
    (p.WriteToComPort msg).2.now = p.now ∧
    (p.WriteToComPort msg).2.assertFailed = p.assertFailed := by
  unfold Port.WriteToComPort
  cases p.writeScript <;> simp


theorem SendCommand_written (hub : ControlHub) (h : Nat) (payload : List Nat) (p : Port)
    (hport : hub.portAvailable_ = true) (hacc : p.Accepts) :
    (hub.SendCommand h payload p).2.written
      = p.written ++ [[ASCII_START, h] ++ payload ++ [ASCII_END]] := by
  obtain ⟨hp, hw⟩ := hacc
  have f1 := purge_fields p
  have f2 := write_fields p.PurgeComPort.2 ([ASCII_START, h] ++ payload ++ [ASCII_END])
  have f3 := pollLoop_written
    (p.PurgeComPort.2.WriteToComPort ([ASCII_START, h] ++ payload ++ [ASCII_END])).2
    SERIAL_TIMEOUT ASCII_NACK
  have e1 : p.PurgeComPort.1 = DEVICE_OK := by rw [f1.1, hp]
  have e2 : (p.PurgeComPort.2.WriteToComPort
      ([ASCII_START, h] ++ payload ++ [ASCII_END])).1 = DEVICE_OK := by
    rw [f2.1, f1.2.2.1, hw]
  unfold ControlHub.SendCommand
  simp only [hport, Bool.not_true, Bool.false_eq_true, if_false, e1, e2, ne_eq,
    not_true_eq_false]
  split
  · simp only [f3.1, f2.2.1, f1.2.1]
  · split <;> simp only [f3.1, f2.2.1, f1.2.1]


theorem pollByte_firstByte (p : Port) (timeout answer : Nat) (pre : List ReadEvent)
    (dt b : Nat) (rest : List ReadEvent) (h : FirstByte timeout p.readScript pre dt b rest) :
    (p.pollByte timeout answer).1 = Except.ok b := by
  obtain ⟨hs, hsil, hsum⟩ := h
  unfold Port.pollByte
  rw [hs, pollLoop_firstByte timeout p.now dt b rest pre p.now answer hsil (by simpa using hsum)]

theorem SendCommand_code (hub : ControlHub) (h : Nat) (payload : List Nat) (p : Port) (b : Nat)
    (hport : hub.portAvailable_ = true) (hd : p.Delivers b) :
    (hub.SendCommand h payload p).1 = if b = ASCII_ACK then DEVICE_OK else ERR_COMMUNICATION := by
  obtain ⟨⟨hp, hw⟩, pre, dt, rest, hfb⟩ := hd
  have f1 := purge_fields p
  have f2 := write_fields p.PurgeComPort.2 ([ASCII_START, h] ++ payload ++ [ASCII_END])
  have e1 : p.PurgeComPort.1 = DEVICE_OK := by rw [f1.1, hp]
  have e2 : (p.PurgeComPort.2.WriteToComPort
      ([ASCII_START, h] ++ payload ++ [ASCII_END])).1 = DEVICE_OK := by
    rw [f2.1, f1.2.2.1, hw]
  have e3 := pollByte_firstByte
    (p.PurgeComPort.2.WriteToComPort ([ASCII_START, h] ++ payload ++ [ASCII_END])).2
    SERIAL_TIMEOUT ASCII_NACK pre dt b rest (by rw [f2.2.2.1, f1.2.2.2.1]; exact hfb)
  unfold ControlHub.SendCommand
  simp only [hport, Bool.not_true, Bool.false_eq_true, if_false, e1, e2, ne_eq,
    not_true_eq_false, e3]
  split_ifs <;> simp_all


theorem AskAnswer_spec (hub : ControlHub) (h : Nat) (answer : List Nat) (p : Port) (b : Nat)
    (hport : hub.portAvailable_ = true) (hd : p.Delivers b) :
    ∃ q : Port, q.written = p.written ++ [[ASCII_START, h, ASCII_END]] ∧
      q.answerScript = p.answerScript ∧ q.answersRead = p.answersRead ∧
      q.assertFailed = p.assertFailed ∧
      hub.AskAnswer h answer p =
        if b = ASCII_ACK then q.GetSerialAnswer answer else (ERR_COMMUNICATION, answer, q) := by
  obtain ⟨⟨hp, hw⟩, pre, dt, rest, hfb⟩ := hd
  have f1 := purge_fields p
  have f2 := write_fields p.PurgeComPort.2 [ASCII_START, h, ASCII_END]
  have f3 := pollLoop_written (p.PurgeComPort.2.WriteToComPort [ASCII_START, h, ASCII_END]).2
    SERIAL_TIMEOUT ASCII_NACK
  have e1 : p.PurgeComPort.1 = DEVICE_OK := by rw [f1.1, hp]
  have e2 : (p.PurgeComPort.2.WriteToComPort [ASCII_START, h, ASCII_END]).1 = DEVICE_OK := by
    rw [f2.1, f1.2.2.1, hw]
  have e3 := pollByte_firstByte (p.PurgeComPort.2.WriteToComPort [ASCII_START, h, ASCII_END]).2
    SERIAL_TIMEOUT ASCII_NACK pre dt b rest (by rw [f2.2.2.1, f1.2.2.2.1]; exact hfb)
  refine ⟨((p.PurgeComPort.2.WriteToComPort [ASCII_START, h, ASCII_END]).2.pollByte
    SERIAL_TIMEOUT ASCII_NACK).2, ?_, ?_, ?_, ?_, ?_⟩
  · rw [f3.1, f2.2.1, f1.2.1]
  · rw [f3.2.2.1, f2.2.2.2.1, f1.2.2.2.2.1]
  · rw [f3.2.1, f2.2.2.2.2.1, f1.2.2.2.2.2.1]
  · rw [f3.2.2.2, f2.2.2.2.2.2.2, f1.2.2.2.2.2.2.2]
  · unfold ControlHub.AskAnswer
    simp only [hport, Bool.not_true, Bool.false_eq_true, if_false, e1, e2, ne_eq,
      not_true_eq_false, e3]
    split_ifs <;> simp_all

theorem GetSerialAnswer_fields (q : Port) (answer : List Nat) :
    (q.GetSerialAnswer answer).2.2.answersRead = q.answersRead + 1 ∧
    (q.GetSerialAnswer answer).2.2.written = q.written ∧
    (q.GetSerialAnswer answer).2.2.assertFailed = q.assertFailed ∧
    (∀ line rs, q.answerScript = (DEVICE_OK, line) :: rs →
      (q.GetSerialAnswer answer).1 = DEVICE_OK ∧ (q.GetSerialAnswer answer).2.1 = line) := by
  unfold Port.GetSerialAnswer
  rcases hq : q.answerScript with _ | ⟨⟨r, l⟩, rs⟩ <;> simp
  intro h1
  simp [h1]

/-- C1: when the port is set and purge and write succeed,
`SendCommand(h, payload, n)` adds exactly one message to the log of the
transport, the `n + 3` bytes `[0x01, h] ++ payload ++ [0x04]`, whatever the
reads that follow deliver. -/
theorem SendCommand_writes_one_frame (hub : ControlHub) (h : Nat) (payload : List Nat)
    (p : Port) (hport : hub.portAvailable_ = true) (hacc : p.Accepts) :
    (hub.SendCommand h payload p).2.written = p.written ++ [[0x01, h] ++ payload ++ [0x04]] ∧
      ([0x01, h] ++ payload ++ [0x04]).length = payload.length + 3 := by
  refine ⟨SendCommand_written hub h payload p hport hacc, ?_⟩
  simp

theorem SendCommand_writes_one_frame_witness :
    ({ ControlHub.new with portAvailable_ := true }).portAvailable_ = true ∧
      (Port.new [] [] [{ dt := 7, ret := 0, data := some 21 }] [] 0).Accepts ∧
      (({ ControlHub.new with portAvailable_ := true }).SendCommand 78 [48, 53]
        (Port.new [] [] [{ dt := 7, ret := 0, data := some 21 }] [] 0)).2.written
        = [] ++ [[0x01, 78] ++ [48, 53] ++ [0x04]] ∧
      ([0x01, 78] ++ [48, 53] ++ [0x04]).length = [48, 53].length + 3 :=
  ⟨rfl, ⟨rfl, rfl⟩,
    SendCommand_writes_one_frame { ControlHub.new with portAvailable_ := true } 78 [48, 53]
      (Port.new [] [] [{ dt := 7, ret := 0, data := some 21 }] [] 0) rfl ⟨rfl, rfl⟩⟩

/-- C2: when `b` is the first response byte after the frame is written,
`SendCommand` returns `DEVICE_OK` exactly when `b` is `ASCII_ACK` (0x06), and
`ERR_COMMUNICATION` for `ASCII_NACK` (0x15) and for every other byte. -/
theorem SendCommand_ok_iff_ack (hub : ControlHub) (h : Nat) (payload : List Nat) (p : Port)
    (b : Nat) (hport : hub.portAvailable_ = true) (hd : p.Delivers b) :
    ((hub.SendCommand h payload p).1 = DEVICE_OK ↔ b = 0x06) ∧
      (b ≠ 0x06 → (hub.SendCommand h payload p).1 = ERR_COMMUNICATION) := by
  rw [SendCommand_code hub h payload p b hport hd]
  by_cases hb : b = ASCII_ACK
  · simp [hb, ASCII_ACK]
  · have hb2 : b ≠ 6 := hb
    simp [hb, hb2, ERR_COMMUNICATION, DEVICE_OK]

theorem SendCommand_ok_iff_ack_witness :
    ({ ControlHub.new with portAvailable_ := true }).portAvailable_ = true ∧
      (Port.new [] [] [{ dt := 300000, ret := 0, data := none },
        { dt := 7, ret := 0, data := some 0x15 }] [] 0).Delivers 0x15 ∧
      ((({ ControlHub.new with portAvailable_ := true }).SendCommand 78 [48, 53]
          (Port.new [] [] [{ dt := 300000, ret := 0, data := none },
            { dt := 7, ret := 0, data := some 0x15 }] [] 0)).1 = DEVICE_OK ↔ 0x15 = 0x06) ∧
      (0x15 ≠ 0x06 → (({ ControlHub.new with portAvailable_ := true }).SendCommand 78 [48, 53]
          (Port.new [] [] [{ dt := 300000, ret := 0, data := none },
            { dt := 7, ret := 0, data := some 0x15 }] [] 0)).1 = ERR_COMMUNICATION) :=
  have hd : (Port.new [] [] [{ dt := 300000, ret := 0, data := none },
        { dt := 7, ret := 0, data := some 0x15 }] [] 0).Delivers 0x15 :=
    ⟨⟨rfl, rfl⟩, [{ dt := 300000, ret := 0, data := none }], 7, [], rfl, by decide,
      by decide⟩
  ⟨rfl, hd, SendCommand_ok_iff_ack { ControlHub.new with portAvailable_ := true } 78 [48, 53]
      (Port.new [] [] [{ dt := 300000, ret := 0, data := none },
        { dt := 7, ret := 0, data := some 0x15 }] [] 0) 0x15 rfl hd⟩

/-- C3: `AskAnswer` writes exactly the three bytes `[0x01, h, 0x04]`; when the
acknowledgement byte is `ASCII_ACK` (0x06) it makes one `GetSerialAnswer` call
and returns the line that call delivers; for any other acknowledgement byte it
returns `ERR_COMMUNICATION`, leaves `answer` as it was and makes no
`GetSerialAnswer` call. -/
theorem AskAnswer_reads_line_only_after_ack (hub : ControlHub) (h : Nat) (answer : List Nat)
    (p : Port) (b : Nat) (hport : hub.portAvailable_ = true) (hd : p.Delivers b) :
    (hub.AskAnswer h answer p).2.2.written = p.written ++ [[0x01, h, 0x04]] ∧
      (b = 0x06 →
        (hub.AskAnswer h answer p).2.2.answersRead = p.answersRead + 1 ∧
        ∀ line rs, p.answerScript = (DEVICE_OK, line) :: rs →
          (hub.AskAnswer h answer p).1 = DEVICE_OK ∧ (hub.AskAnswer h answer p).2.1 = line) ∧
      (b ≠ 0x06 →
        (hub.AskAnswer h answer p).1 = ERR_COMMUNICATION ∧
        (hub.AskAnswer h answer p).2.1 = answer ∧
        (hub.AskAnswer h answer p).2.2.answersRead = p.answersRead ∧
        (hub.AskAnswer h answer p).2.2.answerScript = p.answerScript) := by
  obtain ⟨q, hw, hs, hn, _, heq⟩ := AskAnswer_spec hub h answer p b hport hd
  have g := GetSerialAnswer_fields q answer
  by_cases hb : b = ASCII_ACK
  · have hb6 : b = 6 := hb
    rw [heq, if_pos hb]
    refine ⟨by rw [g.2.1, hw]; rfl, fun _ => ⟨by rw [g.1, hn], fun line rs hl => ?_⟩,
      fun hne => absurd hb6 hne⟩
    exact g.2.2.2 line rs (by rw [hs, hl])
  · have hb6 : b ≠ 6 := hb
    rw [heq, if_neg hb]
    exact ⟨by rw [hw]; rfl, fun h6 => absurd h6 hb6, fun _ => ⟨rfl, rfl, hn, hs⟩⟩

theorem AskAnswer_reads_line_only_after_ack_witness :
    ({ ControlHub.new with portAvailable_ := true }).portAvailable_ = true ∧
      (Port.new [] [] [{ dt := 7, ret := 0, data := some 6 }]
        [(0, [77, 77, 45, 65, 67])] 0).Delivers 6 ∧
      (({ ControlHub.new with portAvailable_ := true }).AskAnswer 70 []
        (Port.new [] [] [{ dt := 7, ret := 0, data := some 6 }]
          [(0, [77, 77, 45, 65, 67])] 0)).2.2.written = [[0x01, 70, 0x04]] ∧
      (({ ControlHub.new with portAvailable_ := true }).AskAnswer 70 []
        (Port.new [] [] [{ dt := 7, ret := 0, data := some 6 }]
          [(0, [77, 77, 45, 65, 67])] 0)).1 = DEVICE_OK ∧
      (({ ControlHub.new with portAvailable_ := true }).AskAnswer 70 []
        (Port.new [] [] [{ dt := 7, ret := 0, data := some 6 }]
          [(0, [77, 77, 45, 65, 67])] 0)).2.1 = FIRMWARE_ID :=
  have hd : (Port.new [] [] [{ dt := 7, ret := 0, data := some 6 }]
        [(0, [77, 77, 45, 65, 67])] 0).Delivers 6 :=
    ⟨⟨rfl, rfl⟩, [], 7, [], rfl, by decide, by decide⟩
  ⟨rfl, hd, (AskAnswer_reads_line_only_after_ack { ControlHub.new with portAvailable_ := true }
      70 [] (Port.new [] [] [{ dt := 7, ret := 0, data := some 6 }]
        [(0, [77, 77, 45, 65, 67])] 0) 6 rfl hd).1,
    ((AskAnswer_reads_line_only_after_ack { ControlHub.new with portAvailable_ := true }
      70 [] (Port.new [] [] [{ dt := 7, ret := 0, data := some 6 }]
        [(0, [77, 77, 45, 65, 67])] 0) 6 rfl hd).2.1 rfl).2 [77, 77, 45, 65, 67] [] rfl⟩

/-! ## The sequence shape (C4, C5, C6) -/

theorem UpdateDeltaT_frame (w : World) :
    (ControlHub.UpdateDeltaT w).2.hub.NSteps_ = w.hub.NSteps_ ∧
    (ControlHub.UpdateDeltaT w).2.hub.NFrames_ = w.hub.NFrames_ ∧
    (ControlHub.UpdateDeltaT w).2.hub.modulators_ = w.hub.modulators_ ∧
    (ControlHub.UpdateDeltaT w).2.mods = w.mods := by
  simp only [ControlHub.UpdateDeltaT]
  split_ifs <;> simp

theorem onMod_frame (w : World) (i : Nat)
    (f : ControlHub → AnalogMod → Port → Result × AnalogMod × Port) :
    (w.onMod i f).2.hub = w.hub := by
  unfold World.onMod
  split <;> rfl

/-- What a call does to the stored step and frame counts. -/
theorem step_counts (w : World) (a : Action) :
    ((step w a).2.hub.NSteps_ = w.hub.NSteps_ ∧ (step w a).2.hub.NFrames_ = w.hub.NFrames_) ∨
    (∃ n, a = Action.OnNSteps n ∧ (w.hub.NFrames_ : Int) * n ≤ MAX_MOD_LENGTH ∧
      (step w a).2.hub.NSteps_ = toByte n ∧ (step w a).2.hub.NFrames_ = w.hub.NFrames_) ∨
    (∃ n, a = Action.OnNFrames n ∧ n * (w.hub.NSteps_ : Int) ≤ MAX_MOD_LENGTH ∧
      (step w a).2.hub.NFrames_ = toByte n ∧ (step w a).2.hub.NSteps_ = w.hub.NSteps_) := by
  cases a with
  | OnNSteps n =>
    simp only [step, liftRet, ControlHub.OnNSteps]
    split_ifs with h1 h2 h3
    · left; simp
    · left; simp
    · left; simp
    · right; left
      refine ⟨n, rfl, not_lt.mp h2, ?_, ?_⟩
      · rw [(UpdateDeltaT_frame _).1]
      · rw [(UpdateDeltaT_frame _).2.1]
  | OnNFrames n =>
    simp only [step, liftRet, ControlHub.OnNFrames]
    split_ifs with h1 h2 h3
    · left; simp
    · left; simp
    · left; simp
    · right; right
      exact ⟨n, rfl, not_lt.mp h2, rfl, rfl⟩
  | OnExposure v =>
    left
    simp only [step, liftRet, ControlHub.OnExposure]
    split_ifs
    · simp
    · rw [(UpdateDeltaT_frame _).1, (UpdateDeltaT_frame _).2.1]; simp
  | OnFrameT v =>
    left
    simp only [step, liftRet, ControlHub.OnFrameT]
    split_ifs
    · simp
    · rw [(UpdateDeltaT_frame _).1, (UpdateDeltaT_frame _).2.1]; simp
    · simp only []
      rw [(UpdateDeltaT_frame _).1, (UpdateDeltaT_frame _).2.1]; simp
  | OnLoopFrame v =>
    left
    simp only [step, liftRet, ControlHub.OnLoopFrame]
    split_ifs
    · simp
    · rw [(UpdateDeltaT_frame _).1, (UpdateDeltaT_frame _).2.1]; simp
  | OnPort => left; simp [step, liftRet, ControlHub.OnPort]
  | HubInitialize =>
    left; simp only [step, liftRet, ControlHub.Initialize]; split_ifs <;> simp
  | HubShutdown => left; simp [step, liftRet, ControlHub.Shutdown]
  | OnWaitBefore v => left; simp only [step, liftRet, ControlHub.OnWaitBefore]; split_ifs <;> simp
  | OnWaitAfter v => left; simp only [step, liftRet, ControlHub.OnWaitAfter]; split_ifs <;> simp
  | OnDigMod v => left; simp only [step, liftRet, ControlHub.OnDigMod]; split_ifs <;> simp
  | OnAnaMod v => left; simp only [step, liftRet, ControlHub.OnAnaMod]; split_ifs <;> simp
  | OnAcquire v => left; simp only [step, liftRet, ControlHub.OnAcquire]; split_ifs <;> simp
  | TriggerInitialize =>
    left; simp only [step, liftRet, TriggerSelect.Initialize]; split_ifs <;> simp
  | OnState v => left; simp only [step, liftRet, TriggerSelect.OnState]; split_ifs <;> simp
  | OnEnable v => left; simp only [step, liftRet, EnableShutter.OnEnable]; split_ifs <;> simp
  | ModInitialize i =>
    left; simp only [step, AnalogMod.Initialize]
    split
    · simp
    · split_ifs <;> simp
  | OnAmplitude i v => left; simp only [step, onMod_frame]; simp
  | OnGate i v => left; simp only [step, onMod_frame]; simp
  | OnModulationA i v => left; simp only [step, onMod_frame]; simp
  | OnModulationD i v => left; simp only [step, onMod_frame]; simp
  | elapse dt => left; simp [step]


theorem toByte_of_range (n : Int) (h0 : 0 ≤ n) (h1 : n ≤ 255) : (toByte n : Int) = n := by
  unfold toByte
  rw [Int.emod_eq_of_lt h0 (by omega)]
  exact Int.toNat_of_nonneg h0

theorem counts_invariant_step (w : World) (a : Action) (ha : a.countsInRange)
    (h : w.hub.NSteps_ * w.hub.NFrames_ ≤ 250) :
    (step w a).2.hub.NSteps_ * (step w a).2.hub.NFrames_ ≤ 250 := by
  rcases step_counts w a with ⟨h1, h2⟩ | ⟨n, rfl, hle, h1, h2⟩ | ⟨n, rfl, hle, h1, h2⟩
  · rw [h1, h2]; exact h
  · have hb := toByte_of_range n ha.1 ha.2
    rw [h1, h2]
    have : ((toByte n * w.hub.NFrames_ : Nat) : Int) ≤ 250 := by
      push_cast
      rw [hb, mul_comm]
      exact hle
    exact_mod_cast this
  · have hb := toByte_of_range n ha.1 ha.2
    rw [h1, h2]
    have : ((w.hub.NSteps_ * toByte n : Nat) : Int) ≤ 250 := by
      push_cast
      rw [hb, mul_comm]
      exact hle
    exact_mod_cast this

theorem counts_invariant (w : World) (hw : ReachableBy Action.countsInRange w) :
    w.hub.NSteps_ * w.hub.NFrames_ ≤ 250 := by
  induction hw with
  | init => simp [World.new, ControlHub.new]
  | step a _ ha ih => exact counts_invariant_step _ a ha ih

/-- C4: in every state reached from the initial state (step count 0, frame
count 0) by calls whose requested step and frame counts lie in 0..255, whatever
the port does, the stored counts satisfy `NSteps_ * NFrames_ ≤ 250`. -/
theorem sequence_length_bounded (w : World) (hw : ReachableBy Action.countsInRange w) :
    (∀ channels port, (World.new channels port).hub.NSteps_ = 0 ∧
        (World.new channels port).hub.NFrames_ = 0) ∧
      w.hub.NSteps_ * w.hub.NFrames_ ≤ 250 :=
  ⟨fun _ _ => ⟨rfl, rfl⟩, counts_invariant w hw⟩

theorem ReachableBy.run {ok : Action → Prop} (as : List Action) :
    ∀ {w : World}, ReachableBy ok w → (∀ a ∈ as, ok a) → ReachableBy ok (run w as) := by
  induction as with
  | nil => intro w hw _; exact hw
  | cons a as ih =>
    intro w hw h
    exact ih (ReachableBy.step a hw (h a (List.mem_cons_self _ _)))
      (fun b hb => h b (List.mem_cons_of_mem _ hb))

theorem sampleWorld_reachable : Reachable sampleWorld :=
  ReachableBy.run _ (ReachableBy.init [2, 0, 1, 3] [] [] (List.replicate 16 ackEvent) [] 0)
    (by decide)

theorem ReachableBy.mono {ok ok2 : Action → Prop} (h : ∀ a, ok a → ok2 a) {w : World}
    (hw : ReachableBy ok w) : ReachableBy ok2 w := by
  induction hw with
  | init => exact ReachableBy.init _ _ _ _ _ _
  | step a _ ha ih => exact ReachableBy.step a ih (h a ha)

theorem withinLimits_countsInRange (a : Action) (h : a.withinLimits) : a.countsInRange := by
  cases a <;> simp_all [Action.withinLimits, Action.countsInRange]

theorem sequence_length_bounded_witness :
    ReachableBy Action.countsInRange sampleWorld ∧
      sampleWorld.hub.NSteps_ * sampleWorld.hub.NFrames_ ≤ 250 :=
  ⟨ReachableBy.mono withinLimits_countsInRange sampleWorld_reachable,
    (sequence_length_bounded sampleWorld
      (ReachableBy.mono withinLimits_countsInRange sampleWorld_reachable)).2⟩

theorem sampleWorld_counts : sampleWorld.hub.NSteps_ = 5 ∧ sampleWorld.hub.NFrames_ = 2 := by
  decide!

/-- C5: in every state of a run in which the requested counts respect the
limits 0..255 (so that `NSteps_ * NFrames_ ≤ 250`, the invariant of the hub),
a write to NSteps (resp. NFrames) whose requested count times the stored frame
count (resp. step count) exceeds 250 returns `ERR_NMOD` and leaves the whole
state as it was: port (nothing written, purged or read), counts, modulation
flags and channel tables. -/
theorem too_long_sequence_rejected (w : World) (n : Int)
    (hw : ReachableBy Action.countsInRange w) :
    ((w.hub.NFrames_ : Int) * n > 250 →
        step w (Action.OnNSteps n) = (Result.ret ERR_NMOD, w)) ∧
      (n * (w.hub.NSteps_ : Int) > 250 →
        step w (Action.OnNFrames n) = (Result.ret ERR_NMOD, w)) := by
  have hinv := counts_invariant w hw
  have hinv2 : (w.hub.NSteps_ : Int) * (w.hub.NFrames_ : Int) ≤ 250 := by exact_mod_cast hinv
  constructor
  · intro h
    have h1 : ¬ (n = (w.hub.NSteps_ : Int) ∧ n ≠ 0) := by
      rintro ⟨rfl, -⟩
      rw [mul_comm] at h
      omega
    simp only [step, liftRet, ControlHub.OnNSteps, h1, if_false, MAX_MOD_LENGTH, h, if_true]
  · intro h
    have h1 : ¬ (n = (w.hub.NFrames_ : Int) ∧ n ≠ 0) := by
      rintro ⟨rfl, -⟩
      rw [mul_comm] at h
      omega
    simp only [step, liftRet, ControlHub.OnNFrames, h1, if_false, MAX_MOD_LENGTH, h, if_true]

theorem too_long_sequence_rejected_witness :
    ReachableBy Action.countsInRange sampleWorld ∧
      (sampleWorld.hub.NFrames_ : Int) * 126 > 250 ∧
      step sampleWorld (Action.OnNSteps 126) = (Result.ret ERR_NMOD, sampleWorld) ∧
      (51 : Int) * (sampleWorld.hub.NSteps_ : Int) > 250 ∧
      step sampleWorld (Action.OnNFrames 51) = (Result.ret ERR_NMOD, sampleWorld) :=
  ⟨ReachableBy.mono withinLimits_countsInRange sampleWorld_reachable,
    by rw [sampleWorld_counts.2]; decide,
    (too_long_sequence_rejected sampleWorld 126
      (ReachableBy.mono withinLimits_countsInRange sampleWorld_reachable)).1
      (by rw [sampleWorld_counts.2]; decide),
    by rw [sampleWorld_counts.1]; decide,
    (too_long_sequence_rejected sampleWorld 51
      (ReachableBy.mono withinLimits_countsInRange sampleWorld_reachable)).2
      (by rw [sampleWorld_counts.1]; decide)⟩

theorem ResetModulation_idem (m : AnalogMod) :
    m.ResetModulation.ResetModulation = m.ResetModulation := rfl

theorem ResetModulations_getElem? (l : List Nat) :
    ∀ (ms : List AnalogMod) (j : Nat),
      (ControlHub.ResetModulations l ms)[j]? =
        (fun m => if j ∈ l then m.ResetModulation else m) <$> ms[j]? := by
  induction l with
  | nil => intro ms j; simp [ControlHub.ResetModulations]
  | cons i l ih =>
    intro ms j
    have h := ih (List.modify AnalogMod.ResetModulation i ms) j
    unfold ControlHub.ResetModulations at h ⊢
    rw [List.foldl_cons, h, List.getElem?_modify]
    cases ms[j]? with
    | none => rfl
    | some m =>
      by_cases hij : i = j
      · subst hij
        by_cases hl : i ∈ l <;> simp [hl, ResetModulation_idem]
      · have hji : j ≠ i := fun e => hij e.symm
        by_cases hl : j ∈ l <;> simp [hl, hij, hji]

theorem ResetModulations_empty (l : List Nat) (ms : List AnalogMod) (i : Nat) (hi : i ∈ l)
    (m : AnalogMod) (hm : (ControlHub.ResetModulations l ms)[i]? = some m) :
    m.modulationA_ = [] ∧ m.modulationD_ = [] := by
  rw [ResetModulations_getElem?] at hm
  cases h : ms[i]? with
  | none => rw [h] at hm; cases hm
  | some m0 =>
    rw [h] at hm
    simp only [hi, if_true, Option.map_eq_map, Option.map_some', Option.some.injEq] at hm
    subst hm
    exact ⟨rfl, rfl⟩

/-- C6: after a write to NSteps or NFrames that changes the stored step count
or the stored frame count, the cached analog table and the cached digital
table of every channel registered with the hub are empty. -/
theorem tables_cleared_on_shape_change (w : World) (n : Int) (a : Action)
    (ha : a = Action.OnNSteps n ∨ a = Action.OnNFrames n)
    (hchg : (step w a).2.hub.NSteps_ ≠ w.hub.NSteps_ ∨
      (step w a).2.hub.NFrames_ ≠ w.hub.NFrames_) :
    ∀ i ∈ (step w a).2.hub.modulators_, ∀ m, (step w a).2.mods[i]? = some m →
      m.modulationA_ = [] ∧ m.modulationD_ = [] := by
  rcases ha with rfl | rfl
  · simp only [step, liftRet, ControlHub.OnNSteps] at hchg ⊢
    split_ifs at hchg ⊢ with h1 h2 h3
    · simp at hchg
    · simp at hchg
    · simp at hchg
    · rw [(UpdateDeltaT_frame _).2.2.1, (UpdateDeltaT_frame _).2.2.2]
      intro i hi m hm
      exact ResetModulations_empty _ _ i hi m hm
  · simp only [step, liftRet, ControlHub.OnNFrames] at hchg ⊢
    split_ifs at hchg ⊢ with h1 h2 h3
    · simp at hchg
    · simp at hchg
    · simp at hchg
    · intro i hi m hm
      exact ResetModulations_empty _ _ i hi m hm

theorem tables_cleared_on_shape_change_witness :
    (Action.OnNSteps 10 = Action.OnNSteps 10 ∨ Action.OnNSteps 10 = Action.OnNFrames 10) ∧
      ((step tableWorld (Action.OnNSteps 10)).2.hub.NSteps_ ≠ tableWorld.hub.NSteps_ ∨
        (step tableWorld (Action.OnNSteps 10)).2.hub.NFrames_ ≠ tableWorld.hub.NFrames_) ∧
      (tableWorld.mods[0]?.map AnalogMod.modulationA_ = some sampleTable) ∧
      (0 ∈ (step tableWorld (Action.OnNSteps 10)).2.hub.modulators_) ∧
      ∀ i ∈ (step tableWorld (Action.OnNSteps 10)).2.hub.modulators_, ∀ m,
        (step tableWorld (Action.OnNSteps 10)).2.mods[i]? = some m →
          m.modulationA_ = [] ∧ m.modulationD_ = [] :=
  ⟨Or.inl rfl, Or.inl (by decide!), by decide!, by decide!,
    tables_cleared_on_shape_change tableWorld 10 (Action.OnNSteps 10) (Or.inl rfl)
      (Or.inl (by decide!))⟩

/-! ## Modulation tables of the wrong length (C7) -/

theorem set_of_getElem? {α : Type} : ∀ (l : List α) (i : Nat) (a : α), l[i]? = some a →
    l.set i a = l := by
  intro l
  induction l with
  | nil => intro i a h; simp at h
  | cons x xs ih =>
    intro i a h
    cases i with
    | zero => simp at h; simp [h]
    | succ k => simp at h; simp [ih k a h]

theorem onMod_unchanged (w : World) (i : Nat) (m : AnalogMod)
    (f : ControlHub → AnalogMod → Port → Result × AnalogMod × Port) (r : Result)
    (hm : w.mods[i]? = some m) (hf : f w.hub m w.port = (r, m, w.port)) :
    w.onMod i f = (r, w) := by
  unfold World.onMod
  rw [hm]
  simp only [hf, set_of_getElem? w.mods i m hm]

theorem tokenInRange_iff (hi : Int) (tok : List Nat) :
    tokenInRange hi tok ↔ ∃ v, stoi tok = some v ∧ 0 ≤ v ∧ v ≤ hi := by
  unfold tokenInRange
  cases stoi tok <;> simp

theorem tokens_values (hi : Int) : ∀ toks : List (List Nat),
    (∀ tok ∈ toks, tokenInRange hi tok) →
    ∃ vs : List Int, toks.map stoi = vs.map some ∧ (∀ v ∈ vs, 0 ≤ v ∧ v ≤ hi) ∧
      vs.length = toks.length := by
  intro toks
  induction toks with
  | nil => intro _; exact ⟨[], rfl, by simp, rfl⟩
  | cons t ts ih =>
    intro h
    obtain ⟨v, hv, hp⟩ := (tokenInRange_iff hi t).mp (h t (List.mem_cons_self _ _))
    obtain ⟨vs, h1, h2, h3⟩ := ih (fun tok ht => h tok (List.mem_cons_of_mem _ ht))
    refine ⟨v :: vs, by simp [hv, h1], ?_, by simp [h3]⟩
    intro x hx
    rcases List.mem_cons.mp hx with rfl | hx
    · exact hp
    · exact h2 x hx

theorem scanA_values (m : AnalogMod) : ∀ (toks : List (List Nat)) (vs : List Int),
    toks.map stoi = vs.map some → (∀ v ∈ vs, 0 ≤ v ∧ v ≤ 255) →
    m.scanA toks = Except.ok (vs.map fun v => toInt32 (Int.tdiv (v * m.amplitude_) 255)) := by
  intro toks
  induction toks with
  | nil =>
    intro vs h _
    cases vs with
    | nil => rfl
    | cons v vs => simp at h
  | cons t ts ih =>
    intro vs h hr
    cases vs with
    | nil => simp at h
    | cons v vs =>
      simp only [List.map_cons, List.cons.injEq] at h
      have hv := hr v (List.mem_cons_self _ _)
      have hrec := ih vs h.2 (fun x hx => hr x (List.mem_cons_of_mem _ hx))
      have hnot : ¬ (v > 255 ∨ v < 0) := by omega
      simp only [AnalogMod.scanA, h.1, hnot, if_false, hrec, List.map_cons]

theorem scanD_values : ∀ (toks : List (List Nat)) (vs : List Int),
    toks.map stoi = vs.map some → (∀ v ∈ vs, 0 ≤ v ∧ v ≤ 1) →
    scanD toks = Except.ok (vs.map fun v => decide (v ≠ 0)) := by
  intro toks
  induction toks with
  | nil =>
    intro vs h _
    cases vs with
    | nil => rfl
    | cons v vs => simp at h
  | cons t ts ih =>
    intro vs h hr
    cases vs with
    | nil => simp at h
    | cons v vs =>
      simp only [List.map_cons, List.cons.injEq] at h
      have hv := hr v (List.mem_cons_self _ _)
      have hrec := ih vs h.2 (fun x hx => hr x (List.mem_cons_of_mem _ hx))
      have hnot : ¬ (v > 1 ∨ v < 0) := by omega
      simp only [scanD, h.1, hnot, if_false, hrec, List.map_cons]

/-- C7 (amended): on a hub whose port is set, for every table text whose tokens
all convert to values in range (0..255 for the analog table, 0..1 for the
digital table) and whose number of tokens differs from `NSteps_ * NFrames_`,
the table write returns `ERR_MOD_LENGTH` and leaves the whole state as it was:
nothing is sent and the cached table is unchanged. -/
theorem table_length_mismatch_rejected (w : World) (i : Nat) (m : AnalogMod) (text : List Nat)
    (hm : w.mods[i]? = some m) (hport : w.hub.portAvailable_ = true)
    (hlen : ((getlineTokens [] text).length : Int) ≠ w.hub.GetSequenceLength) :
    ((∀ tok ∈ getlineTokens [] text, tokenInRange 255 tok) →
        step w (Action.OnModulationA i text) = (Result.ret ERR_MOD_LENGTH, w)) ∧
      ((∀ tok ∈ getlineTokens [] text, tokenInRange 1 tok) →
        step w (Action.OnModulationD i text) = (Result.ret ERR_MOD_LENGTH, w)) := by
  constructor
  · intro h
    obtain ⟨vs, h1, h2, h3⟩ := tokens_values 255 _ h
    have hs := scanA_values m _ vs h1 h2
    have hne : ¬ (((vs.map fun v => toInt32 (Int.tdiv (v * m.amplitude_) 255)).length : Int)
        = w.hub.GetSequenceLength) := by
      rw [List.length_map, h3]; exact hlen
    rw [show step w (Action.OnModulationA i text)
      = w.onMod i (fun hub m p => AnalogMod.OnModulationA hub m text p) from rfl]
    apply onMod_unchanged w i m _ _ hm
    simp only [AnalogMod.OnModulationA, AnalogMod.SendModulationA, hport, Bool.not_true,
      Bool.false_eq_true, if_false, hs, ne_eq, hne, not_false_eq_true, if_true]
    simp [ERR_MOD_LENGTH, DEVICE_OK]
  · intro h
    obtain ⟨vs, h1, h2, h3⟩ := tokens_values 1 _ h
    have hs := scanD_values _ vs h1 h2
    have hne : ¬ (((vs.map fun v => decide (v ≠ 0)).length : Int)
        = w.hub.GetSequenceLength) := by
      rw [List.length_map, h3]; exact hlen
    rw [show step w (Action.OnModulationD i text)
      = w.onMod i (fun hub m p => AnalogMod.OnModulationD hub m text p) from rfl]
    apply onMod_unchanged w i m _ _ hm
    simp only [AnalogMod.OnModulationD, hport, Bool.not_true,
      Bool.false_eq_true, if_false, hs, ne_eq, hne, not_false_eq_true, if_true]

theorem sampleWorld_channel :
    sampleWorld.mods[0]? = some (AnalogMod.mk 2 false 255 [] []) ∧
    sampleWorld.hub.portAvailable_ = true ∧ sampleWorld.hub.GetSequenceLength = 10 := by
  decide!

theorem table_length_mismatch_rejected_witness :
    ((getlineTokens [] (sampleTable.take 30)).length : Int)
        ≠ sampleWorld.hub.GetSequenceLength ∧
      (∀ tok ∈ getlineTokens [] (sampleTable.take 30), tokenInRange 255 tok) ∧
      step sampleWorld (Action.OnModulationA 0 (sampleTable.take 30))
        = (Result.ret ERR_MOD_LENGTH, sampleWorld) :=
  ⟨by rw [sampleWorld_channel.2.2]; decide, by decide,
    (table_length_mismatch_rejected sampleWorld 0 _ (sampleTable.take 30) sampleWorld_channel.1
      sampleWorld_channel.2.1 (by rw [sampleWorld_channel.2.2]; decide)).1 (by decide)⟩

/-- C7 as stated fails: on the sample state (sequence length 10) the one-value
analog text `300` and the one-value digital text `2` have a number of values
that differs from the sequence length, and the writes return
`ERR_INVALID_VALUE`, not `ERR_MOD_LENGTH`. -/
theorem table_length_mismatch_counterexample :
    sampleWorld.hub.GetSequenceLength = 10 ∧
      (getlineTokens [] [51, 48, 48]).length = 1 ∧
      (step sampleWorld (Action.OnModulationA 0 [51, 48, 48])).1
        = Result.ret ERR_INVALID_VALUE ∧
      (getlineTokens [] [50]).length = 1 ∧
      (step sampleWorld (Action.OnModulationD 0 [50])).1 = Result.ret ERR_INVALID_VALUE ∧
      Result.ret ERR_INVALID_VALUE ≠ Result.ret ERR_MOD_LENGTH := by
  decide!

/-! ## Payload encodings (C9) and the analog table payload (C8) -/

theorem hexText_zero : ∀ k, hexText k 0 = List.replicate k 48 := by
  intro k
  induction k with
  | zero => rfl
  | succ k ih =>
    simp only [hexText, Nat.zero_div, ih, Nat.zero_mod]
    rw [show digitChar 0 = 48 from rfl, List.replicate_succ']

theorem hexText_length : ∀ k v, (hexText k v).length = k := by
  intro k
  induction k with
  | zero => intro v; rfl
  | succ k ih => intro v; simp [hexText, ih]

theorem toDigits_pad : ∀ (fuel v k : Nat), v < 16 ^ fuel → v < 16 ^ k → 1 ≤ k →
    List.replicate (k - (toDigits 16 fuel v).length) 48 ++ toDigits 16 fuel v = hexText k v := by
  intro fuel
  induction fuel with
  | zero =>
    intro v k h _ _
    have : v = 0 := by simpa using h
    subst this
    simp [toDigits, hexText_zero]
  | succ fuel ih =>
    intro v k hf hk h1
    obtain ⟨k, rfl⟩ : ∃ j, k = j + 1 := ⟨k - 1, by omega⟩
    by_cases hv : v < 16
    · simp only [toDigits, hv, if_true, List.length_singleton, Nat.add_sub_cancel, hexText]
      rw [Nat.div_eq_of_lt hv, Nat.mod_eq_of_lt hv, hexText_zero]
    · have hk1 : 1 ≤ k := by
        rcases k with _ | k
        · simp at hk; omega
        · omega
      have hf' : v / 16 < 16 ^ fuel := by
        rw [Nat.div_lt_iff_lt_mul (by norm_num)]; rw [pow_succ] at hf; exact hf
      have hk' : v / 16 < 16 ^ k := by
        rw [Nat.div_lt_iff_lt_mul (by norm_num)]; rw [pow_succ] at hk; exact hk
      have := ih (v / 16) k hf' hk' hk1
      simp only [toDigits, hv, if_false, List.length_append, List.length_singleton, hexText]
      rw [← this, Nat.add_sub_add_right, List.append_assoc]

theorem fmtHex_eq (k v : Nat) (hk : 1 ≤ k) (hv : v < 16 ^ k) : fmtHex k v = hexText k v := by
  unfold fmtHex
  exact toDigits_pad (v + 1) v k
    (lt_of_lt_of_le (Nat.lt_pow_self (by norm_num) v)
      (Nat.pow_le_pow_right (by norm_num) (by omega)))
    hv hk

theorem snprintf_hex (k v : Nat) (hk : 1 ≤ k) (hv : v < 16 ^ k) :
    snprintf (k + 1) (fmtHex k v) = (k, hexText k v) := by
  rw [fmtHex_eq k v hk hv]
  simp [snprintf, hexText_length]

theorem fmtDec_digit (c : Nat) (hc : c < 10) : snprintf 2 (fmtDec c) = (1, [48 + c]) := by
  simp [snprintf, fmtDec, toDigits, hc, digitChar]

theorem hexDigitValue_digitChar (d : Nat) (hd : d < 16) :
    hexDigitValue (digitChar d) = some d := by
  unfold hexDigitValue digitChar
  by_cases h : d < 10
  · have h1 : 48 ≤ 48 + d ∧ 48 + d ≤ 57 := by omega
    simp [h, h1]
  · have h1 : ¬ (48 ≤ 87 + d ∧ 87 + d ≤ 57) := by omega
    have h2 : 97 ≤ 87 + d ∧ 87 + d ≤ 102 := by omega
    simp [h, h1, h2]

theorem parseHex_append (l : List Nat) (c : Nat) :
    parseHex (l ++ [c]) =
      (parseHex l).bind fun a => (hexDigitValue c).map fun d => a * 16 + d := by
  simp [parseHex, List.foldl_append]

theorem parseHex_hexText : ∀ k v, parseHex (hexText k v) = some (v % 16 ^ k) := by
  intro k
  induction k with
  | zero => intro v; simp [hexText, parseHex, Nat.mod_one]
  | succ k ih =>
    intro v
    rw [hexText, parseHex_append, ih, hexDigitValue_digitChar _ (Nat.mod_lt _ (by norm_num))]
    simp only [Option.some_bind, Option.map_some', Option.some.injEq]
    rw [pow_succ, mul_comm (16 ^ k) 16, Nat.mod_mul]
    ring

theorem parseHex_hexText_of_lt (k v : Nat) (hv : v < 16 ^ k) :
    parseHex (hexText k v) = some v := by
  rw [parseHex_hexText, Nat.mod_eq_of_lt hv]

theorem digitChar_lower (d : Nat) (hd : d < 16) :
    (48 ≤ digitChar d ∧ digitChar d ≤ 57) ∨
      (97 ≤ digitChar d ∧ digitChar d ≤ 102) := by
  unfold digitChar
  split_ifs <;> omega

theorem hexText_lower : ∀ k v, ∀ c ∈ hexText k v,
    (48 ≤ c ∧ c ≤ 57) ∨ (97 ≤ c ∧ c ≤ 102) := by
  intro k
  induction k with
  | zero => intro v c hc; simp [hexText] at hc
  | succ k ih =>
    intro v c hc
    simp only [hexText, List.mem_append, List.mem_singleton] at hc
    rcases hc with hc | rfl
    · exact ih _ c hc
    · exact digitChar_lower _ (Nat.mod_lt _ (by norm_num))

theorem hexText_isHexOf (k v : Nat) (hv : v < 16 ^ k) : IsHexOf k v (hexText k v) :=
  ⟨hexText_length k v, hexText_lower k v, parseHex_hexText_of_lt k v hv⟩

/-- C9: for every byte `b`, every 16-bit count `n` and every 32-bit duration `d`
the typed `SendCommand` overloads send a payload of exactly 2, 4 and 8
characters, the zero-padded lowercase hexadecimal text of the value (no
assertion fails), and parsing the payload as a hexadecimal number gives the
value back; a boolean payload is the single character `0` or `1`. -/
theorem typed_payload_roundtrip (hub : ControlHub) (h : Nat) (p : Port) (b n d : Nat) (f : Bool)
    (hb : b < 256) (hn : n < 65536) (hd : d < 2 ^ 32) :
    (hub.SendCommand_byte h b p = hub.SendCommand h (hexText 2 b) p ∧
        IsHexOf 2 b (hexText 2 b)) ∧
      (hub.SendCommand_int h (n : Int) p = hub.SendCommand h (hexText 4 n) p ∧
        IsHexOf 4 n (hexText 4 n)) ∧
      (hub.SendCommand_ulong h d p = hub.SendCommand h (hexText 8 d) p ∧
        IsHexOf 8 d (hexText 8 d)) ∧
      (hub.SendCommand_bool h f p = hub.SendCommand h [if f then 49 else 48] p) := by
  have e2 := snprintf_hex 2 b (by norm_num) (by norm_num; exact hb)
  have e4 := snprintf_hex 4 n (by norm_num) (by norm_num; exact hn)
  have e8 := snprintf_hex 8 d (by norm_num) (by norm_num; exact hd)
  have hu : toUInt32 (n : Int) = n := by
    unfold toUInt32
    rw [Int.emod_eq_of_lt (by omega) (by omega)]
    simp
  have hneg : ¬ ((n : Int) < 0) := by omega
  refine ⟨⟨?_, hexText_isHexOf 2 b (by norm_num; exact hb)⟩,
    ⟨?_, hexText_isHexOf 4 n (by norm_num; exact hn)⟩,
    ⟨?_, hexText_isHexOf 8 d (by norm_num; exact hd)⟩, rfl⟩
  · simp only [ControlHub.SendCommand_byte, e2]
    simp [Port.assert]
  · simp only [ControlHub.SendCommand_int, hneg, if_false, hu, e4]
    simp [Port.assert]
  · simp only [ControlHub.SendCommand_ulong, e8]
    simp [Port.assert]

theorem typed_payload_roundtrip_witness :
    (171 < 256 ∧ 300 < 65536 ∧ 1500 < 2 ^ 32) ∧
      (sampleWorld.hub.SendCommand_byte 83 171 ackPort
          = sampleWorld.hub.SendCommand 83 [97, 98] ackPort ∧ IsHexOf 2 171 [97, 98]) ∧
      (sampleWorld.hub.SendCommand_int 83 (300 : Nat) ackPort
          = sampleWorld.hub.SendCommand 83 [48, 49, 50, 99] ackPort ∧
        IsHexOf 4 300 [48, 49, 50, 99]) ∧
      (sampleWorld.hub.SendCommand_ulong 83 1500 ackPort
          = sampleWorld.hub.SendCommand 83 [48, 48, 48, 48, 48, 53, 100, 99] ackPort ∧
        IsHexOf 8 1500 [48, 48, 48, 48, 48, 53, 100, 99]) ∧
      (sampleWorld.hub.SendCommand_bool 83 true ackPort
          = sampleWorld.hub.SendCommand 83 [49] ackPort) :=
  ⟨by decide,
    typed_payload_roundtrip sampleWorld.hub 83 ackPort 171 300 1500 true (by decide) (by decide)
      (by decide)⟩

theorem scaled_value (v a : Nat) (hv : v ≤ 255) (ha : a ≤ 255) :
    toUInt32 (toInt32 (Int.tdiv ((v : Int) * (a : Int)) 255)) = v * a / 255 ∧
      v * a / 255 < 16 ^ 2 ∧ v * a / 255 ≤ min v a := by
  have hva : v * a ≤ 255 * 255 := Nat.mul_le_mul hv ha
  have h1 : v * a / 255 ≤ 255 := by
    apply Nat.div_le_of_le_mul; exact hva
  have h2 : v * a / 255 ≤ v := by
    apply Nat.div_le_of_le_mul
    calc v * a ≤ v * 255 := Nat.mul_le_mul_left v ha
      _ = 255 * v := Nat.mul_comm _ _
  have h3 : v * a / 255 ≤ a := by
    apply Nat.div_le_of_le_mul
    exact Nat.mul_le_mul_right a hv
  have e : Int.tdiv ((v : Int) * (a : Int)) 255 = ((v * a / 255 : Nat) : Int) := by
    rw [show ((v : Int) * (a : Int)) = ((v * a : Nat) : Int) by push_cast; rfl]
    rfl
  refine ⟨?_, by norm_num; omega, le_min h2 h3⟩
  rw [e]
  unfold toInt32 toUInt32
  have hm : ((v * a / 255 : Nat) : Int) % 2 ^ 32 = ((v * a / 255 : Nat) : Int) :=
    Int.emod_eq_of_lt (by omega) (by omega)
  have hlt : ((v * a / 255 : Nat) : Int) < 2 ^ 31 := by omega
  simp only [hm, hlt, if_true]
  exact Int.toNat_ofNat _

theorem payloadA_values (m : AnalogMod) (vs : List Nat) (a : Nat) (hc : m.channel_ < 10)
    (ha : m.amplitude_ = (a : Int)) (ha255 : a ≤ 255) (hr : ∀ v ∈ vs, v ≤ 255) :
    m.payloadA ((vs.map fun v : Nat => (v : Int)).map
        fun v => toInt32 (Int.tdiv (v * m.amplitude_) 255))
      = (48 + m.channel_) :: (vs.map fun v => hexText 2 (v * a / 255)).flatten ∧
    m.assertsA ((vs.map fun v : Nat => (v : Int)).map
        fun v => toInt32 (Int.tdiv (v * m.amplitude_) 255)) = true := by
  have hd := fmtDec_digit m.channel_ hc
  have key : ∀ v ∈ vs, snprintf 3 (fmtHex 2 (toUInt32 (toInt32
      (Int.tdiv ((v : Int) * m.amplitude_) 255)))) = (2, hexText 2 (v * a / 255)) := by
    intro v hv
    obtain ⟨e1, e2, _⟩ := scaled_value v a (hr v hv) ha255
    rw [ha, e1]
    exact snprintf_hex 2 _ (by norm_num) e2
  constructor
  · simp only [AnalogMod.payloadA, AnalogMod.channelText, hd, List.map_map,
      List.singleton_append, List.cons.injEq, true_and]
    congr 1
    apply List.map_congr_left
    intro v hv
    simp only [Function.comp_apply, key v hv]
  · simp only [AnalogMod.assertsA, AnalogMod.channelText, hd, List.map_map, beq_self_eq_true,
      Bool.true_and, List.all_eq_true, List.mem_map, Function.comp_apply]
    rintro x ⟨v, hv, rfl⟩
    simp only [key v hv, beq_self_eq_true]

theorem getlineTokens_append (ds : List Nat) : ∀ (cur rest : List Nat),
    (∀ c ∈ ds, c ≠ 45) →
    getlineTokens cur (ds ++ rest) = getlineTokens (cur ++ ds) rest := by
  induction ds with
  | nil => intro cur rest _; simp
  | cons d ds ih =>
    intro cur rest h
    have hd : d ≠ 45 := h d (List.mem_cons_self _ _)
    simp only [List.cons_append, getlineTokens, hd, if_false]
    have := ih (cur ++ [d]) rest (fun c hc => h c (List.mem_cons_of_mem _ hc))
    simp only [List.append_assoc, List.singleton_append] at this
    exact this

theorem toDigits_dec_digits : ∀ (fuel v : Nat), ∀ c ∈ toDigits 10 fuel v,
    48 ≤ c ∧ c ≤ 57 := by
  intro fuel
  induction fuel with
  | zero => intro v c hc; simp [toDigits] at hc
  | succ fuel ih =>
    intro v c hc
    simp only [toDigits] at hc
    split_ifs at hc with hv
    · simp only [List.mem_singleton] at hc
      subst hc
      unfold digitChar
      rw [if_pos (by omega)]
      omega
    · simp only [List.mem_append, List.mem_singleton] at hc
      rcases hc with hc | rfl
      · exact ih _ c hc
      · have : v % 10 < 10 := Nat.mod_lt _ (by norm_num)
        unfold digitChar
        rw [if_pos this]
        omega

theorem toDigits_ne_nil (base fuel v : Nat) : toDigits base (fuel + 1) v ≠ [] := by
  simp only [toDigits]
  split_ifs <;> simp

theorem decValue_append (l : List Nat) (c : Nat) :
    decValue (l ++ [c]) = decValue l * 10 + ((c - 48 : Nat) : Int) := by
  simp [decValue, List.foldl_append]

theorem decValue_toDigits : ∀ (fuel v : Nat), v < 10 ^ fuel →
    decValue (toDigits 10 fuel v) = (v : Int) := by
  intro fuel
  induction fuel with
  | zero => intro v h; simp at h; subst h; simp [toDigits, decValue]
  | succ fuel ih =>
    intro v h
    simp only [toDigits]
    split_ifs with hv
    · simp [decValue, digitChar, hv]
    · have h' : v / 10 < 10 ^ fuel := by
        rw [Nat.div_lt_iff_lt_mul (by norm_num)]; rw [pow_succ] at h; exact h
      have hm : v % 10 < 10 := Nat.mod_lt _ (by norm_num)
      rw [decValue_append, ih _ h']
      simp only [digitChar, hm, if_true, Nat.add_sub_cancel_left]
      omega

theorem stoi_digits (ds : List Nat) (hne : ds ≠ []) (hd : ∀ c ∈ ds, 48 ≤ c ∧ c ≤ 57)
    (hv : decValue ds ≤ 2 ^ 31 - 1) (h0 : 0 ≤ decValue ds) : stoi ds = some (decValue ds) := by
  obtain ⟨c, t, rfl⟩ := List.exists_cons_of_ne_nil hne
  have hc := hd c (List.mem_cons_self _ _)
  have h1 : (c :: t).dropWhile isSpace = c :: t := by
    have : isSpace c = false := by
      simp only [isSpace, Bool.or_eq_false_iff, beq_eq_false_iff_ne, Bool.and_eq_false_iff,
        decide_eq_false_iff_not]
      omega
    simp [List.dropWhile, this]
  have h2 : splitSign (c :: t) = (false, c :: t) := by
    unfold splitSign
    split
    · rename_i heq; simp at heq; omega
    · rename_i heq; simp at heq; omega
    · rfl
  have h3 : (c :: t).takeWhile isDigit = c :: t := by
    rw [List.takeWhile_eq_self_iff]
    intro x hx
    have := hd x hx
    simp [isDigit, this.1, this.2]
  unfold stoi
  simp only [h1, h2, h3]
  have : ¬ (decValue (c :: t) < -2 ^ 31 ∨ 2 ^ 31 - 1 < decValue (c :: t)) := by omega
  simp only [List.cons_ne_nil, if_false, Bool.false_eq_true, this]

theorem stoi_fmtDec (v : Nat) (hv : v ≤ 255) : stoi (fmtDec v) = some (v : Int) := by
  have hval := decValue_toDigits (v + 1) v
    (lt_of_lt_of_le (Nat.lt_pow_self (by norm_num) v)
      (Nat.pow_le_pow_right (by norm_num) (by omega)))
  have := stoi_digits (fmtDec v) (toDigits_ne_nil 10 v v) (toDigits_dec_digits (v + 1) v)
    (by unfold fmtDec; rw [hval]; omega) (by unfold fmtDec; rw [hval]; omega)
  rw [this]
  unfold fmtDec
  rw [hval]

theorem getlineTokens_renderTable : ∀ vs : List Nat,
    getlineTokens [] (renderTable vs) = vs.map fmtDec := by
  intro vs
  induction vs with
  | nil => rfl
  | cons v vs ih =>
    have hd : ∀ c ∈ fmtDec v, c ≠ 45 := by
      intro c hc
      have := toDigits_dec_digits (v + 1) v c hc
      omega
    cases vs with
    | nil =>
      have := getlineTokens_append (fmtDec v) [] [] hd
      simp only [List.append_nil, List.nil_append] at this
      simp only [renderTable, this, getlineTokens, List.map_cons, List.map_nil]
      exact if_neg (toDigits_ne_nil 10 v v)
    | cons w vs =>
      have := getlineTokens_append (fmtDec v) [] (45 :: renderTable (w :: vs)) hd
      simp only [List.nil_append] at this
      simp only [renderTable, this, getlineTokens, if_true, ih, List.map_cons]

theorem renderTable_values (vs : List Nat) (hr : ∀ v ∈ vs, v ≤ 255) :
    (getlineTokens [] (renderTable vs)).map stoi = vs.map fun v : Nat => some (v : Int) := by
  rw [getlineTokens_renderTable, List.map_map]
  apply List.map_congr_left
  intro v hv
  exact stoi_fmtDec v (hr v hv)

/-- C8: for a channel `c` in 0..3, an amplitude `a` in 0..255 and an analog
table of values `vs`, each in 0..255 and as many as the sequence length `L`:
for every text whose tokens convert to `vs` (the plain text `renderTable vs` is
one), `SendModulationA` sends the command `O` with a payload of `2 * L + 1`
bytes: the digit of `c`, then for every value `v` in order the two lowercase
hexadecimal digits of `v * a / 255` (rounded down), which is at most
`min v a`; at amplitude 255 the groups are the digits of the submitted
values. -/
theorem analog_payload_encoding (hub : ControlHub) (m : AnalogMod) (p : Port)
    (vs : List Nat) (a : Nat) (hport : hub.portAvailable_ = true)
    (hc : m.channel_ ≤ 3) (ha : m.amplitude_ = (a : Int)) (ha255 : a ≤ 255)
    (hr : ∀ v ∈ vs, v ≤ 255) (hlen : (vs.length : Int) = hub.GetSequenceLength) :
    (∀ text : List Nat,
        (getlineTokens [] text).map stoi = (vs.map fun v : Nat => some (v : Int)) →
        AnalogMod.SendModulationA hub m text p =
          (Result.ret (hub.SendCommand HEADER_MODA
              ((48 + m.channel_) :: (vs.map fun v => hexText 2 (v * a / 255)).flatten) p).1,
            (hub.SendCommand HEADER_MODA
              ((48 + m.channel_) :: (vs.map fun v => hexText 2 (v * a / 255)).flatten) p).2)) ∧
      (getlineTokens [] (renderTable vs)).map stoi = (vs.map fun v : Nat => some (v : Int)) ∧
      ((48 + m.channel_) :: (vs.map fun v => hexText 2 (v * a / 255)).flatten).length
        = 2 * vs.length + 1 ∧
      (∀ v ∈ vs,
        IsHexOf 2 (v * a / 255) (hexText 2 (v * a / 255)) ∧ v * a / 255 ≤ min v a) ∧
      (a = 255 → (vs.map fun v => hexText 2 (v * a / 255)) = vs.map (hexText 2)) := by
  obtain ⟨hp1, hp2⟩ := payloadA_values m vs a (by omega) ha ha255 hr
  refine ⟨fun text hvals => ?_, renderTable_values vs hr, ?_, ?_, ?_⟩
  · have hs := scanA_values m (getlineTokens [] text) (vs.map fun v : Nat => (v : Int))
      (by rw [hvals, List.map_map]; rfl)
      (by
        intro x hx
        obtain ⟨v, hv, rfl⟩ := List.mem_map.mp hx
        have := hr v hv
        omega)
    simp only [AnalogMod.SendModulationA, hport, Bool.not_true, Bool.false_eq_true, if_false,
      hs, List.length_map, hlen, ne_eq, not_true_eq_false, hp1, hp2]
    simp [Port.assert]
  · simp only [List.length_cons, List.length_flatten, List.map_map]
    have : (List.map (List.length ∘ fun v => hexText 2 (v * a / 255)) vs)
        = List.map (fun _ => 2) vs := by
      apply List.map_congr_left
      intro v _
      simp [hexText_length]
    rw [this]
    simp
    ring
  · intro v hv
    obtain ⟨_, e2, e3⟩ := scaled_value v a (hr v hv) ha255
    exact ⟨hexText_isHexOf 2 _ e2, e3⟩
  · rintro rfl
    apply List.map_congr_left
    intro v _
    rw [Nat.mul_div_cancel v (by norm_num)]

theorem analog_payload_encoding_witness :
    sampleWorld.hub.portAvailable_ = true ∧
      (([0, 25, 50, 75, 100, 125, 150, 175, 200, 255] : List Nat).length : Int)
        = sampleWorld.hub.GetSequenceLength ∧
      renderTable [0, 25, 50, 75, 100, 125, 150, 175, 200, 255] = sampleTable ∧
      AnalogMod.SendModulationA sampleWorld.hub (AnalogMod.mk 2 false 255 [] []) sampleTable
          sampleWorld.port =
        (Result.ret (sampleWorld.hub.SendCommand HEADER_MODA
            [50, 48, 48, 49, 57, 51, 50, 52, 98, 54, 52, 55, 100, 57, 54, 97, 102, 99, 56, 102,
              102] sampleWorld.port).1,
          (sampleWorld.hub.SendCommand HEADER_MODA
            [50, 48, 48, 49, 57, 51, 50, 52, 98, 54, 52, 55, 100, 57, 54, 97, 102, 99, 56, 102,
              102] sampleWorld.port).2) :=
  ⟨sampleWorld_channel.2.1, by rw [sampleWorld_channel.2.2]; decide, by decide,
    (analog_payload_encoding sampleWorld.hub (AnalogMod.mk 2 false 255 [] []) sampleWorld.port
      [0, 25, 50, 75, 100, 125, 150, 175, 200, 255] 255 sampleWorld_channel.2.1
      (by decide) rfl (by decide) (by decide)
      (by rw [sampleWorld_channel.2.2]; decide)).1 sampleTable (by decide)⟩

/-! ## Manual acquisition (C10) -/

theorem toDigits_length_gt : ∀ (fuel v k : Nat), 16 ^ k ≤ v → v < 16 ^ fuel →
    k < (toDigits 16 fuel v).length := by
  intro fuel
  induction fuel with
  | zero =>
    intro v k h1 h2
    have : 0 < 16 ^ k := Nat.pow_pos (by norm_num)
    simp at h2
    omega
  | succ fuel ih =>
    intro v k h1 h2
    by_cases hv : v < 16
    · have hk : k = 0 := by
        rcases k with _ | k
        · rfl
        · have : 16 ^ (k + 1) ≥ 16 := by
            calc 16 ^ (k + 1) = 16 ^ k * 16 := pow_succ _ _
              _ ≥ 1 * 16 := Nat.mul_le_mul_right _ (Nat.pow_pos (by norm_num))
          omega
      simp [toDigits, hv, hk]
    · simp only [toDigits, hv, if_false, List.length_append, List.length_singleton]
      rcases k with _ | k
      · omega
      · have h1' : 16 ^ k ≤ v / 16 := by
          rw [Nat.le_div_iff_mul_le (by norm_num)]; rw [pow_succ] at h1; exact h1
        have h2' : v / 16 < 16 ^ fuel := by
          rw [Nat.div_lt_iff_lt_mul (by norm_num)]; rw [pow_succ] at h2; exact h2
        have := ih (v / 16) k h1' h2'
        omega

theorem fmtHex_length_eq_iff (k v : Nat) (hk : 1 ≤ k) :
    (fmtHex k v).length = k ↔ v < 16 ^ k := by
  constructor
  · intro h
    by_contra hv
    have := toDigits_length_gt (v + 1) v k (not_lt.mp hv)
      (lt_of_lt_of_le (Nat.lt_pow_self (by norm_num) v)
        (Nat.pow_le_pow_right (by norm_num) (by omega)))
    simp only [fmtHex, List.length_append, List.length_replicate] at h
    omega
  · intro hv
    rw [fmtHex_eq k v hk hv, hexText_length]

theorem Delivers_assert (p : Port) (c : Bool) (b : Nat) (h : p.Delivers b) :
    (p.assert c).Delivers b := h

theorem SendCommand_assertFailed (hub : ControlHub) (h : Nat) (payload : List Nat) (p : Port) :
    (hub.SendCommand h payload p).2.assertFailed = p.assertFailed := by
  have f1 := purge_fields p
  have f2 := write_fields p.PurgeComPort.2 ([ASCII_START, h] ++ payload ++ [ASCII_END])
  have f3 := pollLoop_written
    (p.PurgeComPort.2.WriteToComPort ([ASCII_START, h] ++ payload ++ [ASCII_END])).2
    SERIAL_TIMEOUT ASCII_NACK
  simp only [ControlHub.SendCommand]
  split_ifs
  · rfl
  · exact f1.2.2.2.2.2.2.2
  · rw [f2.2.2.2.2.2.2, f1.2.2.2.2.2.2.2]
  · split
    · rw [f3.2.2.2, f2.2.2.2.2.2.2, f1.2.2.2.2.2.2.2]
    · split_ifs <;> rw [f3.2.2.2, f2.2.2.2.2.2.2, f1.2.2.2.2.2.2.2]

theorem toInt32_range (v : Int) : - 2 ^ 31 ≤ toInt32 v ∧ toInt32 v < 2 ^ 31 := by
  unfold toInt32
  have h1 : 0 ≤ v % 2 ^ 32 := Int.emod_nonneg _ (by norm_num)
  have h2 : v % 2 ^ 32 < 2 ^ 32 := Int.emod_lt_of_pos _ (by norm_num)
  split_ifs <;> constructor <;> omega

theorem clamp_width (c : Int) :
    ((snprintf 5 (fmtHex 4 (toUInt32 (if toInt32 c < 0 then 65535 else toInt32 c)))).1 == 4)
      = decide (toInt32 c ≤ 65535) := by
  obtain ⟨h1, h2⟩ := toInt32_range c
  have hu : ∀ x : Int, 0 ≤ x → x < 2 ^ 31 → ((toUInt32 x : Nat) : Int) = x := by
    intro x hx0 hx1
    unfold toUInt32
    rw [Int.emod_eq_of_lt hx0 (by omega)]
    exact Int.toNat_of_nonneg hx0
  have key : (fmtHex 4 (toUInt32 (if toInt32 c < 0 then 65535 else toInt32 c))).length = 4
      ↔ toInt32 c ≤ 65535 := by
    rw [fmtHex_length_eq_iff 4 _ (by norm_num)]
    split_ifs with hneg
    · have := hu 65535 (by norm_num) (by norm_num)
      constructor
      · intro _; omega
      · intro _; norm_num; omega
    · have := hu (toInt32 c) (by omega) h2
      constructor
      · intro h; norm_num at h; omega
      · intro h; norm_num; omega
  simp only [snprintf]
  by_cases h : toInt32 c ≤ 65535
  · simp [h, key.mpr h]
  · simp [h, mt key.mp h]

/-- C10 (amended): a write of a nonzero frame count to AcquireFrames returns
`ERR_TRIGGER` and leaves the whole state as it was (nothing is sent) whenever
the last selected trigger is not INTERNAL (position 4). When the count is 0 or
the last selected trigger is INTERNAL, the port is set and the transport
acknowledges, the write sends the command `B` with the first four characters of
the hexadecimal text of the count (65535 for a negative count), stores the
count and returns `DEVICE_OK`; the width assertion fails exactly when the count
exceeds 65535. -/
theorem acquire_needs_internal_trigger (w : World) (n : Int) :
    (n ≠ 0 → w.hub.selectTrigger_ ≠ 4 →
        step w (Action.OnAcquire n) = (Result.ret ERR_TRIGGER, w)) ∧
      ((n = 0 ∨ w.hub.selectTrigger_ = 4) → w.hub.portAvailable_ = true →
        w.port.Delivers ASCII_ACK →
        (step w (Action.OnAcquire n)).1 = Result.ret DEVICE_OK ∧
        (step w (Action.OnAcquire n)).2.port.written = w.port.written ++
          [[0x01, HEADER_ACQUIRE] ++
            (fmtHex 4 (toUInt32 (if toInt32 n < 0 then 65535 else toInt32 n))).take 4 ++
            [0x04]] ∧
        (step w (Action.OnAcquire n)).2.hub.acquire_ = toInt32 n ∧
        ((step w (Action.OnAcquire n)).2.port.assertFailed = true ↔
          w.port.assertFailed = true ∨ 65535 < toInt32 n)) := by
  constructor
  · intro h0 h4
    simp only [step, liftRet, ControlHub.OnAcquire, h0, h4, ne_eq, not_false_eq_true,
      and_self, if_true]
  · intro hor hport hd
    have hc : ¬ (n ≠ 0 ∧ w.hub.selectTrigger_ ≠ 4) := by
      rintro ⟨h0, h4⟩
      rcases hor with h | h
      · exact h0 h
      · exact h4 h
    have hcode := SendCommand_code w.hub HEADER_ACQUIRE
      (snprintf 5 (fmtHex 4 (toUInt32
        (if toInt32 n < 0 then 65535 else toInt32 n)))).2
      (w.port.assert ((snprintf 5 (fmtHex 4 (toUInt32
        (if toInt32 n < 0 then 65535 else toInt32 n)))).1 == 4))
      ASCII_ACK hport (Delivers_assert _ _ _ hd)
    have hwr := SendCommand_written w.hub HEADER_ACQUIRE
      (snprintf 5 (fmtHex 4 (toUInt32
        (if toInt32 n < 0 then 65535 else toInt32 n)))).2
      (w.port.assert ((snprintf 5 (fmtHex 4 (toUInt32
        (if toInt32 n < 0 then 65535 else toInt32 n)))).1 == 4))
      hport hd.1
    have hfl := SendCommand_assertFailed w.hub HEADER_ACQUIRE
      (snprintf 5 (fmtHex 4 (toUInt32
        (if toInt32 n < 0 then 65535 else toInt32 n)))).2
      (w.port.assert ((snprintf 5 (fmtHex 4 (toUInt32
        (if toInt32 n < 0 then 65535 else toInt32 n)))).1 == 4))
    rw [if_pos rfl] at hcode
    simp only [step, liftRet, ControlHub.OnAcquire, hc, if_false, ControlHub.SendCommand_int, hcode,
      ne_eq, not_true_eq_false]
    refine ⟨trivial, ?_, trivial, ?_⟩
    · rw [hwr]; rfl
    · rw [hfl, clamp_width]
      simp [Port.assert]

theorem sampleWorld_delivers : sampleWorld.port.Delivers ASCII_ACK :=
  ⟨⟨by decide!, by decide!⟩, [], 1000, List.replicate 11 ackEvent, by decide!, by decide,
    by decide⟩

theorem acquire_needs_internal_trigger_witness :
    ((3 : Int) ≠ 0 ∧ auxTriggerWorld.hub.selectTrigger_ ≠ 4 ∧
        step auxTriggerWorld (Action.OnAcquire 3) = (Result.ret ERR_TRIGGER, auxTriggerWorld)) ∧
      (sampleWorld.hub.selectTrigger_ = 4 ∧ sampleWorld.hub.portAvailable_ = true ∧
        sampleWorld.port.Delivers ASCII_ACK ∧
        (step sampleWorld (Action.OnAcquire 3)).1 = Result.ret DEVICE_OK ∧
        (step sampleWorld (Action.OnAcquire 3)).2.port.written = sampleWorld.port.written ++
          [[0x01, HEADER_ACQUIRE] ++ [48, 48, 48, 51] ++ [0x04]]) :=
  ⟨⟨by decide, by decide!,
      (acquire_needs_internal_trigger auxTriggerWorld 3).1 (by decide) (by decide!)⟩,
    by decide!, sampleWorld_channel.2.1, sampleWorld_delivers,
    ((acquire_needs_internal_trigger sampleWorld 3).2 (Or.inr (by decide!))
      sampleWorld_channel.2.1 sampleWorld_delivers).1,
    ((acquire_needs_internal_trigger sampleWorld 3).2 (Or.inr (by decide!))
      sampleWorld_channel.2.1 sampleWorld_delivers).2.1⟩

/-- C10 as stated fails for the frame count 0: with the trigger selector on
position 2 (not INTERNAL) and an acknowledging transport, the write of 0 to
AcquireFrames does not fail with `ERR_TRIGGER`; it sends the frame
`[0x01, 'B', '0', '0', '0', '0', 0x04]` and returns `DEVICE_OK`. -/
theorem acquire_zero_counterexample :
    auxTriggerWorld.hub.selectTrigger_ = 2 ∧
      (step auxTriggerWorld (Action.OnAcquire 0)).1 = Result.ret DEVICE_OK ∧
      (step auxTriggerWorld (Action.OnAcquire 0)).1 ≠ Result.ret ERR_TRIGGER ∧
      (step auxTriggerWorld (Action.OnAcquire 0)).2.port.written
        = auxTriggerWorld.port.written ++ [[0x01, 66, 48, 48, 48, 48, 0x04]] := by
  decide!

/-! ## The step duration (C11) -/

theorem UpdateDeltaT_ok (w : World) (h : (ControlHub.UpdateDeltaT w).1 = DEVICE_OK) :
    (ControlHub.UpdateDeltaT w).2.hub = { w.hub with deltaT_ := w.hub.stepTime } ∧
      (ControlHub.UpdateDeltaT w).2.hub.deltaT_ = (ControlHub.UpdateDeltaT w).2.hub.stepTime := by
  simp only [ControlHub.UpdateDeltaT] at h ⊢
  split_ifs at h ⊢ with h1
  · exact absurd h h1
  · exact ⟨rfl, rfl⟩

/-- The sibling writes do what the frame period write misses: after a write of
the exposure, of the loop-frame flag or of a new step count that returns
`DEVICE_OK`, `deltaT_` is the step duration computed on the new state. -/
theorem sibling_writes_update_step_time (w : World) :
    (∀ v, (step w (Action.OnExposure v)).1 = Result.ret DEVICE_OK →
        (step w (Action.OnExposure v)).2.hub.exposure_ = v ∧
        (step w (Action.OnExposure v)).2.hub.deltaT_
          = (step w (Action.OnExposure v)).2.hub.stepTime) ∧
      (∀ n, (step w (Action.OnLoopFrame n)).1 = Result.ret DEVICE_OK →
        (step w (Action.OnLoopFrame n)).2.hub.loopFrame_ = decide (n ≠ 0) ∧
        (step w (Action.OnLoopFrame n)).2.hub.deltaT_
          = (step w (Action.OnLoopFrame n)).2.hub.stepTime) ∧
      (∀ n, ¬ (n = (w.hub.NSteps_ : Int) ∧ n ≠ 0) →
        (step w (Action.OnNSteps n)).1 = Result.ret DEVICE_OK →
        (step w (Action.OnNSteps n)).2.hub.NSteps_ = toByte n ∧
        (step w (Action.OnNSteps n)).2.hub.deltaT_
          = (step w (Action.OnNSteps n)).2.hub.stepTime) := by
  refine ⟨fun v h => ?_, fun n h => ?_, fun n hn h => ?_⟩
  · simp only [step, liftRet, ControlHub.OnExposure, Result.ret.injEq] at h ⊢
    split_ifs at h ⊢ with h1
    · exact absurd h h1
    · obtain ⟨e1, e2⟩ := UpdateDeltaT_ok _ h
      exact ⟨by rw [e1], e2⟩
  · simp only [step, liftRet, ControlHub.OnLoopFrame, Result.ret.injEq] at h ⊢
    split_ifs at h ⊢ with h1
    · exact absurd h h1
    · obtain ⟨e1, e2⟩ := UpdateDeltaT_ok _ h
      exact ⟨by rw [e1], e2⟩
  · simp only [step, liftRet, ControlHub.OnNSteps, hn, if_false, Result.ret.injEq] at h ⊢
    split_ifs at h ⊢ with h1 h2
    · simp [ERR_NMOD, DEVICE_OK] at h
    · exact absurd h h2
    · obtain ⟨e1, e2⟩ := UpdateDeltaT_ok _ h
      exact ⟨by rw [e1], e2⟩

/-- C11 fails for the frame period: on the state `loopWorld` (5 steps, looped
frame, frame period 10 ms, every frame acknowledged) the write of the frame
period 20 ms succeeds and stores 20, but the command `T` it sends carries
2000 microseconds and `deltaT_` stays 2 ms, while the formula on the new state
gives 20 / 5 = 4 ms (4000 microseconds): `UpdateDeltaT` runs before `frameT_`
is stored. -/
theorem frame_period_leaves_stale_step_time :
    (step loopWorld (Action.OnFrameT 20)).1 = Result.ret DEVICE_OK ∧
      (step loopWorld (Action.OnFrameT 20)).2.hub.frameT_ = 20 ∧
      (step loopWorld (Action.OnFrameT 20)).2.hub.deltaT_ = 2 ∧
      (step loopWorld (Action.OnFrameT 20)).2.hub.stepTime = 4 ∧
      (step loopWorld (Action.OnFrameT 20)).2.port.written
        = loopWorld.port.written ++ [[0x01, HEADER_DELTAT] ++ hexText 8 2000 ++ [0x04]] := by
  decide!

/-! ## Failed writes and the cache (C12) -/

theorem UpdateDeltaT_err (w : World) (h : (ControlHub.UpdateDeltaT w).1 ≠ DEVICE_OK) :
    (ControlHub.UpdateDeltaT w).2.cached = w.cached := by
  simp only [ControlHub.UpdateDeltaT] at h ⊢
  split_ifs at h ⊢ with h1
  · rfl
  · exact absurd rfl h

theorem ret_ne_ok {c : Int} (h : Result.ret c ≠ Result.ret DEVICE_OK) : c ≠ DEVICE_OK :=
  fun e => h (by rw [e])

theorem onMod_cached (w : World) (i : Nat)
    (f : ControlHub → AnalogMod → Port → Result × AnalogMod × Port)
    (hf : ∀ m, w.mods[i]? = some m → (f w.hub m w.port).2.1 = m) :
    (w.onMod i f).2.cached = w.cached := by
  unfold World.onMod
  cases hm : w.mods[i]? with
  | none => rfl
  | some m =>
    simp only [World.cached, hf m hm, set_of_getElem? w.mods i m hm]

theorem OnGate_err (hub : ControlHub) (m : AnalogMod) (g : Int) (p : Port)
    (h : (AnalogMod.OnGate hub m g p).1 ≠ Result.ret DEVICE_OK) :
    (AnalogMod.OnGate hub m g p).2.1 = m := by
  simp only [AnalogMod.OnGate] at h ⊢
  split_ifs at h ⊢ <;> first | rfl | exact absurd rfl h

theorem OnModulationA_err (hub : ControlHub) (m : AnalogMod) (s : List Nat) (p : Port)
    (h : (AnalogMod.OnModulationA hub m s p).1 ≠ Result.ret DEVICE_OK) :
    (AnalogMod.OnModulationA hub m s p).2.1 = m := by
  simp only [AnalogMod.OnModulationA] at h ⊢
  split_ifs at h ⊢ <;> first | rfl | exact absurd rfl h

theorem OnModulationD_err (hub : ControlHub) (m : AnalogMod) (s : List Nat) (p : Port)
    (h : (AnalogMod.OnModulationD hub m s p).1 ≠ Result.ret DEVICE_OK) :
    (AnalogMod.OnModulationD hub m s p).2.1 = m := by
  simp only [AnalogMod.OnModulationD] at h ⊢
  split_ifs at h ⊢
  · rfl
  · generalize scanD (getlineTokens [] s) = r at h ⊢
    cases r with
    | error e => rfl
    | ok values =>
      simp only at h ⊢
      split_ifs at h ⊢ <;> first | rfl | exact absurd rfl h

theorem OnAmplitude_err (hub : ControlHub) (m : AnalogMod) (a : Int) (p : Port)
    (h : (AnalogMod.OnAmplitude hub m a p).1 ≠ Result.ret DEVICE_OK) :
    (AnalogMod.OnAmplitude hub m a p).2.1 = m ∨
      ((hub.SendCommand HEADER_AMPLITUDE
          (m.channelText.2 ++ (snprintf 3 (fmtHex 2 (toByte a))).2)
          ((p.assert (m.channelText.1 == 1)).assert
            ((snprintf 3 (fmtHex 2 (toByte a))).1 == 2))).1 = DEVICE_OK ∧
        m.modulationA_ ≠ [] ∧
        (AnalogMod.OnAmplitude hub m a p).2.1 = { m with amplitude_ := a }) := by
  simp only [AnalogMod.OnAmplitude] at h ⊢
  split_ifs at h ⊢ with h1 h2 h3
  · left; rfl
  · left; rfl
  · right; exact ⟨not_not.mp h2, h3, rfl⟩
  · exact absurd rfl h

/-- C12 (amended): when a property write of the hub, the trigger selector, the
enable gate or a modulation channel does not return `DEVICE_OK`, whatever the
port does, every cached field of the hub and of every endpoint has the value it
had before the write, with one exception: a write that sends two commands and
fails in the second. When the command of the exposure, of the loop-frame flag
or of the step count was acknowledged and the step-duration command `T` that
follows fails, the written field holds the new value (for the step count also
the tables are cleared and the modulation flags reset) and `deltaT_` the old
one; when the amplitude command was acknowledged and the re-sent analog table
fails, `amplitude_` holds the new value. -/
theorem failed_write_keeps_cache (w : World) (a : Action) (ha : a.isPropertyWrite)
    (herr : (step w a).1 ≠ Result.ret DEVICE_OK) :
    (step w a).2.cached = w.cached ∨
      (∃ v, a = Action.OnExposure v ∧
        (w.hub.SendTimeMs HEADER_EXPOSURE v w.port).1 = DEVICE_OK ∧
        (step w a).2.cached
          = ({ w.hub with exposure_ := v }, w.trigger, w.shutter, w.mods)) ∨
      (∃ n, a = Action.OnLoopFrame n ∧
        (w.hub.SendCommand_bool HEADER_LOOPF (decide (n ≠ 0)) w.port).1 = DEVICE_OK ∧
        (step w a).2.cached
          = ({ w.hub with loopFrame_ := decide (n ≠ 0) }, w.trigger, w.shutter, w.mods)) ∨
      (∃ n, a = Action.OnNSteps n ∧
        (w.hub.SendCommand_byte HEADER_NSTEPS (toByte n) w.port).1 = DEVICE_OK ∧
        (step w a).2.cached
          = ({ w.hub with NSteps_ := toByte n, digMod_ := false, anaMod_ := false },
              w.trigger, w.shutter, ControlHub.ResetModulations w.hub.modulators_ w.mods)) ∨
      (∃ i amp m, a = Action.OnAmplitude i amp ∧ w.mods[i]? = some m ∧
        m.modulationA_ ≠ [] ∧
        (w.hub.SendCommand HEADER_AMPLITUDE
          (m.channelText.2 ++ (snprintf 3 (fmtHex 2 (toByte amp))).2)
          ((w.port.assert (m.channelText.1 == 1)).assert
            ((snprintf 3 (fmtHex 2 (toByte amp))).1 == 2))).1 = DEVICE_OK ∧
        (step w a).2.cached
          = (w.hub, w.trigger, w.shutter, w.mods.set i { m with amplitude_ := amp })) := by
  cases a with
  | OnPort => exact absurd ha (by simp [Action.isPropertyWrite])
  | HubInitialize => exact absurd ha (by simp [Action.isPropertyWrite])
  | HubShutdown => exact absurd ha (by simp [Action.isPropertyWrite])
  | TriggerInitialize => exact absurd ha (by simp [Action.isPropertyWrite])
  | ModInitialize i => exact absurd ha (by simp [Action.isPropertyWrite])
  | elapse dt => exact absurd ha (by simp [Action.isPropertyWrite])
  | OnExposure v =>
    simp only [step, liftRet, ControlHub.OnExposure] at herr ⊢
    split_ifs at herr ⊢ with h1
    · left; rfl
    · right; left
      exact ⟨v, rfl, not_not.mp h1, UpdateDeltaT_err _ (ret_ne_ok herr)⟩
  | OnLoopFrame n =>
    simp only [step, liftRet, ControlHub.OnLoopFrame] at herr ⊢
    split_ifs at herr ⊢ with h1
    · left; rfl
    · right; right; left
      exact ⟨n, rfl, not_not.mp h1, UpdateDeltaT_err _ (ret_ne_ok herr)⟩
  | OnNSteps n =>
    simp only [step, liftRet, ControlHub.OnNSteps] at herr ⊢
    split_ifs at herr ⊢ with h1 h2 h3
    · left; rfl
    · left; rfl
    · left; rfl
    · right; right; right; left
      exact ⟨n, rfl, not_not.mp h3, UpdateDeltaT_err _ (ret_ne_ok herr)⟩
  | OnFrameT v =>
    left
    simp only [step, liftRet, ControlHub.OnFrameT] at herr ⊢
    split_ifs at herr ⊢ with h1 h2
    · rfl
    · exact UpdateDeltaT_err _ h2
    · exact absurd rfl herr
  | OnWaitBefore v =>
    left
    simp only [step, liftRet, ControlHub.OnWaitBefore] at herr ⊢
    split_ifs at herr ⊢ <;> first | rfl | exact absurd rfl herr
  | OnWaitAfter v =>
    left
    simp only [step, liftRet, ControlHub.OnWaitAfter] at herr ⊢
    split_ifs at herr ⊢ <;> first | rfl | exact absurd rfl herr
  | OnNFrames v =>
    left
    simp only [step, liftRet, ControlHub.OnNFrames] at herr ⊢
    split_ifs at herr ⊢ <;> first | rfl | exact absurd rfl herr
  | OnDigMod v =>
    left
    simp only [step, liftRet, ControlHub.OnDigMod] at herr ⊢
    split_ifs at herr ⊢ <;> first | rfl | exact absurd rfl herr
  | OnAnaMod v =>
    left
    simp only [step, liftRet, ControlHub.OnAnaMod] at herr ⊢
    split_ifs at herr ⊢ <;> first | rfl | exact absurd rfl herr
  | OnAcquire v =>
    left
    simp only [step, liftRet, ControlHub.OnAcquire] at herr ⊢
    split_ifs at herr ⊢ <;> first | rfl | exact absurd rfl herr
  | OnState v =>
    left
    simp only [step, liftRet, TriggerSelect.OnState] at herr ⊢
    split_ifs at herr ⊢ <;> first | rfl | exact absurd rfl herr
  | OnEnable v =>
    left
    simp only [step, liftRet, EnableShutter.OnEnable] at herr ⊢
    split_ifs at herr ⊢ <;> first | rfl | exact absurd rfl herr
  | OnGate i g =>
    left
    simp only [step] at herr ⊢
    apply onMod_cached
    intro m hm
    apply OnGate_err
    simpa only [World.onMod, hm] using herr
  | OnModulationA i s =>
    left
    simp only [step] at herr ⊢
    apply onMod_cached
    intro m hm
    apply OnModulationA_err
    simpa only [World.onMod, hm] using herr
  | OnModulationD i s =>
    left
    simp only [step] at herr ⊢
    apply onMod_cached
    intro m hm
    apply OnModulationD_err
    simpa only [World.onMod, hm] using herr
  | OnAmplitude i amp =>
    simp only [step] at herr ⊢
    cases hm : w.mods[i]? with
    | none => left; simp only [World.onMod, hm]
    | some m =>
      have herr2 : (AnalogMod.OnAmplitude w.hub m amp w.port).1 ≠ Result.ret DEVICE_OK := by
        simpa only [World.onMod, hm] using herr
      rcases OnAmplitude_err w.hub m amp w.port herr2 with h | ⟨h1, h2, h3⟩
      · left
        simp only [World.onMod, hm, World.cached, h, set_of_getElem? w.mods i m hm]
      · right; right; right; right
        refine ⟨i, amp, m, rfl, hm, h2, h1, ?_⟩
        simp only [World.onMod, hm, World.cached, h3]

theorem failed_write_keeps_cache_witness :
    (Action.OnExposure 20).isPropertyWrite ∧
      (step halfAckWorld (Action.OnExposure 20)).1 ≠ Result.ret DEVICE_OK ∧
      ((step halfAckWorld (Action.OnExposure 20)).2.cached = halfAckWorld.cached ∨
        (step halfAckWorld (Action.OnExposure 20)).2.cached
          = ({ halfAckWorld.hub with exposure_ := 20 }, halfAckWorld.trigger,
              halfAckWorld.shutter, halfAckWorld.mods)) :=
  ⟨trivial, by decide!,
    (failed_write_keeps_cache halfAckWorld (Action.OnExposure 20) trivial (by decide!)).elim
      Or.inl
      (fun h => h.elim (fun ⟨v, hv, _, hc⟩ => Or.inr (by cases hv; exact hc))
        (fun h => h.elim (fun ⟨_, hn, _⟩ => by cases hn)
          (fun h => h.elim (fun ⟨_, hn, _⟩ => by cases hn)
            (fun ⟨_, _, _, hn, _⟩ => by cases hn))))⟩

/-- C12 as stated fails: on a port that acknowledges the exposure command `E`
and answers the step-duration command `T` that follows with `ASCII_NACK`, the
write of the exposure 20 ms returns `ERR_COMMUNICATION` and the cached exposure
has changed from 10 to 20. -/
theorem failed_write_counterexample :
    (step halfAckWorld (Action.OnExposure 20)).1 = Result.ret ERR_COMMUNICATION ∧
      halfAckWorld.hub.exposure_ = 10 ∧
      (step halfAckWorld (Action.OnExposure 20)).2.hub.exposure_ = 20 ∧
      (step halfAckWorld (Action.OnExposure 20)).2.cached ≠ halfAckWorld.cached := by
  decide!

/-! ## A transport that answers NACK (C13) -/

theorem SendCommand_nack (hub : ControlHub) (h : Nat) (payload : List Nat) (p : Port)
    (hd : p.Delivers ASCII_NACK) : (hub.SendCommand h payload p).1 ≠ DEVICE_OK := by
  by_cases hport : hub.portAvailable_ = true
  · rw [SendCommand_code hub h payload p ASCII_NACK hport hd]
    decide
  · simp [ControlHub.SendCommand, hport, ERR_NO_PORT_SET, DEVICE_OK]

theorem SendTimeMs_nack (hub : ControlHub) (h : Nat) (t : ℚ) (p : Port)
    (hd : p.Delivers ASCII_NACK) : (hub.SendTimeMs h t p).1 ≠ DEVICE_OK := by
  simp only [ControlHub.SendTimeMs]
  split_ifs
  · simp [ERR_INVALID_VALUE, DEVICE_OK]
  · exact SendCommand_nack hub h _ _ (Delivers_assert _ _ _ hd)

theorem UpdateDeltaT_nack (w : World) (hd : w.port.Delivers ASCII_NACK) :
    (ControlHub.UpdateDeltaT w).2.cached = w.cached := by
  apply UpdateDeltaT_err
  simp only [ControlHub.UpdateDeltaT]
  rw [if_pos (SendTimeMs_nack _ _ _ _ hd)]
  exact SendTimeMs_nack _ _ _ _ hd

theorem SendModulationA_nack (hub : ControlHub) (m : AnalogMod) (s : List Nat) (p : Port)
    (hd : p.Delivers ASCII_NACK) :
    (AnalogMod.SendModulationA hub m s p).1 ≠ Result.ret DEVICE_OK := by
  simp only [AnalogMod.SendModulationA]
  split_ifs
  · simp [ERR_NO_PORT_SET, DEVICE_OK]
  · split
    · rename_i e he
      intro h
      subst h
      revert he
      generalize getlineTokens [] s = toks
      induction toks with
      | nil => simp [AnalogMod.scanA]
      | cons t ts ih =>
        simp only [AnalogMod.scanA]
        cases stoi t with
        | none => simp
        | some v =>
          simp only
          split_ifs
          · simp [ERR_INVALID_VALUE, DEVICE_OK]
          · cases hr : AnalogMod.scanA m ts with
            | error e2 =>
              simp only [Except.error.injEq]
              intro h2
              exact ih (by rw [hr, h2])
            | ok vs => simp
    · split_ifs
      · simp [ERR_MOD_LENGTH, DEVICE_OK]
      · intro h
        exact SendCommand_nack hub _ _ _ (Delivers_assert _ _ _ hd) (Result.ret.inj h)

theorem mod_handler_nack (hub : ControlHub) (m : AnalogMod) (p : Port)
    (hd : p.Delivers ASCII_NACK) :
    (∀ a, (AnalogMod.OnAmplitude hub m a p).2.1 = m) ∧
      (∀ g, (AnalogMod.OnGate hub m g p).2.1 = m) ∧
      (∀ s, (AnalogMod.OnModulationA hub m s p).2.1 = m) ∧
      (∀ s, (AnalogMod.OnModulationD hub m s p).2.1 = m) := by
  refine ⟨fun a => ?_, fun g => ?_, fun s => ?_, fun s => ?_⟩
  · have hn := SendCommand_nack hub HEADER_AMPLITUDE
      (m.channelText.2 ++ (snprintf 3 (fmtHex 2 (toByte a))).2) _
      (Delivers_assert _ ((snprintf 3 (fmtHex 2 (toByte a))).1 == 2) _
        (Delivers_assert p (m.channelText.1 == 1) _ hd))
    simp only [AnalogMod.OnAmplitude, if_pos hn]
    split_ifs <;> rfl
  · have hn := SendCommand_nack hub HEADER_GATE
      (m.channelText.2 ++ [if g ≠ 0 then 49 else 48]) _
      (Delivers_assert p (m.channelText.1 == 1) _ hd)
    simp only [AnalogMod.OnGate, if_pos hn]
    split_ifs <;> rfl
  · simp only [AnalogMod.OnModulationA, if_pos (SendModulationA_nack hub m s p hd)]
    split_ifs <;> rfl
  · simp only [AnalogMod.OnModulationD]
    split_ifs with h1
    · rfl
    · split
      · rfl
      · rename_i values _
        have hn := SendCommand_nack hub HEADER_MODD (m.payloadD values) _
          (Delivers_assert p (m.channelText.1 == 1) _ hd)
        simp only [if_pos hn]
        split_ifs <;> rfl

/-- C13: on a hub whose port is set and whose transport answers the next frame
with `ASCII_NACK` (0x15), every call of `SendCommand` and of `AskAnswer`
returns `ERR_COMMUNICATION`, and every property write of the hub, of the
trigger selector, of the enable gate and of the modulation channels leaves
every cached field of the hub and of the endpoints as it was. -/
theorem nack_commits_nothing (w : World) (hport : w.hub.portAvailable_ = true)
    (hd : w.port.Delivers 0x15) :
    (∀ h payload, (w.hub.SendCommand h payload w.port).1 = ERR_COMMUNICATION) ∧
      (∀ h answer, (w.hub.AskAnswer h answer w.port).1 = ERR_COMMUNICATION) ∧
      (∀ a : Action, a.isPropertyWrite → (step w a).2.cached = w.cached) := by
  have hd' : w.port.Delivers ASCII_NACK := hd
  refine ⟨fun h payload => ?_, fun h answer => ?_, fun a ha => ?_⟩
  · rw [SendCommand_code w.hub h payload w.port ASCII_NACK hport hd']
    rfl
  · obtain ⟨q, _, _, _, _, heq⟩ := AskAnswer_spec w.hub h answer w.port ASCII_NACK hport hd'
    rw [heq]
    rfl
  · cases a with
    | OnPort => exact absurd ha (by simp [Action.isPropertyWrite])
    | HubInitialize => exact absurd ha (by simp [Action.isPropertyWrite])
    | HubShutdown => exact absurd ha (by simp [Action.isPropertyWrite])
    | TriggerInitialize => exact absurd ha (by simp [Action.isPropertyWrite])
    | ModInitialize i => exact absurd ha (by simp [Action.isPropertyWrite])
    | elapse dt => exact absurd ha (by simp [Action.isPropertyWrite])
    | OnExposure v =>
      simp only [step, liftRet, ControlHub.OnExposure,
        if_pos (SendTimeMs_nack w.hub HEADER_EXPOSURE v w.port hd')]
      rfl
    | OnFrameT v =>
      have hu := UpdateDeltaT_nack w hd'
      simp only [step, liftRet, ControlHub.OnFrameT]
      split_ifs with h1 h2
      · rfl
      · exact hu
      · exfalso
        apply h2
        simp only [ControlHub.UpdateDeltaT]
        rw [if_pos (SendTimeMs_nack _ _ _ _ hd')]
        exact SendTimeMs_nack _ _ _ _ hd'
    | OnWaitBefore v =>
      simp only [step, liftRet, ControlHub.OnWaitBefore,
        if_pos (SendTimeMs_nack w.hub HEADER_WAITBEFORE v w.port hd')]
      rfl
    | OnWaitAfter v =>
      simp only [step, liftRet, ControlHub.OnWaitAfter,
        if_pos (SendTimeMs_nack w.hub HEADER_WAITAFTER v w.port hd')]
      rfl
    | OnNSteps n =>
      simp only [step, liftRet, ControlHub.OnNSteps, ControlHub.SendCommand_byte,
        if_pos (SendCommand_nack w.hub HEADER_NSTEPS _ _ (Delivers_assert _ _ _ hd'))]
      split_ifs <;> rfl
    | OnNFrames n =>
      simp only [step, liftRet, ControlHub.OnNFrames, ControlHub.SendCommand_byte,
        if_pos (SendCommand_nack w.hub HEADER_NFRAMES _ _ (Delivers_assert _ _ _ hd'))]
      split_ifs <;> rfl
    | OnDigMod n =>
      simp only [step, liftRet, ControlHub.OnDigMod, ControlHub.SendCommand_bool,
        if_pos (SendCommand_nack w.hub HEADER_DIGMOD _ _ hd')]
      split_ifs <;> rfl
    | OnAnaMod n =>
      simp only [step, liftRet, ControlHub.OnAnaMod, ControlHub.SendCommand_bool,
        if_pos (SendCommand_nack w.hub HEADER_ANAMOD _ _ hd')]
      split_ifs <;> rfl
    | OnLoopFrame n =>
      simp only [step, liftRet, ControlHub.OnLoopFrame, ControlHub.SendCommand_bool,
        if_pos (SendCommand_nack w.hub HEADER_LOOPF _ _ hd')]
      rfl
    | OnAcquire n =>
      simp only [step, liftRet, ControlHub.OnAcquire, ControlHub.SendCommand_int,
        if_pos (SendCommand_nack w.hub HEADER_ACQUIRE _ _ (Delivers_assert _ _ _ hd'))]
      split_ifs <;> rfl
    | OnState n =>
      simp only [step, liftRet, TriggerSelect.OnState, ControlHub.SendCommand_byte,
        if_pos (SendCommand_nack w.hub HEADER_TRIGGER _ _ (Delivers_assert _ _ _ hd'))]
      split_ifs <;> rfl
    | OnEnable n =>
      simp only [step, liftRet, EnableShutter.OnEnable, ControlHub.SendCommand_bool,
        if_pos (SendCommand_nack w.hub HEADER_ENABLE _ _ hd')]
      rfl
    | OnAmplitude i v =>
      exact onMod_cached w i _ (fun m _ => (mod_handler_nack w.hub m w.port hd').1 v)
    | OnGate i v =>
      exact onMod_cached w i _ (fun m _ => (mod_handler_nack w.hub m w.port hd').2.1 v)
    | OnModulationA i v =>
      exact onMod_cached w i _ (fun m _ => (mod_handler_nack w.hub m w.port hd').2.2.1 v)
    | OnModulationD i v =>
      exact onMod_cached w i _ (fun m _ => (mod_handler_nack w.hub m w.port hd').2.2.2 v)

theorem nackWorld_delivers : nackWorld.port.Delivers 0x15 :=
  ⟨⟨rfl, rfl⟩, [], 1000, [], rfl, by decide, by decide⟩

theorem nack_commits_nothing_witness :
    nackWorld.hub.portAvailable_ = true ∧ nackWorld.port.Delivers 0x15 ∧
      (nackWorld.hub.SendCommand HEADER_NSTEPS [48, 55] nackWorld.port).1
        = ERR_COMMUNICATION ∧
      (nackWorld.hub.AskAnswer HEADER_FIRMWARE [] nackWorld.port).1 = ERR_COMMUNICATION ∧
      (step nackWorld (Action.OnNSteps 7)).2.cached = nackWorld.cached ∧
      (step nackWorld (Action.OnAmplitude 0 128)).2.cached = nackWorld.cached :=
  ⟨by decide!, nackWorld_delivers,
    (nack_commits_nothing nackWorld (by decide!) nackWorld_delivers).1 HEADER_NSTEPS [48, 55],
    (nack_commits_nothing nackWorld (by decide!) nackWorld_delivers).2.1 HEADER_FIRMWARE [],
    (nack_commits_nothing nackWorld (by decide!) nackWorld_delivers).2.2
      (Action.OnNSteps 7) trivial,
    (nack_commits_nothing nackWorld (by decide!) nackWorld_delivers).2.2
      (Action.OnAmplitude 0 128) trivial⟩

/-! ## A transport that stays silent (C14) -/

theorem bitLength_zero (fuel : Nat) : bitLength fuel 0 = 0 := by
  cases fuel <;> simp [bitLength]

theorem bitLength_spec : ∀ (fuel n : Nat), n ≤ fuel → n ≠ 0 →
    2 ^ (bitLength fuel n - 1) ≤ n ∧ n < 2 ^ bitLength fuel n := by
  intro fuel
  induction fuel with
  | zero =>
    intro n h0 hn
    omega
  | succ fuel ih =>
    intro n hle hn
    simp only [bitLength, hn, if_false]
    by_cases h2 : n / 2 = 0
    · rw [h2, bitLength_zero]
      have : n = 1 := by omega
      subst this
      simp
    · have hle2 : n / 2 ≤ fuel := by omega
      obtain ⟨i1, i2⟩ := ih (n / 2) hle2 h2
      have hb : 1 ≤ bitLength fuel (n / 2) := by
        by_contra hc
        have : bitLength fuel (n / 2) = 0 := by omega
        rw [this] at i2
        simp at i2
        exact h2 i2
      obtain ⟨b, hb2⟩ : ∃ b, bitLength fuel (n / 2) = b + 1 := ⟨_, (Nat.sub_add_cancel hb).symm⟩
      rw [hb2] at i1 i2 ⊢
      simp only [Nat.add_sub_cancel] at i1 ⊢
      rw [pow_succ] at i2 ⊢
      rw [pow_succ]
      constructor <;> omega

theorem pow2_eq (e : Int) : pow2 e = (2 : ℚ) ^ e := by
  unfold pow2
  split_ifs with h
  · have h2 : e = (e.toNat : Int) := (Int.toNat_of_nonneg h).symm
    conv_rhs => rw [h2]
    rw [zpow_natCast]
    push_cast
    rfl
  · have h2 : e = - ((- e).toNat : Int) := by
      rw [Int.toNat_of_nonneg (by omega)]
      ring
    conv_rhs => rw [h2]
    rw [zpow_neg, zpow_natCast]
    push_cast
    rw [one_div]

theorem pow2_pos (e : Int) : 0 < pow2 e := by
  rw [pow2_eq]
  positivity

/-- The exponent `floorLog2 x` is not above the logarithm of `x`. -/
theorem floorLog2_le (x : ℚ) (hx : 0 < x) : (2 : ℚ) ^ floorLog2 x ≤ x := by
  unfold floorLog2
  simp only
  split_ifs with h
  · rw [← pow2_eq]
    exact h
  · have hnum : 0 < x.num := Rat.num_pos.mpr hx
    have hn0 : x.num.toNat ≠ 0 := by omega
    have hd0 : x.den ≠ 0 := x.den_nz
    obtain ⟨a1, a2⟩ := bitLength_spec x.num.toNat x.num.toNat (le_refl _) hn0
    obtain ⟨b1, b2⟩ := bitLength_spec x.den x.den (le_refl _) hd0
    have ha : 1 ≤ bitLength x.num.toNat x.num.toNat := by
      by_contra hc
      have : bitLength x.num.toNat x.num.toNat = 0 := by omega
      rw [this, pow_zero] at a2
      omega
    have hxe : x = (x.num.toNat : ℚ) / (x.den : ℚ) := by
      have h1 : ((x.num.toNat : ℤ) : ℚ) = (x.num : ℚ) := by
        rw [Int.toNat_of_nonneg (le_of_lt hnum)]
      have h2 : ((x.num.toNat : ℕ) : ℚ) = ((x.num.toNat : ℤ) : ℚ) := by push_cast; rfl
      rw [h2, h1]
      exact (Rat.num_div_den x).symm
    have he : ((bitLength x.num.toNat x.num.toNat : ℤ) - (bitLength x.den x.den : ℤ) - 1)
        = ((bitLength x.num.toNat x.num.toNat - 1 : ℕ) : ℤ) - (bitLength x.den x.den : ℤ) := by
      omega
    rw [he, zpow_sub₀ (by norm_num : (2 : ℚ) ≠ 0), zpow_natCast, zpow_natCast]
    conv_rhs => rw [hxe]
    have q1 : ((2 : ℚ) ^ (bitLength x.num.toNat x.num.toNat - 1)) ≤ (x.num.toNat : ℚ) := by
      exact_mod_cast a1
    have q2 : (x.den : ℚ) ≤ (2 : ℚ) ^ bitLength x.den x.den := by
      exact_mod_cast le_of_lt b2
    have q3 : (0 : ℚ) < (x.den : ℚ) := by exact_mod_cast Nat.pos_of_ne_zero hd0
    exact div_le_div₀ (by positivity) q1 q3 q2

/-- A positive `x` below `2 ^ K` has its exponent below `K`. -/
theorem floorLog2_lt (x : ℚ) (K : Int) (hx : 0 < x) (hK : x < (2 : ℚ) ^ K) :
    floorLog2 x < K := by
  by_contra hc
  have h1 : (2 : ℚ) ^ K ≤ (2 : ℚ) ^ floorLog2 x :=
    zpow_le_zpow_right₀ (by norm_num) (not_lt.mp hc)
  have h2 := floorLog2_le x hx
  linarith

theorem roundHalfEven_near (y : ℚ) : |(roundHalfEven y : ℚ) - y| ≤ 1 / 2 := by
  have h1 : ((Rat.floor y : ℤ) : ℚ) ≤ y := Int.floor_le y
  have h2 : y < ((Rat.floor y : ℤ) : ℚ) + 1 := Int.lt_floor_add_one y
  unfold roundHalfEven
  rw [abs_le]
  split_ifs with c1 c2 c3
  · constructor <;> linarith
  · push_cast
    constructor <;> linarith
  · constructor <;> linarith
  · push_cast
    constructor <;> linarith

theorem roundHalfEven_int (m : ℤ) : roundHalfEven (m : ℚ) = m := by
  have hf : Rat.floor (m : ℚ) = m := by
    show ⌊(m : ℚ)⌋ = m
    exact Int.floor_intCast m
  unfold roundHalfEven
  rw [hf]
  simp

/-- The exponent of the last digit kept when a positive `x` below `2 ^ K` is
rounded. -/
theorem lastDigit_le (x : ℚ) (K : Int) (hx : 0 < x) (hK : x < (2 : ℚ) ^ K)
    (hK2 : -1021 ≤ K) : max (floorLog2 |x| - 52) (-1074) ≤ K - 53 := by
  rw [abs_of_pos hx]
  have := floorLog2_lt x K hx hK
  omega

/-- Rounding to a `double` moves a positive `x` below `2 ^ K` by half a unit
of the last digit at most. -/
theorem roundDouble_near (x : ℚ) (K : Int) (hx : 0 < x) (hK : x < (2 : ℚ) ^ K)
    (hK2 : -1021 ≤ K) : |roundDouble x - x| ≤ (2 : ℚ) ^ (K - 53) / 2 := by
  have he := lastDigit_le x K hx hK hK2
  unfold roundDouble
  rw [if_neg (ne_of_gt hx)]
  generalize max (floorLog2 |x| - 52) (-1074) = e at he ⊢
  have hp : 0 < pow2 e := pow2_pos e
  have hn := roundHalfEven_near (x / pow2 e)
  have key : (roundHalfEven (x / pow2 e) : ℚ) * pow2 e - x
      = ((roundHalfEven (x / pow2 e) : ℚ) - x / pow2 e) * pow2 e := by
    field_simp
  rw [key, abs_mul, abs_of_pos hp]
  have hle : pow2 e ≤ (2 : ℚ) ^ (K - 53) := by
    rw [pow2_eq]
    exact zpow_le_zpow_right₀ (by norm_num) he
  calc |(roundHalfEven (x / pow2 e) : ℚ) - x / pow2 e| * pow2 e
      ≤ 1 / 2 * pow2 e := mul_le_mul_of_nonneg_right hn (le_of_lt hp)
    _ ≤ 1 / 2 * (2 : ℚ) ^ (K - 53) := mul_le_mul_of_nonneg_left hle (by norm_num)
    _ = (2 : ℚ) ^ (K - 53) / 2 := by ring

/-- A positive `x` that has its digits at `2 ^ j` and above, and fewer than 53
of them, is a `double`. -/
theorem roundDouble_exact (x : ℚ) (m j : Int) (hx : 0 < x) (hj : -1074 ≤ j)
    (hm : x = (m : ℚ) * (2 : ℚ) ^ j) (hlt : x < (2 : ℚ) ^ (j + 53)) :
    roundDouble x = x := by
  have he : max (floorLog2 |x| - 52) (-1074) ≤ j := by
    rw [abs_of_pos hx]
    have := floorLog2_lt x (j + 53) hx hlt
    omega
  unfold roundDouble
  rw [if_neg (ne_of_gt hx)]
  generalize max (floorLog2 |x| - 52) (-1074) = e at he ⊢
  have hp : 0 < pow2 e := pow2_pos e
  obtain ⟨n, hn⟩ : ∃ n : ℕ, j - e = (n : ℤ) := ⟨(j - e).toNat, by omega⟩
  have hq : x / pow2 e = ((m * 2 ^ n : ℤ) : ℚ) := by
    rw [pow2_eq, hm, mul_div_assoc, ← zpow_sub₀ (by norm_num : (2 : ℚ) ≠ 0), hn, zpow_natCast]
    push_cast
    rfl
  have hx2 : x = ((m * 2 ^ n : ℤ) : ℚ) * pow2 e := by
    rw [← hq]
    field_simp
  rw [hq, roundHalfEven_int]
  exact hx2.symm

/-- A whole number below `2 ^ 53` is a `double`. -/
theorem roundDouble_nat (N : Nat) (hN : N < 2 ^ 53) : roundDouble (N : ℚ) = N := by
  by_cases h0 : N = 0
  · subst h0
    simp [roundDouble]
  · apply roundDouble_exact (N : ℚ) (N : Int) 0 (by exact_mod_cast Nat.pos_of_ne_zero h0)
      (by norm_num) (by simp)
    have hN2 : N < 9007199254740992 := by
      norm_num at hN
      exact hN
    norm_num
    exact hN2

/-- A whole number below `2 ^ 52` plus a half is a `double`. -/
theorem roundDouble_half (N : Nat) (hN : N < 2 ^ 52) :
    roundDouble ((N : ℚ) + 1 / 2) = (N : ℚ) + 1 / 2 := by
  apply roundDouble_exact ((N : ℚ) + 1 / 2) (2 * (N : Int) + 1) (-1) (by positivity)
    (by norm_num)
  · rw [zpow_neg, zpow_one]
    push_cast
    ring
  · have hN2 : N + 1 ≤ 4503599627370496 := by
      norm_num at hN
      omega
    have : (N : ℚ) + 1 ≤ 4503599627370496 := by exact_mod_cast hN2
    norm_num
    linarith

/-- A duration of a whole number of microseconds is sent as that number. -/
theorem timeUs_whole (t : ℚ) (N : Nat) (h : t * 1000 = (N : ℚ)) (hN : N < 2 ^ 52) :
    timeUs t = N := by
  unfold timeUs
  rw [h, roundDouble_nat N (by omega), roundDouble_half N hN]
  have hf : Rat.floor ((N : ℚ) + 1 / 2) = (N : ℤ) := by
    show ⌊(N : ℚ) + 1 / 2⌋ = (N : ℤ)
    rw [Int.floor_eq_iff]
    push_cast
    constructor <;> linarith
  rw [hf]
  simp

/-- The number of microseconds sent is a whole number nearest to `t * 1000`, up
to what the two roundings of the `double` operations move the sum: less than
`2 ^ -20` of a microsecond for a duration below `2 ^ 32` microseconds. -/
theorem timeUs_near (t : ℚ) (ht : 0 ≤ t) (hy : t * 1000 ≤ 2 ^ 32 - 1) :
    (timeUs t : ℚ) ≤ t * 1000 + 1 / 2 + 1 / 2 ^ 20 ∧
      t * 1000 - 1 / 2 - 1 / 2 ^ 20 < (timeUs t : ℚ) ∧ timeUs t < 2 ^ 32 := by
  have hy0 : 0 ≤ t * 1000 := by positivity
  have h1 : |roundDouble (t * 1000) - t * 1000| ≤ 1 / 4194304 := by
    by_cases h0 : t * 1000 = 0
    · rw [h0]
      simp [roundDouble]
    · have hpos : 0 < t * 1000 := lt_of_le_of_ne hy0 (Ne.symm h0)
      have := roundDouble_near (t * 1000) 32 hpos (by norm_num; linarith) (by norm_num)
      norm_num at this ⊢
      exact this
  rw [abs_le] at h1
  have hz0 : 0 < roundDouble (t * 1000) + 1 / 2 := by linarith [h1.1]
  have h2 := roundDouble_near (roundDouble (t * 1000) + 1 / 2) 33 hz0
    (by norm_num; linarith [h1.2]) (by norm_num)
  norm_num at h2
  rw [abs_le] at h2
  have hw0 : 0 ≤ roundDouble (roundDouble (t * 1000) + 1 / 2) := by linarith [h2.1, h1.1]
  have hf0 : 0 ≤ Rat.floor (roundDouble (roundDouble (t * 1000) + 1 / 2)) :=
    Int.floor_nonneg.mpr hw0
  have hc : ((timeUs t : ℕ) : ℚ)
      = ((Rat.floor (roundDouble (roundDouble (t * 1000) + 1 / 2)) : ℤ) : ℚ) := by
    unfold timeUs
    have := Int.toNat_of_nonneg hf0
    exact_mod_cast congrArg (fun z : ℤ => (z : ℚ)) this
  have f1 : ((Rat.floor (roundDouble (roundDouble (t * 1000) + 1 / 2)) : ℤ) : ℚ)
      ≤ roundDouble (roundDouble (t * 1000) + 1 / 2) := Int.floor_le _
  have f2 : roundDouble (roundDouble (t * 1000) + 1 / 2)
      < ((Rat.floor (roundDouble (roundDouble (t * 1000) + 1 / 2)) : ℤ) : ℚ) + 1 :=
    Int.lt_floor_add_one _
  have b1 : (timeUs t : ℚ) ≤ t * 1000 + 1 / 2 + 1 / 2 ^ 20 := by
    rw [hc]
    norm_num
    linarith [h1.2, h2.2]
  refine ⟨b1, ?_, ?_⟩
  · rw [hc]
    norm_num
    linarith [h1.1, h2.1]
  · have b2 : (timeUs t : ℚ) < 4294967296 := by
      norm_num at b1 hy
      linarith
    exact_mod_cast b2

/-- C15 (amended): for every non-negative duration `t` in milliseconds of at most
`2 ^ 32 - 1` microseconds, `SendTimeMs` sends as payload the 8 lowercase
hexadecimal digits of `t` in microseconds, the number
`(unsigned long)((t * 1000) + 0.5)` computed in `double`; no width assertion
fails. That number is `t * 1000` itself when `t * 1000` is whole, and always a
whole number within `1 / 2 + 2 ^ -20` of `t * 1000`: the nearest whole number
of microseconds, up to the rounding of the two `double` operations. -/
theorem time_payload_is_microseconds (hub : ControlHub) (h : Nat) (t : ℚ) (p : Port)
    (ht : 0 ≤ t) (hy : t * 1000 ≤ 2 ^ 32 - 1) :
    hub.SendTimeMs h t p = hub.SendCommand h (hexText 8 (timeUs t)) p ∧
      IsHexOf 8 (timeUs t) (hexText 8 (timeUs t)) ∧
      (∀ N : Nat, t * 1000 = (N : ℚ) → timeUs t = N) ∧
      (timeUs t : ℚ) ≤ t * 1000 + 1 / 2 + 1 / 2 ^ 20 ∧
      t * 1000 - 1 / 2 - 1 / 2 ^ 20 < (timeUs t : ℚ) := by
  obtain ⟨n1, n2, hfit⟩ := timeUs_near t ht hy
  have e8 := snprintf_hex 8 (timeUs t) (by norm_num) (by norm_num; exact hfit)
  refine ⟨?_, hexText_isHexOf 8 _ (by norm_num; exact hfit), fun N hN => ?_, n1, n2⟩
  · have hneg : ¬ t < 0 := not_lt.mpr ht
    simp only [ControlHub.SendTimeMs, hneg, if_false, ControlHub.SendCommand_ulong]
    rw [show (Rat.floor (roundDouble (roundDouble (t * 1000) + 1 / 2))).toNat = timeUs t
      from rfl, e8]
    simp [Port.assert]
  · apply timeUs_whole t N hN
    have h1 : (N : ℚ) ≤ 4294967295 := by
      rw [← hN]
      norm_num at hy
      exact hy
    have h2 : N ≤ 4294967295 := by exact_mod_cast h1
    have h3 : (4294967295 : Nat) < 2 ^ 52 := by norm_num
    omega

theorem time_payload_is_microseconds_witness :
    ((0 : ℚ) ≤ 5 / 2 ∧ (5 / 2 : ℚ) * 1000 ≤ 2 ^ 32 - 1 ∧ timeUs (5 / 2) = 2500 ∧
        sampleWorld.hub.SendTimeMs HEADER_EXPOSURE (5 / 2) ackPort
          = sampleWorld.hub.SendCommand HEADER_EXPOSURE [48, 48, 48, 48, 48, 57, 99, 52]
              ackPort) ∧
      (roundDouble (10005 / 10000) = 4505851427184181 / 4503599627370496 ∧
        timeUs (4505851427184181 / 4503599627370496) = 1001 ∧
        (4505851427184181 / 4503599627370496 : ℚ) * 1000 + 1 / 2 < 1001 ∧
        (timeUs (4505851427184181 / 4503599627370496) : ℚ)
          ≤ (4505851427184181 / 4503599627370496 : ℚ) * 1000 + 1 / 2 + 1 / 2 ^ 20) :=
  ⟨⟨by norm_num, by norm_num, by decide!,
      (show hexText 8 (timeUs (5 / 2)) = [48, 48, 48, 48, 48, 57, 99, 52] by decide!) ▸
        (time_payload_is_microseconds sampleWorld.hub HEADER_EXPOSURE (5 / 2) ackPort
          (by norm_num) (by norm_num)).1⟩,
    by decide!, by decide!, by norm_num,
    (time_payload_is_microseconds sampleWorld.hub HEADER_EXPOSURE
      (4505851427184181 / 4503599627370496) ackPort (by norm_num) (by norm_num)).2.2.2.1⟩

/-- C15 as stated fails: for the duration 10 ms `SendTimeMs` sends the payload
`00002710`, the digits of 10000 (microseconds), not `0000000a`, the digits of
10 (milliseconds). For 5000000 ms the text of the microseconds has nine digits:
the width assertion fails and the eight characters sent, `12a05f20`, are not
the digits of the duration. -/
theorem time_payload_counterexample :
    (sampleWorld.hub.SendTimeMs HEADER_EXPOSURE 10 ackPort).2.written
        = [[0x01, HEADER_EXPOSURE] ++ hexText 8 10000 ++ [0x04]] ∧
      hexText 8 10000 ≠ hexText 8 10 ∧
      (sampleWorld.hub.SendTimeMs HEADER_EXPOSURE 5000000 ackPort).2.written
        = [[0x01, HEADER_EXPOSURE] ++ [49, 50, 97, 48, 53, 102, 50, 48] ++ [0x04]] ∧
      (sampleWorld.hub.SendTimeMs HEADER_EXPOSURE 5000000 ackPort).2.assertFailed = true ∧
      parseHex [49, 50, 97, 48, 53, 102, 50, 48] ≠ some 5000000000 := by
  decide!

/-! ## The digital table (C16) -/

theorem scanD_ok : ∀ toks : List (List Nat), (∀ tok ∈ toks, tokenInRange 1 tok) →
    scanD toks = Except.ok (toks.map fun tok => decide (stoi tok = some 1)) := by
  intro toks
  induction toks with
  | nil => intro _; rfl
  | cons t ts ih =>
    intro h
    obtain ⟨v, hv, h0, h1⟩ := (tokenInRange_iff 1 t).mp (h t (List.mem_cons_self _ _))
    have hrec := ih (fun tok ht => h tok (List.mem_cons_of_mem _ ht))
    have hnot : ¬ (v > 1 ∨ v < 0) := by omega
    simp only [scanD, hv, hnot, if_false, hrec, List.map_cons, Option.some.injEq]
    congr 2
    simp only [decide_eq_decide]
    omega

theorem scanD_error : ∀ toks : List (List Nat), (∃ tok ∈ toks, ¬ tokenInRange 1 tok) →
    scanD toks = Except.error ERR_INVALID_VALUE := by
  intro toks
  induction toks with
  | nil => rintro ⟨tok, ht, _⟩; simp at ht
  | cons t ts ih =>
    rintro ⟨tok, ht, hbad⟩
    simp only [scanD]
    cases hs : stoi t with
    | none => rfl
    | some v =>
      simp only
      split_ifs with hv
      · rfl
      · have hin : tokenInRange 1 t := by
          rw [tokenInRange_iff]
          exact ⟨v, hs, by omega, by omega⟩
        have hrest : ∃ tok ∈ ts, ¬ tokenInRange 1 tok := by
          rcases List.mem_cons.mp ht with rfl | h
          · exact absurd hin hbad
          · exact ⟨tok, h, hbad⟩
        rw [ih hrest]

/-- C16: for a table text written to the digital table of a channel `c` in
0..3 on a hub whose port is set. If every token converts to 0 or 1 and the
number of tokens is the sequence length `L`, the write sends the command `P`
with the digit of `c` followed by one character per token in order, `1` for a
token of value 1 and `0` for a token of value 0 (`L + 1` bytes), and when the
transport acknowledges it returns `DEVICE_OK` and the text is the cached
digital table. If some token does not convert or converts to a value other
than 0 and 1, the write returns `ERR_INVALID_VALUE` and leaves the whole state
as it was: nothing is sent, the cached table is unchanged. -/
theorem digital_table_write (w : World) (i : Nat) (m : AnalogMod) (text : List Nat)
    (hm : w.mods[i]? = some m) (hport : w.hub.portAvailable_ = true) (hc : m.channel_ ≤ 3) :
    ((∀ tok ∈ getlineTokens [] text, tokenInRange 1 tok) →
        ((getlineTokens [] text).length : Int) = w.hub.GetSequenceLength →
        (w.port.Accepts →
          (step w (Action.OnModulationD i text)).2.port.written = w.port.written ++
            [[0x01, HEADER_MODD] ++
              ((48 + m.channel_) ::
                (getlineTokens [] text).map fun tok => if stoi tok = some 1 then 49 else 48) ++
              [0x04]]) ∧
        (w.port.Delivers ASCII_ACK →
          (step w (Action.OnModulationD i text)).1 = Result.ret DEVICE_OK ∧
          (step w (Action.OnModulationD i text)).2.mods
            = w.mods.set i { m with modulationD_ := text })) ∧
      ((∃ tok ∈ getlineTokens [] text, ¬ tokenInRange 1 tok) →
        step w (Action.OnModulationD i text) = (Result.ret ERR_INVALID_VALUE, w)) := by
  have hd := fmtDec_digit m.channel_ (by omega)
  constructor
  · intro hall hlen
    have hs := scanD_ok _ hall
    have hpay : m.payloadD ((getlineTokens [] text).map fun tok => decide (stoi tok = some 1))
        = (48 + m.channel_) ::
          (getlineTokens [] text).map fun tok => if stoi tok = some 1 then 49 else 48 := by
      simp only [AnalogMod.payloadD, AnalogMod.channelText, hd, List.map_map,
        List.singleton_append, List.cons.injEq, true_and]
      apply List.map_congr_left
      intro tok _
      simp
    have hass : (w.port.assert (m.channelText.1 == 1)) = w.port := by
      simp [AnalogMod.channelText, hd, Port.assert]
    have hstep : step w (Action.OnModulationD i text)
        = w.onMod i (fun hub m p => AnalogMod.OnModulationD hub m text p) := rfl
    have hneq : ¬ (((List.map (fun tok => decide (stoi tok = some 1))
        (getlineTokens [] text)).length : Int) ≠ w.hub.GetSequenceLength) := by
      rw [List.length_map]; exact not_not.mpr hlen
    constructor
    · intro hacc
      have hw := SendCommand_written w.hub HEADER_MODD
        ((48 + m.channel_) ::
          (getlineTokens [] text).map fun tok => if stoi tok = some 1 then 49 else 48)
        w.port hport hacc
      rw [hstep]
      simp only [World.onMod, hm, AnalogMod.OnModulationD, hport, Bool.not_true,
        Bool.false_eq_true, if_false, hs, hneq, hpay, hass]
      split_ifs <;> exact hw
    · intro hdel
      have hcode := SendCommand_code w.hub HEADER_MODD
        ((48 + m.channel_) ::
          (getlineTokens [] text).map fun tok => if stoi tok = some 1 then 49 else 48)
        w.port ASCII_ACK hport hdel
      rw [if_pos rfl] at hcode
      rw [hstep]
      simp only [World.onMod, hm, AnalogMod.OnModulationD, hport, Bool.not_true,
        Bool.false_eq_true, if_false, hs, hneq, hpay, hass, hcode, ne_eq, not_true_eq_false]
      exact ⟨trivial, trivial⟩
  · intro hbad
    have hs := scanD_error _ hbad
    rw [show step w (Action.OnModulationD i text)
      = w.onMod i (fun hub m p => AnalogMod.OnModulationD hub m text p) from rfl]
    apply onMod_unchanged w i m _ _ hm
    simp only [AnalogMod.OnModulationD, hport, Bool.not_true, Bool.false_eq_true, if_false, hs]

theorem digital_table_write_witness :
    ((∀ tok ∈ getlineTokens [] sampleDigitalTable, tokenInRange 1 tok) ∧
        ((getlineTokens [] sampleDigitalTable).length : Int)
          = sampleWorld.hub.GetSequenceLength ∧
        sampleWorld.port.Delivers ASCII_ACK ∧
        (step sampleWorld (Action.OnModulationD 0 sampleDigitalTable)).2.port.written
          = sampleWorld.port.written ++
            [[0x01, HEADER_MODD] ++ [50, 48, 49, 48, 49, 48, 49, 48, 49, 48, 49] ++ [0x04]] ∧
        (step sampleWorld (Action.OnModulationD 0 sampleDigitalTable)).1
          = Result.ret DEVICE_OK ∧
        (step sampleWorld (Action.OnModulationD 0 sampleDigitalTable)).2.mods
          = sampleWorld.mods.set 0 (AnalogMod.mk 2 false 255 [] sampleDigitalTable)) ∧
      ((∃ tok ∈ getlineTokens [] [48, 45, 120], ¬ tokenInRange 1 tok) ∧
        step sampleWorld (Action.OnModulationD 0 [48, 45, 120])
          = (Result.ret ERR_INVALID_VALUE, sampleWorld)) :=
  have hlen : ((getlineTokens [] sampleDigitalTable).length : Int)
      = sampleWorld.hub.GetSequenceLength := by rw [sampleWorld_channel.2.2]; decide
  have hbad : ∃ tok ∈ getlineTokens [] [48, 45, 120], ¬ tokenInRange 1 tok :=
    ⟨[120], by decide, by decide⟩
  ⟨⟨by decide, hlen, sampleWorld_delivers,
      ((digital_table_write sampleWorld 0 (AnalogMod.mk 2 false 255 [] []) sampleDigitalTable
        sampleWorld_channel.1 sampleWorld_channel.2.1 (by decide)).1 (by decide) hlen).1
        sampleWorld_delivers.1,
      (((digital_table_write sampleWorld 0 (AnalogMod.mk 2 false 255 [] []) sampleDigitalTable
        sampleWorld_channel.1 sampleWorld_channel.2.1 (by decide)).1 (by decide) hlen).2
        sampleWorld_delivers).1,
      (((digital_table_write sampleWorld 0 (AnalogMod.mk 2 false 255 [] []) sampleDigitalTable
        sampleWorld_channel.1 sampleWorld_channel.2.1 (by decide)).1 (by decide) hlen).2
        sampleWorld_delivers).2⟩,
    hbad,
    (digital_table_write sampleWorld 0 (AnalogMod.mk 2 false 255 [] []) [48, 45, 120]
      sampleWorld_channel.1 sampleWorld_channel.2.1 (by decide)).2 hbad⟩

/-! ## The trigger selector (C17) -/

theorem step_trigger (w : World) (a : Action) (ha : a ≠ Action.TriggerInitialize) :
    ((step w a).2.trigger.position_ = w.trigger.position_ ∧
        (step w a).2.hub.selectTrigger_ = w.hub.selectTrigger_) ∨
      ∃ pos, a = Action.OnState pos ∧ (step w a).2.trigger.position_ = pos ∧
        (step w a).2.hub.selectTrigger_ = pos := by
  cases a with
  | TriggerInitialize => exact absurd rfl ha
  | OnState pos =>
    simp only [step, liftRet, TriggerSelect.OnState]
    split_ifs
    · left; exact ⟨rfl, rfl⟩
    · left; exact ⟨rfl, rfl⟩
    · right; exact ⟨pos, rfl, rfl, rfl⟩
  | OnNSteps n =>
    left
    simp only [step, liftRet, ControlHub.OnNSteps]
    split_ifs <;> first | exact ⟨rfl, rfl⟩ | (simp only [ControlHub.UpdateDeltaT]; split_ifs <;> exact ⟨rfl, rfl⟩)
  | OnNFrames n =>
    left; simp only [step, liftRet, ControlHub.OnNFrames]; split_ifs <;> exact ⟨rfl, rfl⟩
  | OnExposure v =>
    left
    simp only [step, liftRet, ControlHub.OnExposure]
    split_ifs <;> first | exact ⟨rfl, rfl⟩ | (simp only [ControlHub.UpdateDeltaT]; split_ifs <;> exact ⟨rfl, rfl⟩)
  | OnFrameT v =>
    left
    simp only [step, liftRet, ControlHub.OnFrameT, ControlHub.UpdateDeltaT]
    split_ifs <;> exact ⟨rfl, rfl⟩
  | OnLoopFrame v =>
    left
    simp only [step, liftRet, ControlHub.OnLoopFrame]
    split_ifs <;> first | exact ⟨rfl, rfl⟩ | (simp only [ControlHub.UpdateDeltaT]; split_ifs <;> exact ⟨rfl, rfl⟩)
  | OnPort => left; exact ⟨rfl, rfl⟩
  | HubInitialize =>
    left; simp only [step, liftRet, ControlHub.Initialize]; split_ifs <;> exact ⟨rfl, rfl⟩
  | HubShutdown => left; exact ⟨rfl, rfl⟩
  | OnWaitBefore v =>
    left; simp only [step, liftRet, ControlHub.OnWaitBefore]; split_ifs <;> exact ⟨rfl, rfl⟩
  | OnWaitAfter v =>
    left; simp only [step, liftRet, ControlHub.OnWaitAfter]; split_ifs <;> exact ⟨rfl, rfl⟩
  | OnDigMod v =>
    left; simp only [step, liftRet, ControlHub.OnDigMod]; split_ifs <;> exact ⟨rfl, rfl⟩
  | OnAnaMod v =>
    left; simp only [step, liftRet, ControlHub.OnAnaMod]; split_ifs <;> exact ⟨rfl, rfl⟩
  | OnAcquire v =>
    left; simp only [step, liftRet, ControlHub.OnAcquire]; split_ifs <;> exact ⟨rfl, rfl⟩
  | OnEnable v =>
    left; simp only [step, liftRet, EnableShutter.OnEnable]; split_ifs <;> exact ⟨rfl, rfl⟩
  | ModInitialize i =>
    left; simp only [step, AnalogMod.Initialize]
    split
    · exact ⟨rfl, rfl⟩
    · split_ifs <;> exact ⟨rfl, rfl⟩
  | OnAmplitude i v =>
    left; simp only [step, World.onMod]; split <;> exact ⟨rfl, rfl⟩
  | OnGate i v =>
    left; simp only [step, World.onMod]; split <;> exact ⟨rfl, rfl⟩
  | OnModulationA i v =>
    left; simp only [step, World.onMod]; split <;> exact ⟨rfl, rfl⟩
  | OnModulationD i v =>
    left; simp only [step, World.onMod]; split <;> exact ⟨rfl, rfl⟩
  | elapse dt => left; exact ⟨rfl, rfl⟩

theorem trigger_mirror (w : World) (hw : AfterTriggerInitialize w) :
    w.trigger.position_ = w.hub.selectTrigger_ := by
  induction hw with
  | @init w hpos hok =>
    simp only [TriggerSelect.Initialize] at hok ⊢
    split_ifs at hok ⊢ with h1
    · simp [ERR_NO_PORT_SET, DEVICE_OK] at hok
    · exact hpos
  | step a _ ha ih =>
    rcases step_trigger _ a ha with ⟨h1, h2⟩ | ⟨pos, _, h1, h2⟩
    · rw [h1, h2]; exact ih
    · rw [h1, h2]

theorem afterTriggerInitialize_run (as : List Action) :
    ∀ {w : World}, AfterTriggerInitialize w → (∀ a ∈ as, a ≠ Action.TriggerInitialize) →
      AfterTriggerInitialize (run w as) := by
  induction as with
  | nil => intro w hw _; exact hw
  | cons a as ih =>
    intro w hw h
    exact ih (AfterTriggerInitialize.step a hw (h a (List.mem_cons_self _ _)))
      (fun b hb => h b (List.mem_cons_of_mem _ hb))

theorem sampleWorld_afterTriggerInitialize : AfterTriggerInitialize sampleWorld := by
  have h0 : AfterTriggerInitialize
      (TriggerSelect.Initialize (step (World.new [2, 0, 1, 3] ackPort) Action.OnPort).2).2 :=
    AfterTriggerInitialize.init (by decide!) (by decide!)
  exact afterTriggerInitialize_run
    [Action.ModInitialize 0, Action.OnNSteps 5, Action.OnNFrames 2, Action.OnAmplitude 0 255]
    h0 (by decide)

/-- C17: for every position `p` in 0..4, a write to the trigger selector on a
hub whose port is set sends the command `S` with the two hexadecimal digits of
`p`; when the transport acknowledges, the write returns `DEVICE_OK` and both
the selector's `position_` and the hub's `selectTrigger_` are `p`; when the
write does not return `DEVICE_OK`, both keep their values. Hence in every state
after `TriggerSelect::Initialize` the selector's `position_` equals the hub's
`selectTrigger_`, the value the acquire check reads. -/
theorem trigger_selector_mirrors_hub (w : World) (p : Int) (hp : 0 ≤ p ∧ p ≤ 4) :
    (w.hub.portAvailable_ = true → w.port.Accepts →
        (step w (Action.OnState p)).2.port.written = w.port.written ++
          [[0x01, HEADER_TRIGGER] ++ hexText 2 p.toNat ++ [0x04]]) ∧
      (w.hub.portAvailable_ = true → w.port.Delivers ASCII_ACK →
        (step w (Action.OnState p)).1 = Result.ret DEVICE_OK ∧
        (step w (Action.OnState p)).2.trigger.position_ = p ∧
        (step w (Action.OnState p)).2.hub.selectTrigger_ = p) ∧
      ((step w (Action.OnState p)).1 ≠ Result.ret DEVICE_OK →
        (step w (Action.OnState p)).2.trigger.position_ = w.trigger.position_ ∧
        (step w (Action.OnState p)).2.hub.selectTrigger_ = w.hub.selectTrigger_) ∧
      (AfterTriggerInitialize w →
        w.trigger.position_ = w.hub.selectTrigger_ ∧
        (step w (Action.OnState p)).2.trigger.position_
          = (step w (Action.OnState p)).2.hub.selectTrigger_) := by
  have hb : toByte p = p.toNat := by
    unfold toByte
    rw [Int.emod_eq_of_lt hp.1 (by omega)]
  have hlt : p.toNat < 16 ^ 2 := by
    have : p.toNat ≤ 4 := by omega
    norm_num; omega
  have e2 := snprintf_hex 2 p.toNat (by norm_num) hlt
  have hass : w.port.assert ((snprintf 3 (fmtHex 2 (toByte p))).1 == 2) = w.port := by
    rw [hb, e2]; simp [Port.assert]
  refine ⟨fun hport hacc => ?_, fun hport hd => ?_, fun herr => ?_, fun hw => ?_⟩
  · have hw := SendCommand_written w.hub HEADER_TRIGGER (hexText 2 p.toNat) w.port hport hacc
    simp only [step, liftRet, TriggerSelect.OnState, hport, Bool.not_true, Bool.false_eq_true,
      if_false, ControlHub.SendCommand_byte, hass]
    rw [hb, e2]
    split_ifs <;> exact hw
  · have hcode := SendCommand_code w.hub HEADER_TRIGGER (hexText 2 p.toNat) w.port ASCII_ACK
      hport hd
    rw [if_pos rfl] at hcode
    simp only [step, liftRet, TriggerSelect.OnState, hport, Bool.not_true, Bool.false_eq_true,
      if_false, ControlHub.SendCommand_byte, hass]
    rw [hb, e2]
    simp only [hcode, ne_eq, not_true_eq_false, if_false]
    exact ⟨trivial, trivial, trivial⟩
  · simp only [step, liftRet, TriggerSelect.OnState] at herr ⊢
    split_ifs at herr ⊢
    · exact ⟨rfl, rfl⟩
    · exact ⟨rfl, rfl⟩
    · exact absurd rfl herr
  · exact ⟨trigger_mirror w hw,
      trigger_mirror _ (AfterTriggerInitialize.step _ hw (by simp))⟩

theorem trigger_selector_mirrors_hub_witness :
    ((0 : Int) ≤ 2 ∧ (2 : Int) ≤ 4) ∧ sampleWorld.hub.portAvailable_ = true ∧
      sampleWorld.port.Delivers ASCII_ACK ∧ AfterTriggerInitialize sampleWorld ∧
      (step sampleWorld (Action.OnState 2)).2.port.written = sampleWorld.port.written ++
          [[0x01, HEADER_TRIGGER] ++ [48, 50] ++ [0x04]] ∧
      ((step sampleWorld (Action.OnState 2)).1 = Result.ret DEVICE_OK ∧
        (step sampleWorld (Action.OnState 2)).2.trigger.position_ = 2 ∧
        (step sampleWorld (Action.OnState 2)).2.hub.selectTrigger_ = 2) ∧
      sampleWorld.trigger.position_ = sampleWorld.hub.selectTrigger_ :=
  ⟨by decide, sampleWorld_channel.2.1, sampleWorld_delivers,
    sampleWorld_afterTriggerInitialize,
    (trigger_selector_mirrors_hub sampleWorld 2 (by decide)).1 sampleWorld_channel.2.1
      sampleWorld_delivers.1,
    (trigger_selector_mirrors_hub sampleWorld 2 (by decide)).2.1 sampleWorld_channel.2.1
      sampleWorld_delivers,
    ((trigger_selector_mirrors_hub sampleWorld 2 (by decide)).2.2.2
      sampleWorld_afterTriggerInitialize).1⟩

/-! ## The firmware identity and the version query (C18) -/

theorem GetSerialAnswer_script (q : Port) (answer : List Nat) :
    (q.GetSerialAnswer answer).2.2.answerScript = q.answerScript.tail ∧
      (q.GetSerialAnswer answer).2.2.purgeScript = q.purgeScript ∧
      (q.GetSerialAnswer answer).2.2.writeScript = q.writeScript ∧
      (q.GetSerialAnswer answer).2.2.readScript = q.readScript := by
  unfold Port.GetSerialAnswer
  rcases q.answerScript with _ | ⟨⟨r, l⟩, rs⟩ <;> simp

/-- An acknowledged query that is answered with the line `s`. -/
theorem AskAnswer_answered (hub : ControlHub) (h : Nat) (answer : List Nat) (p : Port)
    (s : List Nat) (rest : List (Int × List Nat)) (hport : hub.portAvailable_ = true)
    (hd : p.Delivers ASCII_ACK) (hs : p.answerScript = (DEVICE_OK, s) :: rest) :
    (hub.AskAnswer h answer p).1 = DEVICE_OK ∧ (hub.AskAnswer h answer p).2.1 = s ∧
      (hub.AskAnswer h answer p).2.2.written = p.written ++ [[ASCII_START, h, ASCII_END]] ∧
      (hub.AskAnswer h answer p).2.2.answerScript = rest := by
  obtain ⟨q, hw, hsc, _, _, heq⟩ := AskAnswer_spec hub h answer p ASCII_ACK hport hd
  rw [heq, if_pos rfl]
  have g := GetSerialAnswer_fields q answer
  have g2 := GetSerialAnswer_script q answer
  obtain ⟨g3, g4⟩ := g.2.2.2 s rest (by rw [hsc, hs])
  refine ⟨g3, g4, by rw [g.2.1, hw], ?_⟩
  rw [g2.1, hsc, hs]
  rfl

/-- An extraction that `std::stoi` would accept stores the same value, whatever
the variable held before. -/
theorem extractInt_of_stoi (version : Int) (t : List Nat) (v : Int) (h : stoi t = some v) :
    extractInt version t = v := by
  unfold stoi at h
  unfold extractInt
  simp only at h ⊢
  have hne : t.dropWhile isSpace ≠ [] := by
    intro he
    rw [he] at h
    simp [splitSign] at h
  rw [if_neg hne]
  generalize splitSign (t.dropWhile isSpace) = s2 at h ⊢
  by_cases hds : s2.2.takeWhile isDigit = []
  · simp [hds] at h
  · simp only [hds, if_false] at h ⊢
    generalize (if s2.1 = true then - decValue (s2.2.takeWhile isDigit)
      else decValue (s2.2.takeWhile isDigit)) = val at h ⊢
    split_ifs at h with hr
    have hv := Option.some.inj h
    subst hv
    rw [if_neg (by omega), if_neg (by omega)]

/-- The version query on a port whose firmware answer is `s`. -/
theorem GetControllerVersion_spec (hub : ControlHub) (version : Int) (p : Port)
    (s : List Nat) (rest : List (Int × List Nat)) (hport : hub.portAvailable_ = true)
    (hd : p.Delivers ASCII_ACK) (hs : p.answerScript = (DEVICE_OK, s) :: rest) :
    (s ≠ FIRMWARE_ID →
        hub.GetControllerVersion version p
          = (ERR_BOARD_NOT_FOUND, version, (hub.AskAnswer HEADER_FIRMWARE [] p).2.2)) ∧
      (s = FIRMWARE_ID → ∀ t rest2, rest = (DEVICE_OK, t) :: rest2 →
        (hub.AskAnswer HEADER_FIRMWARE [] p).2.2.Delivers ASCII_ACK →
        (hub.GetControllerVersion version p).1 = DEVICE_OK ∧
          (hub.GetControllerVersion version p).2.1 = extractInt version t ∧
          (hub.GetControllerVersion version p).2.2.written = p.written ++
            [[ASCII_START, HEADER_FIRMWARE, ASCII_END],
              [ASCII_START, HEADER_VERSION, ASCII_END]]) := by
  obtain ⟨a1, a2, a3, a4⟩ := AskAnswer_answered hub HEADER_FIRMWARE [] p s rest hport hd hs
  constructor
  · intro hne
    simp only [ControlHub.GetControllerVersion, a1, a2, ne_eq, not_true_eq_false, if_false,
      hne, not_false_eq_true, if_true]
  · intro he t rest2 hr hd2
    subst he
    obtain ⟨b1, b2, b3, _⟩ := AskAnswer_answered hub HEADER_VERSION FIRMWARE_ID
      (hub.AskAnswer HEADER_FIRMWARE [] p).2.2 t rest2 hport hd2 (by rw [a4, hr])
    simp only [ControlHub.GetControllerVersion, a1, a2, ne_eq, not_true_eq_false, if_false,
      b1, b2, b3, a3]
    simp

/-- The version query without a port. -/
theorem GetControllerVersion_no_port (hub : ControlHub) (version : Int) (p : Port)
    (hport : hub.portAvailable_ = false) :
    (hub.GetControllerVersion version p).1 = ERR_NO_PORT_SET := by
  simp [ControlHub.GetControllerVersion, ControlHub.AskAnswer, hport, ERR_NO_PORT_SET,
    DEVICE_OK]

theorem versionPort_delivers : versionPort.Delivers ASCII_ACK :=
  ⟨⟨by decide, by decide⟩, [], 1000, List.replicate 3 ackEvent, by decide, by decide,
    by decide⟩

theorem versionPort_delivers_again :
    ((connectedWorld versionPort).hub.AskAnswer HEADER_FIRMWARE [] versionPort).2.2.Delivers
      ASCII_ACK :=
  ⟨⟨by decide, by decide⟩, [], 1000, List.replicate 2 ackEvent, by decide, by decide,
    by decide⟩

/-- On an empty or white-space-only text the extraction leaves the variable as
it was. -/
theorem extractInt_blank (version : Int) (t : List Nat) (h : t.dropWhile isSpace = []) :
    extractInt version t = version := by
  unfold extractInt
  rw [if_pos h]

/-- C18: on an acknowledged firmware query answered with the line `s`: if `s` is
not `MM-AC`, `GetControllerVersion` returns `ERR_BOARD_NOT_FOUND`, leaves the
version untouched and has written the firmware frame only (no version query);
if `s` is `MM-AC` and the version query is acknowledged and answered with `t`,
both frames are written and the call returns `DEVICE_OK` with the version
after the extraction from `t`: the value `std::stoi` reads where that accepts
`t`, and the value the caller passed in when `t` is empty or white space
only. -/
theorem firmware_identity_gate (hub : ControlHub) (version : Int) (p : Port)
    (s : List Nat) (rest : List (Int × List Nat)) (hport : hub.portAvailable_ = true)
    (hd : p.Delivers ASCII_ACK) (hs : p.answerScript = (DEVICE_OK, s) :: rest) :
    (s ≠ FIRMWARE_ID →
        (hub.GetControllerVersion version p).1 = ERR_BOARD_NOT_FOUND ∧
        (hub.GetControllerVersion version p).2.1 = version ∧
        (hub.GetControllerVersion version p).2.2.written
          = p.written ++ [[0x01, HEADER_FIRMWARE, 0x04]]) ∧
      (s = FIRMWARE_ID → ∀ t rest2, rest = (DEVICE_OK, t) :: rest2 →
        (hub.AskAnswer HEADER_FIRMWARE [] p).2.2.Delivers ASCII_ACK →
        (hub.GetControllerVersion version p).1 = DEVICE_OK ∧
          (hub.GetControllerVersion version p).2.1 = extractInt version t ∧
          (∀ v, stoi t = some v → (hub.GetControllerVersion version p).2.1 = v) ∧
          (t.dropWhile isSpace = [] → (hub.GetControllerVersion version p).2.1 = version) ∧
          (hub.GetControllerVersion version p).2.2.written = p.written ++
            [[0x01, HEADER_FIRMWARE, 0x04], [0x01, HEADER_VERSION, 0x04]]) := by
  obtain ⟨g1, g2⟩ := GetControllerVersion_spec hub version p s rest hport hd hs
  constructor
  · intro hne
    rw [g1 hne]
    exact ⟨rfl, rfl, (AskAnswer_answered hub HEADER_FIRMWARE [] p s rest hport hd hs).2.2.1⟩
  · intro he t rest2 hr hd2
    obtain ⟨c1, c2, c3⟩ := g2 he t rest2 hr hd2
    exact ⟨c1, c2, fun v hv => by rw [c2]; exact extractInt_of_stoi version t v hv,
      fun hb => by rw [c2]; exact extractInt_blank version t hb, c3⟩

theorem otherBoardPort_delivers : otherBoardPort.Delivers ASCII_ACK :=
  ⟨⟨by decide, by decide⟩, [], 1000, List.replicate 3 ackEvent, by decide, by decide,
    by decide⟩

theorem firmware_identity_gate_witness :
    ((connectedWorld versionPort).hub.portAvailable_ = true ∧
        versionPort.Delivers ASCII_ACK ∧
        versionPort.answerScript = (DEVICE_OK, FIRMWARE_ID) :: [(DEVICE_OK, [50])] ∧
        ((connectedWorld versionPort).hub.AskAnswer HEADER_FIRMWARE []
          versionPort).2.2.Delivers ASCII_ACK ∧
        ((connectedWorld versionPort).hub.GetControllerVersion 0 versionPort).1 = DEVICE_OK ∧
        ((connectedWorld versionPort).hub.GetControllerVersion 0 versionPort).2.1 = 2) ∧
      (otherBoardPort.Delivers ASCII_ACK ∧
        otherBoardPort.answerScript = (DEVICE_OK, [77, 77, 45, 65, 68]) :: [] ∧
        ((connectedWorld versionPort).hub.GetControllerVersion 0 otherBoardPort).1
          = ERR_BOARD_NOT_FOUND ∧
        ((connectedWorld versionPort).hub.GetControllerVersion 0 otherBoardPort).2.2.written
          = [[0x01, HEADER_FIRMWARE, 0x04]]) :=
  ⟨⟨by decide, versionPort_delivers, by decide, versionPort_delivers_again,
      ((firmware_identity_gate (connectedWorld versionPort).hub 0 versionPort FIRMWARE_ID
        [(DEVICE_OK, [50])] (by decide) versionPort_delivers (by decide)).2 rfl [50] [] rfl
          versionPort_delivers_again).1,
      ((firmware_identity_gate (connectedWorld versionPort).hub 0 versionPort FIRMWARE_ID
        [(DEVICE_OK, [50])] (by decide) versionPort_delivers (by decide)).2 rfl [50] [] rfl
          versionPort_delivers_again).2.2.1 2 (by decide)⟩,
    otherBoardPort_delivers, by decide,
    ((firmware_identity_gate (connectedWorld versionPort).hub 0 otherBoardPort
      [77, 77, 45, 65, 68] [] (by decide) otherBoardPort_delivers (by decide)).1
        (by decide)).1,
    ((firmware_identity_gate (connectedWorld versionPort).hub 0 otherBoardPort
      [77, 77, 45, 65, 68] [] (by decide) otherBoardPort_delivers (by decide)).1
        (by decide)).2.2⟩

/-! ## The version check of `Initialize` (C19) -/

/-- What `Initialize` does once the version query has returned `v`. -/
theorem Initialize_of_version (w : World) (v : Int) (q : Port)
    (hv : w.hub.GetControllerVersion w.hub.version_ w.port = (DEVICE_OK, v, q)) :
    (v < 1 ∨ v > 2 → ControlHub.Initialize w
        = (ERR_VERSION_MISMATCH, { w with port := q, hub := { w.hub with version_ := v } })) ∧
      (¬ (v < 1 ∨ v > 2) → ControlHub.Initialize w
        = (DEVICE_OK,
            { w with
              port := (w.hub.SendCommand HEADER_RESET [] q).2
              hub := { w.hub with version_ := v, initialized_ := true } })) := by
  constructor
  · intro h
    simp only [ControlHub.Initialize, hv, ne_eq, not_true_eq_false, if_false,
      g_Min_MMVersion, g_Max_MMVersion, h, if_true]
  · intro h
    simp only [ControlHub.Initialize, hv, ne_eq, not_true_eq_false, if_false,
      g_Min_MMVersion, g_Max_MMVersion, h, ControlHub.SendCommand_header]
    rfl

/-- The version query of a controller that reports `MM-AC` and the text `t`. -/
theorem version_of_controller (w : World) (t : List Nat) (rest : List (Int × List Nat))
    (hport : w.hub.portAvailable_ = true) (hd : w.port.Delivers ASCII_ACK)
    (hs : w.port.answerScript = (DEVICE_OK, FIRMWARE_ID) :: (DEVICE_OK, t) :: rest)
    (hd2 : (w.hub.AskAnswer HEADER_FIRMWARE [] w.port).2.2.Delivers ASCII_ACK) :
    w.hub.GetControllerVersion w.hub.version_ w.port
        = (DEVICE_OK, extractInt w.hub.version_ t,
            (w.hub.GetControllerVersion w.hub.version_ w.port).2.2) ∧
      (w.hub.GetControllerVersion w.hub.version_ w.port).2.2.written = w.port.written ++
        [[ASCII_START, HEADER_FIRMWARE, ASCII_END], [ASCII_START, HEADER_VERSION, ASCII_END]] := by
  obtain ⟨c1, c2, c3⟩ := (GetControllerVersion_spec w.hub w.hub.version_ w.port FIRMWARE_ID
    ((DEVICE_OK, t) :: rest) hport hd hs).2 rfl t rest rfl hd2
  exact ⟨Prod.ext c1 (Prod.ext c2 rfl), c3⟩

theorem versionPort_accepts_reset :
    ((connectedWorld versionPort).hub.GetControllerVersion
      (connectedWorld versionPort).hub.version_ (connectedWorld versionPort).port).2.2.Accepts :=
  ⟨by decide, by decide⟩

/-- C19: for a controller that answers the firmware query with `MM-AC` and the
version query with a text that converts to the integer `v` (a decimal text of
`v`, as `std::stoi` reads it), every exchange acknowledged:
`Initialize` returns `ERR_VERSION_MISMATCH` exactly when `v < 1` or `v > 2`,
and then only the two query frames are on the line (no reset) and the hub is
not marked initialised; for `v = 1` or `v = 2` it returns `DEVICE_OK`, marks
the hub initialised with version `v`, and the third frame written is the
reset frame `[0x01, 'R', 0x04]`. -/
theorem initialize_checks_version (w : World) (t : List Nat) (rest : List (Int × List Nat))
    (v : Int) (hport : w.hub.portAvailable_ = true) (hd : w.port.Delivers ASCII_ACK)
    (hs : w.port.answerScript = (DEVICE_OK, FIRMWARE_ID) :: (DEVICE_OK, t) :: rest)
    (hd2 : (w.hub.AskAnswer HEADER_FIRMWARE [] w.port).2.2.Delivers ASCII_ACK)
    (ht : stoi t = some v) :
    ((ControlHub.Initialize w).1 = ERR_VERSION_MISMATCH ↔ v < 1 ∨ v > 2) ∧
      (v < 1 ∨ v > 2 →
        (ControlHub.Initialize w).2.port.written = w.port.written ++
          [[0x01, 70, 0x04], [0x01, 86, 0x04]] ∧
        (ControlHub.Initialize w).2.hub.initialized_ = w.hub.initialized_) ∧
      (v = 1 ∨ v = 2 →
        (ControlHub.Initialize w).1 = DEVICE_OK ∧
        (ControlHub.Initialize w).2.hub.initialized_ = true ∧
        (ControlHub.Initialize w).2.hub.version_ = v ∧
        ((w.hub.GetControllerVersion w.hub.version_ w.port).2.2.Accepts →
          (ControlHub.Initialize w).2.port.written = w.port.written ++
            [[0x01, 70, 0x04], [0x01, 86, 0x04], [0x01, 82, 0x04]])) := by
  obtain ⟨e1, e2⟩ := version_of_controller w t rest hport hd hs hd2
  rw [extractInt_of_stoi w.hub.version_ t v ht] at e1
  obtain ⟨i1, i2⟩ := Initialize_of_version w v _ e1
  refine ⟨?_, ?_, ?_⟩
  · constructor
    · intro h
      by_contra hn
      rw [i2 hn] at h
      have h2 : DEVICE_OK = ERR_VERSION_MISMATCH := h
      exact absurd h2 (by decide)
    · intro h
      rw [i1 h]
  · intro h
    rw [i1 h]
    exact ⟨e2, rfl⟩
  · intro h
    have hn : ¬ (v < 1 ∨ v > 2) := by omega
    rw [i2 hn]
    refine ⟨rfl, rfl, rfl, fun hacc => ?_⟩
    show (w.hub.SendCommand HEADER_RESET [] _).2.written = _
    rw [SendCommand_written w.hub HEADER_RESET [] _ hport hacc, e2]
    simp [ASCII_START, ASCII_END, HEADER_FIRMWARE, HEADER_VERSION, HEADER_RESET]

theorem initialize_checks_version_witness :
    ((connectedWorld versionPort).hub.portAvailable_ = true ∧
        (connectedWorld versionPort).port.Delivers ASCII_ACK ∧
        (connectedWorld versionPort).port.answerScript
          = (DEVICE_OK, FIRMWARE_ID) :: (DEVICE_OK, [50]) :: [] ∧
        ((connectedWorld versionPort).hub.AskAnswer HEADER_FIRMWARE []
          (connectedWorld versionPort).port).2.2.Delivers ASCII_ACK ∧
        stoi [50] = some 2) ∧
      (ControlHub.Initialize (connectedWorld versionPort)).1 = DEVICE_OK ∧
      (ControlHub.Initialize (connectedWorld versionPort)).2.hub.initialized_ = true ∧
      (ControlHub.Initialize (connectedWorld versionPort)).2.port.written
        = [[0x01, 70, 0x04], [0x01, 86, 0x04], [0x01, 82, 0x04]] :=
  ⟨⟨by decide, versionPort_delivers, by decide, versionPort_delivers_again, by decide⟩,
    ((initialize_checks_version (connectedWorld versionPort) [50] [] 2 (by decide)
      versionPort_delivers (by decide) versionPort_delivers_again (by decide)).2.2
        (Or.inr rfl)).1,
    ((initialize_checks_version (connectedWorld versionPort) [50] [] 2 (by decide)
      versionPort_delivers (by decide) versionPort_delivers_again (by decide)).2.2
        (Or.inr rfl)).2.1,
    ((initialize_checks_version (connectedWorld versionPort) [50] [] 2 (by decide)
      versionPort_delivers (by decide) versionPort_delivers_again (by decide)).2.2
        (Or.inr rfl)).2.2.2 versionPort_accepts_reset⟩

/-! ## A version answer that is not a number (C20) -/

/-- Without a leading decimal integer `std::stoi` throws, and the extraction
stores zero unless the text is empty or white space only. -/
theorem extractInt_not_numeric (version : Int) (t : List Nat) (hn : ¬ beginsWithInteger t) :
    stoi t = none ∧ (t.dropWhile isSpace ≠ [] → extractInt version t = 0) := by
  have h : (splitSign (t.dropWhile isSpace)).2.takeWhile isDigit = [] := by
    unfold beginsWithInteger at hn
    exact not_not.mp hn
  constructor
  · unfold stoi
    simp only [h, if_true]
  · intro hne
    unfold extractInt
    simp only [hne, h, if_true, if_false]

theorem garbledVersionPort_delivers : garbledVersionPort.Delivers ASCII_ACK :=
  ⟨⟨by decide, by decide⟩, [], 1000, List.replicate 3 ackEvent, by decide, by decide,
    by decide⟩

theorem garbledVersionPort_delivers_again :
    ((connectedWorld garbledVersionPort).hub.AskAnswer HEADER_FIRMWARE []
      (connectedWorld garbledVersionPort).port).2.2.Delivers ASCII_ACK :=
  ⟨⟨by decide, by decide⟩, [], 1000, List.replicate 2 ackEvent, by decide, by decide,
    by decide⟩

theorem blankVersionPort_delivers : blankVersionPort.Delivers ASCII_ACK :=
  ⟨⟨by decide, by decide⟩, [], 1000, List.replicate 3 ackEvent, by decide, by decide,
    by decide⟩

theorem blankVersionPort_delivers_again :
    ((connectedWorld blankVersionPort).hub.AskAnswer HEADER_FIRMWARE []
      (connectedWorld blankVersionPort).port).2.2.Delivers ASCII_ACK :=
  ⟨⟨by decide, by decide⟩, [], 1000, List.replicate 2 ackEvent, by decide, by decide,
    by decide⟩

/-- C20 as stated fails: the version answer `abc` does not begin with a decimal
integer, and `GetControllerVersion` returns `DEVICE_OK` (0) with the version
number 0 in place of the 7 held before the call; for the empty answer it
returns `DEVICE_OK` with the 7 held before the call. -/
theorem version_parse_counterexample :
    ¬ beginsWithInteger [97, 98, 99] ∧
      ((connectedWorld garbledVersionPort).hub.GetControllerVersion 7 garbledVersionPort).1
        = DEVICE_OK ∧
      ((connectedWorld garbledVersionPort).hub.GetControllerVersion 7 garbledVersionPort).2.1
        = 0 ∧
      ¬ beginsWithInteger [] ∧
      ((connectedWorld blankVersionPort).hub.GetControllerVersion 7 blankVersionPort).1
        = DEVICE_OK ∧
      ((connectedWorld blankVersionPort).hub.GetControllerVersion 7 blankVersionPort).2.1
        = 7 := by
  decide

/-- C20, amended: for a controller that answers the firmware query with `MM-AC`
and the version query with a text that does not begin with a decimal integer
(a text `std::stoi` rejects), every exchange acknowledged: `GetControllerVersion`
returns `DEVICE_OK`; the failure of the extraction is not looked at. When the
text has a character other than white space the version is 0, and `Initialize`
stores 0, returns `ERR_VERSION_MISMATCH` and does not mark the hub initialised.
When the text is empty or white space only the version keeps the value it had:
`Initialize` keeps `version_` and returns `ERR_VERSION_MISMATCH` exactly when
that value is below 1 or above 2, as the -1 of the constructor is. -/
theorem non_numeric_version_not_rejected (w : World) (t : List Nat)
    (rest : List (Int × List Nat)) (hport : w.hub.portAvailable_ = true)
    (hd : w.port.Delivers ASCII_ACK)
    (hs : w.port.answerScript = (DEVICE_OK, FIRMWARE_ID) :: (DEVICE_OK, t) :: rest)
    (hd2 : (w.hub.AskAnswer HEADER_FIRMWARE [] w.port).2.2.Delivers ASCII_ACK)
    (hn : ¬ beginsWithInteger t) :
    stoi t = none ∧
      (w.hub.GetControllerVersion w.hub.version_ w.port).1 = DEVICE_OK ∧
      (t.dropWhile isSpace ≠ [] →
        (w.hub.GetControllerVersion w.hub.version_ w.port).2.1 = 0 ∧
        (ControlHub.Initialize w).1 = ERR_VERSION_MISMATCH ∧
        (ControlHub.Initialize w).2.hub.version_ = 0 ∧
        (ControlHub.Initialize w).2.hub.initialized_ = w.hub.initialized_) ∧
      (t.dropWhile isSpace = [] →
        (w.hub.GetControllerVersion w.hub.version_ w.port).2.1 = w.hub.version_ ∧
        (ControlHub.Initialize w).2.hub.version_ = w.hub.version_ ∧
        ((ControlHub.Initialize w).1 = ERR_VERSION_MISMATCH ↔
          w.hub.version_ < 1 ∨ w.hub.version_ > 2)) := by
  obtain ⟨z2, z1⟩ := extractInt_not_numeric w.hub.version_ t hn
  obtain ⟨e1, _⟩ := version_of_controller w t rest hport hd hs hd2
  refine ⟨z2, by rw [e1], fun hne => ?_, fun hb => ?_⟩
  · rw [z1 hne] at e1
    have i1 := (Initialize_of_version w 0 _ e1).1 (Or.inl (by decide))
    refine ⟨by rw [e1], ?_, ?_, ?_⟩
    · rw [i1]
    · rw [i1]
    · rw [i1]
  · rw [extractInt_blank w.hub.version_ t hb] at e1
    obtain ⟨i1, i2⟩ := Initialize_of_version w w.hub.version_ _ e1
    refine ⟨by rw [e1], ?_, ?_⟩
    · by_cases hv : w.hub.version_ < 1 ∨ w.hub.version_ > 2
      · rw [i1 hv]
      · rw [i2 hv]
    · constructor
      · intro h
        by_contra hv
        rw [i2 hv] at h
        have h2 : DEVICE_OK = ERR_VERSION_MISMATCH := h
        exact absurd h2 (by decide)
      · intro hv
        rw [i1 hv]

theorem non_numeric_version_not_rejected_witness :
    ((connectedWorld garbledVersionPort).hub.portAvailable_ = true ∧
        (connectedWorld garbledVersionPort).port.Delivers ASCII_ACK ∧
        (connectedWorld garbledVersionPort).port.answerScript
          = (DEVICE_OK, FIRMWARE_ID) :: (DEVICE_OK, [97, 98, 99]) :: [] ∧
        ((connectedWorld garbledVersionPort).hub.AskAnswer HEADER_FIRMWARE []
          (connectedWorld garbledVersionPort).port).2.2.Delivers ASCII_ACK ∧
        ¬ beginsWithInteger [97, 98, 99] ∧
        ([97, 98, 99] : List Nat).dropWhile isSpace ≠ []) ∧
      ((connectedWorld garbledVersionPort).hub.GetControllerVersion
        (connectedWorld garbledVersionPort).hub.version_
        (connectedWorld garbledVersionPort).port).1 = DEVICE_OK ∧
      (ControlHub.Initialize (connectedWorld garbledVersionPort)).1 = ERR_VERSION_MISMATCH ∧
      ((connectedWorld blankVersionPort).port.Delivers ASCII_ACK ∧
        (connectedWorld blankVersionPort).port.answerScript
          = (DEVICE_OK, FIRMWARE_ID) :: (DEVICE_OK, []) :: [] ∧
        ¬ beginsWithInteger [] ∧ ([] : List Nat).dropWhile isSpace = []) ∧
      (ControlHub.Initialize (connectedWorld blankVersionPort)).2.hub.version_
        = (connectedWorld blankVersionPort).hub.version_ :=
  ⟨⟨by decide, garbledVersionPort_delivers, by decide, garbledVersionPort_delivers_again,
      by decide, by decide⟩,
    (non_numeric_version_not_rejected (connectedWorld garbledVersionPort) [97, 98, 99] []
      (by decide) garbledVersionPort_delivers (by decide) garbledVersionPort_delivers_again
      (by decide)).2.1,
    ((non_numeric_version_not_rejected (connectedWorld garbledVersionPort) [97, 98, 99] []
      (by decide) garbledVersionPort_delivers (by decide) garbledVersionPort_delivers_again
      (by decide)).2.2.1 (by decide)).2.1,
    ⟨blankVersionPort_delivers, by decide, by decide, by decide⟩,
    ((non_numeric_version_not_rejected (connectedWorld blankVersionPort) [] []
      (by decide) blankVersionPort_delivers (by decide) blankVersionPort_delivers_again
      (by decide)).2.2.2 (by decide)).2.1⟩

/-! ## A count that does not change (C21) -/

/-- A command only adds to the log of frames written. -/
theorem SendCommand_written_grows (hub : ControlHub) (h : Nat) (payload : List Nat) (p : Port) :
    p.written <+: (hub.SendCommand h payload p).2.written := by
  have f1 := purge_fields p
  have f2 := write_fields p.PurgeComPort.2 ([ASCII_START, h] ++ payload ++ [ASCII_END])
  have f3 := pollLoop_written
    (p.PurgeComPort.2.WriteToComPort ([ASCII_START, h] ++ payload ++ [ASCII_END])).2
    SERIAL_TIMEOUT ASCII_NACK
  have hw : p.written <+: p.written ++ [[ASCII_START, h] ++ payload ++ [ASCII_END]] :=
    List.prefix_append _ _
  simp only [ControlHub.SendCommand]
  split_ifs with h0 h1 h2
  · exact List.prefix_refl _
  · rw [f1.2.1]
  · rw [f2.2.1, f1.2.1]; exact hw
  · split
    · show p.written <+: (Port.pollByte _ _ _).2.written
      rw [f3.1, f2.2.1, f1.2.1]; exact hw
    · split_ifs
      · show p.written <+: (Port.pollByte _ _ _).2.written
        rw [f3.1, f2.2.1, f1.2.1]; exact hw
      · show p.written <+: (Port.pollByte _ _ _).2.written
        rw [f3.1, f2.2.1, f1.2.1]; exact hw

theorem UpdateDeltaT_written_grows (w : World) :
    w.port.written <+: (ControlHub.UpdateDeltaT w).2.port.written := by
  have key : w.port.written <+:
      (w.hub.SendTimeMs HEADER_DELTAT w.hub.stepTime w.port).2.written := by
    simp only [ControlHub.SendTimeMs]
    split_ifs
    · exact List.prefix_refl _
    · exact SendCommand_written_grows w.hub _ _ (w.port.assert _)
  simp only [ControlHub.UpdateDeltaT]
  split_ifs <;> exact key

/-- The byte command for the count zero. -/
theorem SendCommand_byte_zero (hub : ControlHub) (h : Nat) (p : Port) :
    hub.SendCommand_byte h (toByte 0) p = hub.SendCommand h [48, 48] (p.assert true) := by
  have e : snprintf 3 (fmtHex 2 (toByte 0)) = (2, [48, 48]) := by decide
  simp only [ControlHub.SendCommand_byte, e]
  rfl

/-- C21: a write to NSteps (to NFrames) of the stored count, when that is not
zero, returns `DEVICE_OK` and leaves the whole state, port included, as it was:
nothing is sent, tables and modulation enables are kept. A write of 0 over a
stored 0 on a hub whose port is set sends the command `N` (`M`) with payload
`00`, and when the transport acknowledges the frame the tables of every
registered channel are empty and both modulation enables are off. -/
theorem unchanged_count_write (w : World) (n : Int) :
    (n = (w.hub.NSteps_ : Int) → n ≠ 0 →
        step w (Action.OnNSteps n) = (Result.ret DEVICE_OK, w)) ∧
      (n = (w.hub.NFrames_ : Int) → n ≠ 0 →
        step w (Action.OnNFrames n) = (Result.ret DEVICE_OK, w)) ∧
      (w.hub.NSteps_ = 0 → w.hub.portAvailable_ = true →
        (w.port.Accepts →
          w.port.written ++ [[0x01, HEADER_NSTEPS, 48, 48, 0x04]]
            <+: (step w (Action.OnNSteps 0)).2.port.written) ∧
        (w.port.Delivers ASCII_ACK →
          (step w (Action.OnNSteps 0)).2.tablesEmpty ∧
          (step w (Action.OnNSteps 0)).2.hub.digMod_ = false ∧
          (step w (Action.OnNSteps 0)).2.hub.anaMod_ = false)) ∧
      (w.hub.NFrames_ = 0 → w.hub.portAvailable_ = true →
        (w.port.Accepts →
          (step w (Action.OnNFrames 0)).2.port.written
            = w.port.written ++ [[0x01, HEADER_NFRAMES, 48, 48, 0x04]]) ∧
        (w.port.Delivers ASCII_ACK →
          (step w (Action.OnNFrames 0)).1 = Result.ret DEVICE_OK ∧
          (step w (Action.OnNFrames 0)).2.tablesEmpty ∧
          (step w (Action.OnNFrames 0)).2.hub.digMod_ = false ∧
          (step w (Action.OnNFrames 0)).2.hub.anaMod_ = false)) := by
  refine ⟨?_, ?_, ?_, ?_⟩
  · intro h1 h2
    show liftRet (ControlHub.OnNSteps w n) = _
    unfold ControlHub.OnNSteps
    rw [if_pos ⟨h1, h2⟩]
    rfl
  · intro h1 h2
    show liftRet (ControlHub.OnNFrames w n) = _
    unfold ControlHub.OnNFrames
    rw [if_pos ⟨h1, h2⟩]
    rfl
  · intro h0 hport
    have hw := SendCommand_written w.hub HEADER_NSTEPS [48, 48] (w.port.assert true) hport
    have e0 : ¬ ((0 : Int) = (w.hub.NSteps_ : Int) ∧ (0 : Int) ≠ 0) := by simp
    have e1 : ¬ ((w.hub.NFrames_ : Int) * 0 > MAX_MOD_LENGTH) := by simp [MAX_MOD_LENGTH]
    constructor
    · intro hacc
      have hw2 := hw hacc
      simp only [step, liftRet, ControlHub.OnNSteps, e0, e1, if_false,
        SendCommand_byte_zero]
      split_ifs with h3
      · show _ <+: (w.hub.SendCommand HEADER_NSTEPS [48, 48] (w.port.assert true)).2.written
        rw [hw2]
        exact List.prefix_refl _
      · refine List.IsPrefix.trans ?_ (UpdateDeltaT_written_grows _)
        show _ <+: (w.hub.SendCommand HEADER_NSTEPS [48, 48] (w.port.assert true)).2.written
        rw [hw2]
        exact List.prefix_refl _
    · intro hd
      have hc := SendCommand_code w.hub HEADER_NSTEPS [48, 48] (w.port.assert true) ASCII_ACK
        hport hd
      rw [if_pos rfl] at hc
      simp only [step, liftRet, ControlHub.OnNSteps, e0, e1, if_false,
        SendCommand_byte_zero, hc, ne_eq, not_true_eq_false, and_false]
      refine ⟨?_, ?_, ?_⟩
      · unfold World.tablesEmpty
        rw [(UpdateDeltaT_frame _).2.2.1, (UpdateDeltaT_frame _).2.2.2]
        intro i hi m hm
        exact ResetModulations_empty _ _ i hi m hm
      · simp only [ControlHub.UpdateDeltaT]
        split_ifs <;> rfl
      · simp only [ControlHub.UpdateDeltaT]
        split_ifs <;> rfl
  · intro h0 hport
    have hw := SendCommand_written w.hub HEADER_NFRAMES [48, 48] (w.port.assert true) hport
    have e0 : ¬ ((0 : Int) = (w.hub.NFrames_ : Int) ∧ (0 : Int) ≠ 0) := by simp
    have e1 : ¬ ((0 : Int) * (w.hub.NSteps_ : Int) > MAX_MOD_LENGTH) := by
      simp [MAX_MOD_LENGTH]
    constructor
    · intro hacc
      have hw2 := hw hacc
      simp only [step, liftRet, ControlHub.OnNFrames, e0, e1, if_false,
        SendCommand_byte_zero]
      split_ifs with h3
      · exact hw2
      · exact hw2
    · intro hd
      have hc := SendCommand_code w.hub HEADER_NFRAMES [48, 48] (w.port.assert true) ASCII_ACK
        hport hd
      rw [if_pos rfl] at hc
      simp only [step, liftRet, ControlHub.OnNFrames, e0, e1, if_false,
        SendCommand_byte_zero, hc, ne_eq, not_true_eq_false, and_false]
      refine ⟨trivial, ?_, trivial, trivial⟩
      intro i hi m hm
      exact ResetModulations_empty _ _ i hi m hm

theorem connectedWorld_delivers : (connectedWorld ackPort).port.Delivers ASCII_ACK :=
  ⟨⟨by decide, by decide⟩, [], 1000, List.replicate 15 ackEvent, by decide, by decide,
    by decide⟩

theorem unchanged_count_write_witness :
    ((5 : Int) = (sampleWorld.hub.NSteps_ : Int) ∧ (5 : Int) ≠ 0 ∧
        step sampleWorld (Action.OnNSteps 5) = (Result.ret DEVICE_OK, sampleWorld)) ∧
      ((2 : Int) = (sampleWorld.hub.NFrames_ : Int) ∧ (2 : Int) ≠ 0 ∧
        step sampleWorld (Action.OnNFrames 2) = (Result.ret DEVICE_OK, sampleWorld)) ∧
      ((connectedWorld ackPort).hub.NSteps_ = 0 ∧
        (connectedWorld ackPort).hub.portAvailable_ = true ∧
        (connectedWorld ackPort).port.Accepts ∧
        (connectedWorld ackPort).port.written ++ [[0x01, HEADER_NSTEPS, 48, 48, 0x04]]
          <+: (step (connectedWorld ackPort) (Action.OnNSteps 0)).2.port.written) ∧
      ((connectedWorld ackPort).hub.NFrames_ = 0 ∧
        (connectedWorld ackPort).port.Delivers ASCII_ACK ∧
        (step (connectedWorld ackPort) (Action.OnNFrames 0)).1 = Result.ret DEVICE_OK ∧
        (step (connectedWorld ackPort) (Action.OnNFrames 0)).2.port.written
          = [[0x01, HEADER_NFRAMES, 48, 48, 0x04]]) :=
  ⟨⟨by decide!, by decide,
      (unchanged_count_write sampleWorld 5).1 (by decide!) (by decide)⟩,
    ⟨by decide!, by decide,
      (unchanged_count_write sampleWorld 2).2.1 (by decide!) (by decide)⟩,
    ⟨by decide, by decide, connectedWorld_delivers.1,
      ((unchanged_count_write (connectedWorld ackPort) 0).2.2.1 (by decide) (by decide)).1
        connectedWorld_delivers.1⟩,
    ⟨by decide, connectedWorld_delivers,
      (((unchanged_count_write (connectedWorld ackPort) 0).2.2.2 (by decide) (by decide)).2
        connectedWorld_delivers).1,
      ((unchanged_count_write (connectedWorld ackPort) 0).2.2.2 (by decide) (by decide)).1
        connectedWorld_delivers.1⟩⟩

/-! ## The width of the acquire count (C23) -/

/-- The count payload of `SendCommand(header, int)` for a count that fits 16
bits, and for a negative count. -/
theorem SendCommand_int_payload (hub : ControlHub) (h : Nat) (n : Int) (p : Port) :
    (0 ≤ n → n ≤ 65535 →
        hub.SendCommand_int h n p = hub.SendCommand h (hexText 4 n.toNat) (p.assert true)) ∧
      (n < 0 →
        hub.SendCommand_int h n p = hub.SendCommand h [102, 102, 102, 102] (p.assert true)) := by
  constructor
  · intro h0 h1
    have e : toUInt32 n = n.toNat := by
      unfold toUInt32
      rw [Int.emod_eq_of_lt h0 (by omega)]
    have hlt : n.toNat < 16 ^ 4 := by omega
    simp only [ControlHub.SendCommand_int, not_lt.mpr h0, if_false, e,
      snprintf_hex 4 n.toNat (by norm_num) hlt]
    rfl
  · intro hneg
    have e : snprintf 5 (fmtHex 4 (toUInt32 65535)) = (4, [102, 102, 102, 102]) := by decide
    simp only [ControlHub.SendCommand_int, hneg, if_true, e]
    rfl

/-- C23 fails for a count above 65535: a write of 65536 to AcquireFrames on the
internal trigger is forwarded, `snprintf` returns 5 for the text `10000`, the
assertion `ret == 4` fails, and the four characters sent, `1000`, read as the
count 4096 while the adapter stores 65536. -/
theorem acquire_count_overflows_width :
    (snprintf 5 (fmtHex 4 (toUInt32 65536))).1 = 5 ∧
      sampleWorld.hub.selectTrigger_ = 4 ∧
      sampleWorld.port.assertFailed = false ∧
      (step sampleWorld (Action.OnAcquire 65536)).1 = Result.ret DEVICE_OK ∧
      (step sampleWorld (Action.OnAcquire 65536)).2.port.assertFailed = true ∧
      (step sampleWorld (Action.OnAcquire 65536)).2.port.written = sampleWorld.port.written ++
        [[0x01, HEADER_ACQUIRE, 49, 48, 48, 48, 0x04]] ∧
      parseHex [49, 48, 48, 48] = some 4096 ∧
      (step sampleWorld (Action.OnAcquire 65536)).2.hub.acquire_ = 65536 := by
  decide!

/-! ## The modulation enables (C25) -/

theorem stepTime_pos (hub : ControlHub) (he : 0 ≤ hub.exposure_) (hf : 0 < hub.frameT_) :
    0 ≤ hub.stepTime ∧ (hub.NSteps_ ≠ 0 → 0 < hub.stepTime) := by
  have hm : 0 < (if (hub.loopFrame_ || decide (hub.exposure_ = 0)) = true then hub.frameT_
      else hub.exposure_) := by
    split_ifs with h
    · exact hf
    · simp only [Bool.or_eq_true, decide_eq_true_eq, not_or] at h
      exact lt_of_le_of_ne he (Ne.symm h.2)
  unfold ControlHub.stepTime
  simp only
  by_cases h0 : hub.NSteps_ ≠ 0
  · rw [if_pos h0]
    have hn : (0 : ℚ) < (hub.NSteps_ : ℚ) := by
      exact_mod_cast Nat.pos_of_ne_zero h0
    have := div_pos hm hn
    exact ⟨le_of_lt this, fun _ => this⟩
  · rw [if_neg h0]
    exact ⟨le_refl _, fun h => absurd h h0⟩

theorem SendTimeMs_ok_nonneg (hub : ControlHub) (h : Nat) (t : ℚ) (p : Port)
    (hok : (hub.SendTimeMs h t p).1 = DEVICE_OK) : 0 ≤ t := by
  by_contra hn
  have hlt : t < 0 := not_le.mp hn
  simp only [ControlHub.SendTimeMs, hlt, if_true] at hok
  exact absurd hok (by decide)

theorem Consistent_stepTime (hub : ControlHub) (h : hub.Consistent) :
    ControlHub.Consistent { hub with deltaT_ := hub.stepTime } := by
  obtain ⟨h1, h2, h3, h4⟩ := h
  have hs := stepTime_pos hub h1 h2
  refine ⟨h1, h2, hs.1, fun hf => ?_⟩
  have h5 := (h4 hf).1
  refine ⟨h5, hs.2 ?_⟩
  intro h0
  rw [h0] at h5
  omega

theorem Consistent_UpdateDeltaT (w : World) (h : w.hub.Consistent) :
    (ControlHub.UpdateDeltaT w).2.hub.Consistent := by
  simp only [ControlHub.UpdateDeltaT]
  split_ifs
  · exact h
  · exact Consistent_stepTime w.hub h

theorem Consistent_enable (hub : ControlHub) (h : hub.Consistent) (d : Int)
    (hk : ¬ (d ≠ 0 ∧ (hub.GetSequenceLength = 0 ∨ hub.deltaT_ = 0))) :
    (d ≠ 0 → 1 ≤ hub.NSteps_ * hub.NFrames_ ∧ 0 < hub.deltaT_) := by
  intro hd
  have h1 : ¬ (hub.GetSequenceLength = 0 ∨ hub.deltaT_ = 0) := fun hc => hk ⟨hd, hc⟩
  rw [not_or] at h1
  constructor
  · have h2 := h1.1
    unfold ControlHub.GetSequenceLength at h2
    have h3 : hub.NSteps_ * hub.NFrames_ ≠ 0 := by
      intro h0
      apply h2
      exact_mod_cast h0
    omega
  · exact lt_of_le_of_ne h.2.2.1 (Ne.symm h1.2)

theorem Consistent_step (w : World) (a : Action) (h : w.hub.Consistent) :
    (step w a).2.hub.Consistent := by
  cases a with
  | OnPort => exact h
  | HubInitialize =>
    simp only [step, liftRet, ControlHub.Initialize]
    split_ifs <;> exact h
  | HubShutdown => exact h
  | OnExposure v =>
    simp only [step, liftRet, ControlHub.OnExposure]
    split_ifs with h1
    · exact h
    · apply Consistent_UpdateDeltaT
      have h0 := SendTimeMs_ok_nonneg _ _ _ _ (not_not.mp h1)
      exact ⟨h0, h.2.1, h.2.2.1, h.2.2.2⟩
  | OnFrameT v =>
    simp only [step, liftRet, ControlHub.OnFrameT]
    split_ifs with h1 h2
    · exact h
    · exact Consistent_UpdateDeltaT w h
    · have h3 := Consistent_UpdateDeltaT w h
      exact ⟨h3.1, not_le.mp h1, h3.2.2.1, h3.2.2.2⟩
  | OnWaitBefore v =>
    simp only [step, liftRet, ControlHub.OnWaitBefore]
    split_ifs <;> exact h
  | OnWaitAfter v =>
    simp only [step, liftRet, ControlHub.OnWaitAfter]
    split_ifs <;> exact h
  | OnNSteps n =>
    simp only [step, liftRet, ControlHub.OnNSteps]
    split_ifs
    · exact h
    · exact h
    · exact h
    · apply Consistent_UpdateDeltaT
      exact ⟨h.1, h.2.1, h.2.2.1, fun hf => by simp at hf⟩
  | OnNFrames n =>
    simp only [step, liftRet, ControlHub.OnNFrames]
    split_ifs
    · exact h
    · exact h
    · exact h
    · exact ⟨h.1, h.2.1, h.2.2.1, fun hf => by simp at hf⟩
  | OnDigMod d =>
    simp only [step, liftRet, ControlHub.OnDigMod]
    split_ifs with h1 h2
    · exact h
    · exact h
    · refine ⟨h.1, h.2.1, h.2.2.1, fun hf => ?_⟩
      rcases hf with hf | hf
      · exact Consistent_enable w.hub h d h1 (of_decide_eq_true hf)
      · exact h.2.2.2 (Or.inr hf)
  | OnAnaMod d =>
    simp only [step, liftRet, ControlHub.OnAnaMod]
    split_ifs with h1 h2
    · exact h
    · exact h
    · refine ⟨h.1, h.2.1, h.2.2.1, fun hf => ?_⟩
      rcases hf with hf | hf
      · exact h.2.2.2 (Or.inl hf)
      · exact Consistent_enable w.hub h d h1 (of_decide_eq_true hf)
  | OnLoopFrame n =>
    simp only [step, liftRet, ControlHub.OnLoopFrame]
    split_ifs
    · exact h
    · apply Consistent_UpdateDeltaT
      exact h
  | OnAcquire n =>
    simp only [step, liftRet, ControlHub.OnAcquire]
    split_ifs <;> exact h
  | TriggerInitialize =>
    simp only [step, liftRet, TriggerSelect.Initialize]
    split_ifs <;> exact h
  | OnState pos =>
    simp only [step, liftRet, TriggerSelect.OnState]
    split_ifs <;> exact h
  | OnEnable pos =>
    simp only [step, liftRet, EnableShutter.OnEnable]
    split_ifs <;> exact h
  | ModInitialize i =>
    simp only [step, AnalogMod.Initialize]
    split
    · exact h
    · split_ifs <;> exact h
  | OnAmplitude i v => simp only [step, onMod_frame]; exact h
  | OnGate i v => simp only [step, onMod_frame]; exact h
  | OnModulationA i v => simp only [step, onMod_frame]; exact h
  | OnModulationD i v => simp only [step, onMod_frame]; exact h
  | elapse dt => exact h

theorem Consistent_reachable (ok : Action → Prop) (w : World) (hw : ReachableBy ok w) :
    w.hub.Consistent := by
  induction hw with
  | init channels ps ws rs as now =>
    have hnew : ControlHub.new.Consistent := by
      refine ⟨by decide!, by decide!, by decide!, fun hf => ?_⟩
      rcases hf with hf | hf <;> exact absurd hf (by decide)
    exact hnew
  | step a _ _ ih => exact Consistent_step _ a ih

/-- C25: in every state reached from the initial state by calls of the adapter,
whatever the port does: if the digital or the analog modulation enable is set,
the sequence length `NSteps_ * NFrames_` is at least 1 and the cached step
duration `deltaT_` is positive. A write that enables either modulation while
the sequence length is 0 or `deltaT_` is 0 returns `ERR_NMOD` and leaves the
whole state, port included, as it was: nothing is sent. -/
theorem modulation_enable_needs_sequence (ok : Action → Prop) (w : World)
    (hw : ReachableBy ok w) (d : Int) :
    ((w.hub.digMod_ = true ∨ w.hub.anaMod_ = true) →
        1 ≤ w.hub.NSteps_ * w.hub.NFrames_ ∧ 0 < w.hub.deltaT_) ∧
      (d ≠ 0 → (w.hub.GetSequenceLength = 0 ∨ w.hub.deltaT_ = 0) →
        step w (Action.OnDigMod d) = (Result.ret ERR_NMOD, w) ∧
        step w (Action.OnAnaMod d) = (Result.ret ERR_NMOD, w)) := by
  refine ⟨(Consistent_reachable ok w hw).2.2.2, fun hd hz => ⟨?_, ?_⟩⟩
  · show liftRet (ControlHub.OnDigMod w d) = _
    unfold ControlHub.OnDigMod
    rw [if_pos ⟨hd, hz⟩]
    rfl
  · show liftRet (ControlHub.OnAnaMod w d) = _
    unfold ControlHub.OnAnaMod
    rw [if_pos ⟨hd, hz⟩]
    rfl

theorem modulation_enable_needs_sequence_witness :
    (ReachableBy Action.withinLimits modulatedWorld ∧
        (modulatedWorld.hub.digMod_ = true ∨ modulatedWorld.hub.anaMod_ = true) ∧
        1 ≤ modulatedWorld.hub.NSteps_ * modulatedWorld.hub.NFrames_ ∧
        0 < modulatedWorld.hub.deltaT_) ∧
      (ReachableBy Action.withinLimits (connectedWorld ackPort) ∧ (1 : Int) ≠ 0 ∧
        ((connectedWorld ackPort).hub.GetSequenceLength = 0 ∨
          (connectedWorld ackPort).hub.deltaT_ = 0) ∧
        step (connectedWorld ackPort) (Action.OnDigMod 1)
          = (Result.ret ERR_NMOD, connectedWorld ackPort)) :=
  ⟨⟨ReachableBy.step (Action.OnDigMod 1) sampleWorld_reachable (by decide),
      Or.inl (by decide!),
      (modulation_enable_needs_sequence Action.withinLimits modulatedWorld
        (ReachableBy.step (Action.OnDigMod 1) sampleWorld_reachable (by decide)) 1).1
        (Or.inl (by decide!))⟩,
    ReachableBy.step Action.OnPort
      (ReachableBy.init [2, 0, 1, 3] [] [] (List.replicate 16 ackEvent) [] 0) trivial,
    by decide, Or.inl (by decide),
    ((modulation_enable_needs_sequence Action.withinLimits (connectedWorld ackPort)
      (ReachableBy.step Action.OnPort
        (ReachableBy.init [2, 0, 1, 3] [] [] (List.replicate 16 ackEvent) [] 0) trivial) 1).2
      (by decide) (Or.inl (by decide))).1⟩

/-! ## A table token that is not a number (C27) -/

/-- C27 fails: for the table text `a`, and for `1--2` with its empty token,
`std::stoi` throws inside `AnalogMod::SendModulationA`, where nothing catches
it: the analog table write ends with the exception, not with a result code.
Nothing is sent and the state is unchanged. The digital table write catches the
exception and returns `ERR_INVALID_VALUE` for the same texts. -/
theorem analog_table_write_throws :
    stoi [97] = none ∧
      getlineTokens [] [49, 45, 45, 50] = [[49], [], [50]] ∧ stoi [] = none ∧
      step sampleWorld (Action.OnModulationA 0 [97]) = (Result.thrown, sampleWorld) ∧
      step sampleWorld (Action.OnModulationA 0 [49, 45, 45, 50])
        = (Result.thrown, sampleWorld) ∧
      step sampleWorld (Action.OnModulationD 0 [97])
        = (Result.ret ERR_INVALID_VALUE, sampleWorld) ∧
      step sampleWorld (Action.OnModulationD 0 [49, 45, 45, 50])
        = (Result.ret ERR_INVALID_VALUE, sampleWorld) := by
  decide!

/-! ## The amplitude write (C26) -/

theorem assert_true (p : Port) : p.assert true = p := by
  cases p
  simp [Port.assert]

/-- The command `SendModulationA` sends for a table whose tokens convert to
the values `vs`. -/
theorem SendModulationA_values (hub : ControlHub) (m : AnalogMod) (p : Port)
    (vs : List Nat) (a : Nat) (text : List Nat) (hport : hub.portAvailable_ = true)
    (hc : m.channel_ < 10) (ha : m.amplitude_ = (a : Int)) (ha255 : a ≤ 255)
    (hr : ∀ v ∈ vs, v ≤ 255) (hlen : (vs.length : Int) = hub.GetSequenceLength)
    (hvals : (getlineTokens [] text).map stoi = (vs.map fun v : Nat => some (v : Int))) :
    AnalogMod.SendModulationA hub m text p =
      (Result.ret (hub.SendCommand HEADER_MODA
          ((48 + m.channel_) :: (vs.map fun v => hexText 2 (v * a / 255)).flatten) p).1,
        (hub.SendCommand HEADER_MODA
          ((48 + m.channel_) :: (vs.map fun v => hexText 2 (v * a / 255)).flatten) p).2) := by
  obtain ⟨hp1, hp2⟩ := payloadA_values m vs a hc ha ha255 hr
  have hs := scanA_values m (getlineTokens [] text) (vs.map fun v : Nat => (v : Int))
    (by rw [hvals, List.map_map]; rfl)
    (by
      intro x hx
      obtain ⟨v, hv, rfl⟩ := List.mem_map.mp hx
      have := hr v hv
      omega)
  simp only [AnalogMod.SendModulationA, hport, Bool.not_true, Bool.false_eq_true, if_false,
    hs, List.length_map, hlen, ne_eq, not_true_eq_false, hp1, hp2, assert_true]

/-- The first command of the amplitude write. -/
theorem OnAmplitude_first (hub : ControlHub) (m : AnalogMod) (a : Nat) (p : Port)
    (hport : hub.portAvailable_ = true) (hc : m.channel_ < 10) (ha : a ≤ 255) :
    AnalogMod.OnAmplitude hub m (a : Int) p =
      if (hub.SendCommand HEADER_AMPLITUDE ((48 + m.channel_) :: hexText 2 a) p).1 ≠ DEVICE_OK
      then (Result.ret
          (hub.SendCommand HEADER_AMPLITUDE ((48 + m.channel_) :: hexText 2 a) p).1, m,
        (hub.SendCommand HEADER_AMPLITUDE ((48 + m.channel_) :: hexText 2 a) p).2)
      else if m.modulationA_ ≠ [] then
        ((AnalogMod.SendModulationA hub { m with amplitude_ := (a : Int) } m.modulationA_
            (hub.SendCommand HEADER_AMPLITUDE ((48 + m.channel_) :: hexText 2 a) p).2).1,
          { m with amplitude_ := (a : Int) },
          (AnalogMod.SendModulationA hub { m with amplitude_ := (a : Int) } m.modulationA_
            (hub.SendCommand HEADER_AMPLITUDE ((48 + m.channel_) :: hexText 2 a) p).2).2)
      else (Result.ret DEVICE_OK, { m with amplitude_ := (a : Int) },
        (hub.SendCommand HEADER_AMPLITUDE ((48 + m.channel_) :: hexText 2 a) p).2) := by
  have e1 : m.channelText = (1, [48 + m.channel_]) := fmtDec_digit _ hc
  have e2 : snprintf 3 (fmtHex 2 (toByte (a : Int))) = (2, hexText 2 a) := by
    have : toByte (a : Int) = a := by
      unfold toByte
      omega
    rw [this]
    exact snprintf_hex 2 a (by norm_num) (by omega)
  simp only [AnalogMod.OnAmplitude, hport, Bool.not_true, Bool.false_eq_true, if_false, e1, e2,
    beq_self_eq_true, assert_true, List.singleton_append]

/-- C26: for a channel `c` in 0..3 and an amplitude `a` in 0..255 written on a
hub whose port is set, the first frame acknowledged: the write sends the command
`I` with the 3-byte payload made of the digit of `c` and the two lowercase
hexadecimal digits of `a`, and stores `a`. With an empty cached analog table
that is the only frame and the write returns `DEVICE_OK`. With a cached analog
table of the values `vs` (each in 0..255, as many as the sequence length) and a
transport that accepts the next frame, the command `O` follows, with the digit
of `c` and for every value `v` the two digits of `v * a / 255`: the table is
scaled by the amplitude just written, whatever the amplitude was before. -/
theorem amplitude_write_resends_table (w : World) (i : Nat) (m : AnalogMod) (a : Nat)
    (vs : List Nat) (hm : w.mods[i]? = some m) (hport : w.hub.portAvailable_ = true)
    (hc : m.channel_ ≤ 3) (ha : a ≤ 255) (hd : w.port.Delivers ASCII_ACK) :
    (step w (Action.OnAmplitude i (a : Int))).2.mods[i]?
        = some { m with amplitude_ := (a : Int) } ∧
      (m.modulationA_ = [] →
        (step w (Action.OnAmplitude i (a : Int))).1 = Result.ret DEVICE_OK ∧
        (step w (Action.OnAmplitude i (a : Int))).2.port.written = w.port.written ++
          [[0x01, HEADER_AMPLITUDE, 48 + m.channel_] ++ hexText 2 a ++ [0x04]]) ∧
      (m.modulationA_ ≠ [] →
        (getlineTokens [] m.modulationA_).map stoi = (vs.map fun v : Nat => some (v : Int)) →
        (∀ v ∈ vs, v ≤ 255) → (vs.length : Int) = w.hub.GetSequenceLength →
        (w.hub.SendCommand HEADER_AMPLITUDE ((48 + m.channel_) :: hexText 2 a)
          w.port).2.Accepts →
        (step w (Action.OnAmplitude i (a : Int))).2.port.written = w.port.written ++
          [[0x01, HEADER_AMPLITUDE, 48 + m.channel_] ++ hexText 2 a ++ [0x04],
            [0x01, HEADER_MODA, 48 + m.channel_] ++
              (vs.map fun v => hexText 2 (v * a / 255)).flatten ++ [0x04]]) := by
  have hf := OnAmplitude_first w.hub m a w.port hport (by omega) ha
  have hcode := SendCommand_code w.hub HEADER_AMPLITUDE ((48 + m.channel_) :: hexText 2 a)
    w.port ASCII_ACK hport hd
  rw [if_pos rfl] at hcode
  have hwr := SendCommand_written w.hub HEADER_AMPLITUDE ((48 + m.channel_) :: hexText 2 a)
    w.port hport hd.1
  rw [hcode] at hf
  simp only [ne_eq, not_true_eq_false, if_false] at hf
  have hstep : step w (Action.OnAmplitude i (a : Int))
      = ((AnalogMod.OnAmplitude w.hub m (a : Int) w.port).1,
          { w with
            mods := w.mods.set i (AnalogMod.OnAmplitude w.hub m (a : Int) w.port).2.1
            port := (AnalogMod.OnAmplitude w.hub m (a : Int) w.port).2.2 }) := by
    show w.onMod i (fun hub m p => AnalogMod.OnAmplitude hub m (a : Int) p) = _
    simp only [World.onMod, hm]
  have hi : i < w.mods.length := by
    by_contra hn
    rw [List.getElem?_eq_none (not_lt.mp hn)] at hm
    cases hm
  rw [hstep, hf]
  refine ⟨?_, ?_, ?_⟩
  · show (w.mods.set i _)[i]? = _
    rw [List.getElem?_set_self hi]
    split_ifs <;> rfl
  · intro he
    rw [if_neg (not_not.mpr he)]
    refine ⟨rfl, ?_⟩
    show (w.hub.SendCommand _ _ _).2.written = _
    rw [hwr]
    rfl
  · intro hne hvals hr hlen hacc
    rw [if_pos hne]
    have hs := SendModulationA_values w.hub { m with amplitude_ := (a : Int) }
      (w.hub.SendCommand HEADER_AMPLITUDE ((48 + m.channel_) :: hexText 2 a) w.port).2
      vs a m.modulationA_ hport (by show m.channel_ < 10; omega) rfl ha hr hlen hvals
    show (AnalogMod.SendModulationA _ _ _ _).2.written = _
    rw [hs]
    show (w.hub.SendCommand _ _ _).2.written = _
    rw [SendCommand_written _ _ _ _ hport hacc, hwr]
    simp [ASCII_START, ASCII_END]

theorem tableWorld_delivers : tableWorld.port.Delivers ASCII_ACK :=
  ⟨⟨by decide!, by decide!⟩, [], 1000, List.replicate 10 ackEvent, by decide!, by decide,
    by decide⟩

theorem amplitude_write_resends_table_witness :
    (tableWorld.mods[0]? = some (AnalogMod.mk 2 false 255 sampleTable []) ∧
        tableWorld.hub.portAvailable_ = true ∧ (2 : Nat) ≤ 3 ∧ (128 : Nat) ≤ 255 ∧
        tableWorld.port.Delivers ASCII_ACK ∧ sampleTable ≠ [] ∧
        (getlineTokens [] sampleTable).map stoi
          = ([0, 25, 50, 75, 100, 125, 150, 175, 200, 255].map
              fun v : Nat => some (v : Int)) ∧
        (tableWorld.hub.SendCommand HEADER_AMPLITUDE ((48 + 2) :: hexText 2 128)
          tableWorld.port).2.Accepts) ∧
      (step tableWorld (Action.OnAmplitude 0 128)).2.port.written = tableWorld.port.written ++
        [[0x01, HEADER_AMPLITUDE, 50, 56, 48, 0x04],
          [0x01, HEADER_MODA, 50, 48, 48, 48, 99, 49, 57, 50, 53, 51, 50, 51, 101, 52, 98, 53,
            55, 54, 52, 56, 48, 0x04]] ∧
      (sampleWorld.mods[0]? = some (AnalogMod.mk 2 false 255 [] []) ∧
        (step sampleWorld (Action.OnAmplitude 0 128)).1 = Result.ret DEVICE_OK ∧
        (step sampleWorld (Action.OnAmplitude 0 128)).2.port.written = sampleWorld.port.written ++
          [[0x01, HEADER_AMPLITUDE, 50, 56, 48, 0x04]]) :=
  ⟨⟨by decide!, by decide!, by decide, by decide, tableWorld_delivers, by decide, by decide,
      ⟨by decide!, by decide!⟩⟩,
    (amplitude_write_resends_table tableWorld 0 (AnalogMod.mk 2 false 255 sampleTable []) 128
      [0, 25, 50, 75, 100, 125, 150, 175, 200, 255] (by decide!) (by decide!) (by decide)
      (by decide) tableWorld_delivers).2.2 (by decide) (by decide) (by decide) (by decide!)
      ⟨by decide!, by decide!⟩,
    sampleWorld_channel.1,
    (amplitude_write_resends_table sampleWorld 0 (AnalogMod.mk 2 false 255 [] []) 128 []
      sampleWorld_channel.1 sampleWorld_channel.2.1 (by decide) (by decide)
      sampleWorld_delivers).2.1 rfl⟩

/-! ## The cached tables fit the sequence (C24) -/

/-- A scan of the analog tokens that succeeds has seen values in 0..255 only. -/
theorem scanA_ok_inv (m : AnalogMod) : ∀ (toks : List (List Nat)) (values : List Int),
    m.scanA toks = Except.ok values →
    values.length = toks.length ∧ ∀ tok ∈ toks, tokenInRange 255 tok := by
  intro toks
  induction toks with
  | nil =>
    intro values h
    simp only [AnalogMod.scanA, Except.ok.injEq] at h
    subst h
    exact ⟨rfl, fun tok htok => absurd htok (List.not_mem_nil _)⟩
  | cons tok rest ih =>
    intro values h
    unfold AnalogMod.scanA at h
    cases hs : stoi tok with
    | none => rw [hs] at h; cases h
    | some val =>
      rw [hs] at h
      simp only at h
      by_cases hr : val > 255 ∨ val < 0
      · rw [if_pos hr] at h; cases h
      · rw [if_neg hr] at h
        cases hrest : m.scanA rest with
        | error e => rw [hrest] at h; cases h
        | ok vs =>
          rw [hrest] at h
          simp only [Except.ok.injEq] at h
          subst h
          obtain ⟨h1, h2⟩ := ih vs hrest
          refine ⟨by simp [h1], ?_⟩
          intro t ht
          rcases List.mem_cons.mp ht with rfl | ht
          · unfold tokenInRange
            rw [hs]
            simp only
            omega
          · exact h2 t ht

/-- A scan of the digital tokens that succeeds has seen values 0 and 1 only. -/
theorem scanD_ok_inv : ∀ (toks : List (List Nat)) (values : List Bool),
    scanD toks = Except.ok values →
    values.length = toks.length ∧ ∀ tok ∈ toks, tokenInRange 1 tok := by
  intro toks values h
  have hall : ∀ tok ∈ toks, tokenInRange 1 tok := by
    by_contra hn
    push_neg at hn
    obtain ⟨tok, ht, hb⟩ := hn
    rw [scanD_error toks ⟨tok, ht, hb⟩] at h
    cases h
  rw [scanD_ok toks hall] at h
  simp only [Except.ok.injEq] at h
  subst h
  exact ⟨by simp, hall⟩

theorem OnAmplitude_tables (hub : ControlHub) (m : AnalogMod) (a : Int) (p : Port) :
    (AnalogMod.OnAmplitude hub m a p).2.1.modulationA_ = m.modulationA_ ∧
      (AnalogMod.OnAmplitude hub m a p).2.1.modulationD_ = m.modulationD_ := by
  simp only [AnalogMod.OnAmplitude]
  split_ifs <;> exact ⟨rfl, rfl⟩

theorem OnGate_tables (hub : ControlHub) (m : AnalogMod) (g : Int) (p : Port) :
    (AnalogMod.OnGate hub m g p).2.1.modulationA_ = m.modulationA_ ∧
      (AnalogMod.OnGate hub m g p).2.1.modulationD_ = m.modulationD_ := by
  simp only [AnalogMod.OnGate]
  split_ifs <;> exact ⟨rfl, rfl⟩

theorem scanA_error (m : AnalogMod) : ∀ (toks : List (List Nat)) (e : Result),
    m.scanA toks = Except.error e → e = Result.thrown ∨ e = Result.ret ERR_INVALID_VALUE := by
  intro toks
  induction toks with
  | nil =>
    intro e h
    simp only [AnalogMod.scanA] at h
    cases h
  | cons tok rest ih =>
    intro e h
    unfold AnalogMod.scanA at h
    cases hs : stoi tok with
    | none =>
      rw [hs] at h
      simp only [Except.error.injEq] at h
      exact Or.inl h.symm
    | some val =>
      rw [hs] at h
      simp only at h
      by_cases hr : val > 255 ∨ val < 0
      · rw [if_pos hr] at h
        simp only [Except.error.injEq] at h
        exact Or.inr h.symm
      · rw [if_neg hr] at h
        cases hrest : m.scanA rest with
        | error e2 =>
          rw [hrest] at h
          simp only [Except.error.injEq] at h
          subst h
          exact ih e2 hrest
        | ok vs => rw [hrest] at h; cases h

theorem SendModulationA_ok (hub : ControlHub) (m : AnalogMod) (s : List Nat) (p : Port)
    (h : (AnalogMod.SendModulationA hub m s p).1 = Result.ret DEVICE_OK) :
    tableFits hub 255 s := by
  simp only [AnalogMod.SendModulationA] at h
  split_ifs at h with h0
  · have h2 : Result.ret ERR_NO_PORT_SET = Result.ret DEVICE_OK := h
    exact absurd h2 (by decide)
  · cases hs : m.scanA (getlineTokens [] s) with
    | error e =>
      rw [hs] at h
      have h2 : e = Result.ret DEVICE_OK := h
      rcases scanA_error m _ e hs with h3 | h3
      · rw [h3] at h2; cases h2
      · rw [h3] at h2
        exact absurd h2 (by decide)
    | ok values =>
      rw [hs] at h
      simp only at h
      split_ifs at h with h1
      · have h2 : Result.ret ERR_MOD_LENGTH = Result.ret DEVICE_OK := h
        exact absurd h2 (by decide)
      · obtain ⟨e1, e2⟩ := scanA_ok_inv m _ values hs
        refine Or.inr ⟨?_, e2⟩
        rw [← e1]
        have h2 := not_not.mp h1
        unfold ControlHub.GetSequenceLength at h2
        exact_mod_cast h2

theorem OnModulationA_tables (hub : ControlHub) (m : AnalogMod) (s : List Nat) (p : Port) :
    (AnalogMod.OnModulationA hub m s p).2.1.modulationD_ = m.modulationD_ ∧
      ((AnalogMod.OnModulationA hub m s p).2.1.modulationA_ = m.modulationA_ ∨
        ((AnalogMod.OnModulationA hub m s p).2.1.modulationA_ = s ∧ tableFits hub 255 s)) := by
  simp only [AnalogMod.OnModulationA]
  split_ifs with h0 h1
  · exact ⟨rfl, Or.inl rfl⟩
  · exact ⟨rfl, Or.inl rfl⟩
  · exact ⟨rfl, Or.inr ⟨rfl, SendModulationA_ok hub m s p (not_not.mp h1)⟩⟩

theorem OnModulationD_tables (hub : ControlHub) (m : AnalogMod) (s : List Nat) (p : Port) :
    (AnalogMod.OnModulationD hub m s p).2.1.modulationA_ = m.modulationA_ ∧
      ((AnalogMod.OnModulationD hub m s p).2.1.modulationD_ = m.modulationD_ ∨
        ((AnalogMod.OnModulationD hub m s p).2.1.modulationD_ = s ∧ tableFits hub 1 s)) := by
  simp only [AnalogMod.OnModulationD]
  split_ifs with h0
  · exact ⟨rfl, Or.inl rfl⟩
  · cases hs : scanD (getlineTokens [] s) with
    | error e => exact ⟨rfl, Or.inl rfl⟩
    | ok values =>
      simp only
      split_ifs with h1 h2
      · exact ⟨rfl, Or.inl rfl⟩
      · exact ⟨rfl, Or.inl rfl⟩
      · obtain ⟨e1, e2⟩ := scanD_ok_inv _ values hs
        refine ⟨rfl, Or.inr ⟨rfl, Or.inr ⟨?_, e2⟩⟩⟩
        rw [← e1]
        have h3 := not_not.mp h1
        unfold ControlHub.GetSequenceLength at h3
        exact_mod_cast h3

theorem tableFits_congr (h1 h2 : ControlHub) (hi : Int) (s : List Nat)
    (hs : h2.NSteps_ = h1.NSteps_) (hf : h2.NFrames_ = h1.NFrames_)
    (h : tableFits h1 hi s) : tableFits h2 hi s := by
  unfold tableFits at h ⊢
  rw [hs, hf]
  exact h

/-- The invariant survives a call that leaves the tables and the counts alone
and at most registers another channel. -/
theorem tablesFit_of_frame (w w2 : World) (hinv : w.tablesFit) (hm : w2.mods = w.mods)
    (hs : w2.hub.NSteps_ = w.hub.NSteps_) (hf : w2.hub.NFrames_ = w.hub.NFrames_)
    (hr : ∀ i ∈ w.hub.modulators_, i ∈ w2.hub.modulators_) : w2.tablesFit := by
  intro j m hj
  rw [hm] at hj
  rcases hinv j m hj with he | ⟨h1, h2, h3⟩
  · exact Or.inl he
  · exact Or.inr ⟨hr j h1, tableFits_congr _ _ _ _ hs hf h2, tableFits_congr _ _ _ _ hs hf h3⟩

/-- The invariant holds after the tables of the registered channels are reset. -/
theorem tablesFit_of_reset (w w2 : World) (hinv : w.tablesFit)
    (hm : w2.mods = ControlHub.ResetModulations w.hub.modulators_ w.mods) : w2.tablesFit := by
  intro j m hj
  rw [hm, ResetModulations_getElem?] at hj
  cases h0 : w.mods[j]? with
  | none => rw [h0] at hj; cases hj
  | some m0 =>
    rw [h0] at hj
    simp only [Option.map_eq_map, Option.map_some', Option.some.injEq] at hj
    by_cases hmem : j ∈ w.hub.modulators_
    · rw [if_pos hmem] at hj
      subst hj
      exact Or.inl ⟨rfl, rfl⟩
    · rw [if_neg hmem] at hj
      subst hj
      rcases hinv j m0 h0 with he | ⟨h1, _⟩
      · exact Or.inl he
      · exact absurd h1 hmem

/-- The invariant survives the write of a property of a registered channel
when each table is kept or replaced by one that fits. -/
theorem tablesFit_onMod (w : World) (i : Nat)
    (f : ControlHub → AnalogMod → Port → Result × AnalogMod × Port)
    (hi : i ∈ w.hub.modulators_) (hinv : w.tablesFit)
    (hf : ∀ m, w.mods[i]? = some m →
      ((f w.hub m w.port).2.1.modulationA_ = m.modulationA_ ∨
        tableFits w.hub 255 (f w.hub m w.port).2.1.modulationA_) ∧
      ((f w.hub m w.port).2.1.modulationD_ = m.modulationD_ ∨
        tableFits w.hub 1 (f w.hub m w.port).2.1.modulationD_)) :
    (w.onMod i f).2.tablesFit := by
  unfold World.onMod
  cases h0 : w.mods[i]? with
  | none => exact hinv
  | some m0 =>
    simp only
    intro j m hj
    have hj2 : (w.mods.set i (f w.hub m0 w.port).2.1)[j]? = some m := hj
    by_cases hij : i = j
    · subst hij
      have hlt : i < w.mods.length := by
        by_contra hn
        rw [List.getElem?_eq_none (not_lt.mp hn)] at h0
        cases h0
      rw [List.getElem?_set_self hlt] at hj2
      simp only [Option.some.injEq] at hj2
      subst hj2
      obtain ⟨ha, hd⟩ := hf m0 h0
      have hold : m0.tablesFit w.hub := by
        rcases hinv i m0 h0 with ⟨e1, e2⟩ | ⟨_, h2⟩
        · exact ⟨Or.inl e1, Or.inl e2⟩
        · exact h2
      refine Or.inr ⟨hi, ?_, ?_⟩
      · rcases ha with ha | ha
        · show tableFits w.hub 255 (f w.hub m0 w.port).2.1.modulationA_
          rw [ha]
          exact hold.1
        · exact ha
      · rcases hd with hd | hd
        · show tableFits w.hub 1 (f w.hub m0 w.port).2.1.modulationD_
          rw [hd]
          exact hold.2
        · exact hd
    · rw [List.getElem?_set_ne hij] at hj2
      exact hinv j m hj2

theorem tablesFit_same (w w2 : World) (hinv : w.tablesFit) (hm : w2.mods = w.mods)
    (hh : w2.hub.NSteps_ = w.hub.NSteps_ ∧ w2.hub.NFrames_ = w.hub.NFrames_ ∧
      w2.hub.modulators_ = w.hub.modulators_) : w2.tablesFit :=
  tablesFit_of_frame w w2 hinv hm hh.1 hh.2.1 (fun i hi => by rw [hh.2.2]; exact hi)

theorem tablesFit_UpdateDeltaT (w : World) (hinv : w.tablesFit) :
    (ControlHub.UpdateDeltaT w).2.tablesFit :=
  tablesFit_same w _ hinv (UpdateDeltaT_frame w).2.2.2
    ⟨(UpdateDeltaT_frame w).1, (UpdateDeltaT_frame w).2.1, (UpdateDeltaT_frame w).2.2.1⟩

theorem tablesFit_step (w : World) (a : Action) (hinv : w.tablesFit)
    (hen : ∀ i, a.channel? = some i → i ∈ w.hub.modulators_) : (step w a).2.tablesFit := by
  cases a with
  | OnPort => exact tablesFit_same w _ hinv rfl ⟨rfl, rfl, rfl⟩
  | HubInitialize =>
    simp only [step, liftRet, ControlHub.Initialize]
    split_ifs <;> exact tablesFit_same w _ hinv rfl ⟨rfl, rfl, rfl⟩
  | HubShutdown => exact tablesFit_same w _ hinv rfl ⟨rfl, rfl, rfl⟩
  | OnExposure v =>
    simp only [step, liftRet, ControlHub.OnExposure]
    split_ifs
    · exact tablesFit_same w _ hinv rfl ⟨rfl, rfl, rfl⟩
    · exact tablesFit_UpdateDeltaT _ (tablesFit_same w _ hinv rfl ⟨rfl, rfl, rfl⟩)
  | OnFrameT v =>
    simp only [step, liftRet, ControlHub.OnFrameT]
    split_ifs
    · exact hinv
    · exact tablesFit_UpdateDeltaT w hinv
    · exact tablesFit_same _ _ (tablesFit_UpdateDeltaT w hinv) rfl ⟨rfl, rfl, rfl⟩
  | OnWaitBefore v =>
    simp only [step, liftRet, ControlHub.OnWaitBefore]
    split_ifs <;> exact tablesFit_same w _ hinv rfl ⟨rfl, rfl, rfl⟩
  | OnWaitAfter v =>
    simp only [step, liftRet, ControlHub.OnWaitAfter]
    split_ifs <;> exact tablesFit_same w _ hinv rfl ⟨rfl, rfl, rfl⟩
  | OnNSteps n =>
    simp only [step, liftRet, ControlHub.OnNSteps]
    split_ifs
    · exact hinv
    · exact hinv
    · exact tablesFit_same w _ hinv rfl ⟨rfl, rfl, rfl⟩
    · exact tablesFit_UpdateDeltaT _ (tablesFit_of_reset w _ hinv rfl)
  | OnNFrames n =>
    simp only [step, liftRet, ControlHub.OnNFrames]
    split_ifs
    · exact hinv
    · exact hinv
    · exact tablesFit_same w _ hinv rfl ⟨rfl, rfl, rfl⟩
    · exact tablesFit_of_reset w _ hinv rfl
  | OnDigMod d =>
    simp only [step, liftRet, ControlHub.OnDigMod]
    split_ifs <;> exact tablesFit_same w _ hinv rfl ⟨rfl, rfl, rfl⟩
  | OnAnaMod d =>
    simp only [step, liftRet, ControlHub.OnAnaMod]
    split_ifs <;> exact tablesFit_same w _ hinv rfl ⟨rfl, rfl, rfl⟩
  | OnLoopFrame n =>
    simp only [step, liftRet, ControlHub.OnLoopFrame]
    split_ifs
    · exact tablesFit_same w _ hinv rfl ⟨rfl, rfl, rfl⟩
    · exact tablesFit_UpdateDeltaT _ (tablesFit_same w _ hinv rfl ⟨rfl, rfl, rfl⟩)
  | OnAcquire n =>
    simp only [step, liftRet, ControlHub.OnAcquire]
    split_ifs <;> exact tablesFit_same w _ hinv rfl ⟨rfl, rfl, rfl⟩
  | TriggerInitialize =>
    simp only [step, liftRet, TriggerSelect.Initialize]
    split_ifs <;> exact tablesFit_same w _ hinv rfl ⟨rfl, rfl, rfl⟩
  | OnState pos =>
    simp only [step, liftRet, TriggerSelect.OnState]
    split_ifs <;> exact tablesFit_same w _ hinv rfl ⟨rfl, rfl, rfl⟩
  | OnEnable pos =>
    simp only [step, liftRet, EnableShutter.OnEnable]
    split_ifs <;> exact tablesFit_same w _ hinv rfl ⟨rfl, rfl, rfl⟩
  | ModInitialize i =>
    simp only [step, AnalogMod.Initialize]
    split
    · exact hinv
    · split_ifs
      · exact hinv
      · exact tablesFit_of_frame w _ hinv rfl rfl rfl
          (fun j hj => List.mem_append_left _ hj)
  | OnAmplitude i v =>
    exact tablesFit_onMod w i _ (hen i rfl) hinv (fun m _ =>
      ⟨Or.inl (OnAmplitude_tables w.hub m v w.port).1,
        Or.inl (OnAmplitude_tables w.hub m v w.port).2⟩)
  | OnGate i v =>
    exact tablesFit_onMod w i _ (hen i rfl) hinv (fun m _ =>
      ⟨Or.inl (OnGate_tables w.hub m v w.port).1, Or.inl (OnGate_tables w.hub m v w.port).2⟩)
  | OnModulationA i v =>
    refine tablesFit_onMod w i _ (hen i rfl) hinv (fun m _ => ⟨?_, ?_⟩)
    · rcases (OnModulationA_tables w.hub m v w.port).2 with h | ⟨h1, h2⟩
      · exact Or.inl h
      · exact Or.inr (by rw [h1]; exact h2)
    · exact Or.inl (OnModulationA_tables w.hub m v w.port).1
  | OnModulationD i v =>
    refine tablesFit_onMod w i _ (hen i rfl) hinv (fun m _ => ⟨?_, ?_⟩)
    · exact Or.inl (OnModulationD_tables w.hub m v w.port).1
    · rcases (OnModulationD_tables w.hub m v w.port).2 with h | ⟨h1, h2⟩
      · exact Or.inl h
      · exact Or.inr (by rw [h1]; exact h2)
  | elapse dt => exact tablesFit_same w _ hinv rfl ⟨rfl, rfl, rfl⟩

theorem tablesFit_operated (w : World) (hw : Operated w) : w.tablesFit := by
  induction hw with
  | init channels ps ws rs as now =>
    intro j m hj
    have hj2 : (channels.map AnalogMod.new)[j]? = some m := hj
    rw [List.getElem?_map] at hj2
    cases hc : channels[j]? with
    | none => rw [hc] at hj2; cases hj2
    | some c =>
      rw [hc] at hj2
      simp only [Option.map_some', Option.some.injEq] at hj2
      subst hj2
      exact Or.inl ⟨rfl, rfl⟩
  | step a _ hen ih => exact tablesFit_step _ a ih hen

/-- The re-send of a cached analog table that fits passes the length check,
whatever the amplitude. -/
theorem resend_passes_length_check (hub : ControlHub) (m : AnalogMod) (a : Int) (p : Port)
    (hport : hub.portAvailable_ = true) (hne : m.modulationA_ ≠ [])
    (hfit : tableFits hub 255 m.modulationA_) :
    ∃ values : List Int,
      AnalogMod.scanA { m with amplitude_ := a } (getlineTokens [] m.modulationA_)
        = Except.ok values ∧
      (values.length : Int) = hub.GetSequenceLength ∧
      AnalogMod.SendModulationA hub { m with amplitude_ := a } m.modulationA_ p =
        (Result.ret (hub.SendCommand HEADER_MODA
            (AnalogMod.payloadA { m with amplitude_ := a } values)
            (p.assert (AnalogMod.assertsA { m with amplitude_ := a } values))).1,
          (hub.SendCommand HEADER_MODA
            (AnalogMod.payloadA { m with amplitude_ := a } values)
            (p.assert (AnalogMod.assertsA { m with amplitude_ := a } values))).2) := by
  rcases hfit with he | ⟨hlen, hall⟩
  · exact absurd he hne
  · obtain ⟨vs, hv1, hv2, hv3⟩ := tokens_values 255 _ hall
    have hs := scanA_values { m with amplitude_ := a } (getlineTokens [] m.modulationA_) vs
      hv1 hv2
    have hl : ((vs.map fun v =>
        toInt32 (Int.tdiv (v * ({ m with amplitude_ := a } : AnalogMod).amplitude_) 255)).length
          : Int) = hub.GetSequenceLength := by
      rw [List.length_map, hv3, hlen]
      unfold ControlHub.GetSequenceLength
      push_cast
      rfl
    refine ⟨_, hs, hl, ?_⟩
    have hs2 : AnalogMod.scanA { m with amplitude_ := a }
        (getlineTokens [] ({ m with amplitude_ := a } : AnalogMod).modulationA_)
          = Except.ok (vs.map fun v =>
            toInt32 (Int.tdiv (v * ({ m with amplitude_ := a } : AnalogMod).amplitude_) 255)) :=
      hs
    simp only [AnalogMod.SendModulationA, hport, Bool.not_true, Bool.false_eq_true, if_false,
      hs, hl, ne_eq, not_true_eq_false]

/-- C24: in every state reached from the initial state by calls of the adapter,
whatever the port does and whatever the values written, every channel,
registered with the hub or not yet, has a cached analog table that is empty or has exactly
`NSteps_ * NFrames_` dash-separated tokens, each converting to a value in
0..255, and a cached digital table that is empty or has exactly
`NSteps_ * NFrames_` tokens, each converting to 0 or 1. Hence the re-send of a
cached analog table that an amplitude write triggers passes the length check
for every amplitude: it returns what the command `O` returns, not
`ERR_MOD_LENGTH`. -/
theorem cached_tables_fit (w : World) (hw : Operated w) (i : Nat) (m : AnalogMod)
    (hm : w.mods[i]? = some m) :
    (m.modulationA_ = [] ∨
        ((getlineTokens [] m.modulationA_).length = w.hub.NSteps_ * w.hub.NFrames_ ∧
          ∀ tok ∈ getlineTokens [] m.modulationA_, tokenInRange 255 tok)) ∧
      (m.modulationD_ = [] ∨
        ((getlineTokens [] m.modulationD_).length = w.hub.NSteps_ * w.hub.NFrames_ ∧
          ∀ tok ∈ getlineTokens [] m.modulationD_, tokenInRange 1 tok)) ∧
      (∀ (a : Int) (p : Port), w.hub.portAvailable_ = true → m.modulationA_ ≠ [] →
        ∃ values : List Int,
          AnalogMod.scanA { m with amplitude_ := a } (getlineTokens [] m.modulationA_)
            = Except.ok values ∧
          (values.length : Int) = w.hub.GetSequenceLength ∧
          AnalogMod.SendModulationA w.hub { m with amplitude_ := a } m.modulationA_ p =
            (Result.ret (w.hub.SendCommand HEADER_MODA
                (AnalogMod.payloadA { m with amplitude_ := a } values)
                (p.assert (AnalogMod.assertsA { m with amplitude_ := a } values))).1,
              (w.hub.SendCommand HEADER_MODA
                (AnalogMod.payloadA { m with amplitude_ := a } values)
                (p.assert (AnalogMod.assertsA { m with amplitude_ := a } values))).2)) := by
  have hfit : m.tablesFit w.hub := by
    rcases tablesFit_operated w hw i m hm with ⟨e1, e2⟩ | ⟨_, h2⟩
    · exact ⟨Or.inl e1, Or.inl e2⟩
    · exact h2
  exact ⟨hfit.1, hfit.2, fun a p hport hne =>
    resend_passes_length_check w.hub m a p hport hne hfit.1⟩

theorem sampleWorld_operated : Operated sampleWorld :=
  Operated.step (Action.OnAmplitude 0 255)
    (Operated.step (Action.OnNFrames 2)
      (Operated.step (Action.OnNSteps 5)
        (Operated.step (Action.ModInitialize 0)
          (Operated.step Action.TriggerInitialize
            (Operated.step Action.OnPort
              (Operated.init [2, 0, 1, 3] [] [] (List.replicate 16 ackEvent) [] 0)
              (fun _ h => by cases h))
            (fun _ h => by cases h))
          (fun _ h => by cases h))
        (fun _ h => by cases h))
      (fun _ h => by cases h))
    (fun i h => by
      cases h
      decide!)

theorem tableWorld_operated : Operated tableWorld :=
  Operated.step (Action.OnModulationA 0 sampleTable) sampleWorld_operated
    (fun i h => by
      cases h
      decide!)

theorem cached_tables_fit_witness :
    Operated tableWorld ∧
      tableWorld.mods[0]? = some (AnalogMod.mk 2 false 255 sampleTable []) ∧
      0 ∈ tableWorld.hub.modulators_ ∧ sampleTable ≠ [] ∧
      (getlineTokens [] sampleTable).length = tableWorld.hub.NSteps_ * tableWorld.hub.NFrames_ ∧
      (∀ tok ∈ getlineTokens [] sampleTable, tokenInRange 255 tok) :=
  ⟨tableWorld_operated, by decide!, by decide!, by decide,
    ((cached_tables_fit tableWorld tableWorld_operated 0
      (AnalogMod.mk 2 false 255 sampleTable []) (by decide!)).1.resolve_left (by decide)).1,
    ((cached_tables_fit tableWorld tableWorld_operated 0
      (AnalogMod.mk 2 false 255 sampleTable []) (by decide!)).1.resolve_left (by decide)).2⟩

/-! ## The illuminator adapter (C28) -/

/-- What one statement of a thread does to the lock and to the log. -/
theorem Sys.step_cases (s : Sys) (t : Nat) :
    s.step t = s ∨
    ∃ th th2, s.threads[t]? = some th ∧ (s.step t).threads = s.threads.set t th2 ∧
      ((¬ th.pc.inside ∧ ¬ th2.pc.inside ∧ (s.step t).lock_ = s.lock_ ∧
          (s.step t).log = s.log) ∨
        (¬ th.pc.inside ∧ th2.pc.inside ∧ ¬ th2.pc.begun ∧ s.lock_ = none ∧
          (s.step t).lock_ = some t ∧ (s.step t).log = s.log) ∨
        (th.pc.inside ∧ th2.pc.inside ∧ (s.step t).lock_ = s.lock_ ∧
          (((s.step t).log = s.log ∧ (th2.pc.begun → th.pc.begun)) ∨
            ∃ op, (s.step t).log = s.log ++ [(t, op)] ∧ (op ≠ PortOp.purge → th.pc.begun))) ∨
        (th.pc.inside ∧ ¬ th2.pc.inside ∧ (s.step t).lock_ = none ∧
          (s.step t).log = s.log)) := by
  unfold Sys.step
  cases h : s.threads[t]? with
  | none => exact Or.inl rfl
  | some th =>
    simp only
    cases hto : th.todo with
    | nil => exact Or.inl rfl
    | cons call rest =>
      simp only
      cases hpc : th.pc with
      | idle =>
        exact Or.inr ⟨th, { th with pc := Pc.guard }, rfl, rfl,
          Or.inl ⟨by rw [hpc]; exact id, id, rfl, rfl⟩⟩
      | guard =>
        simp only
        split_ifs with hl
        · exact Or.inr ⟨th, { th with pc := Pc.portCheck }, rfl, rfl,
            Or.inr (Or.inl ⟨by rw [hpc]; exact id, trivial, id, hl, rfl, rfl⟩)⟩
        · exact Or.inl rfl
      | portCheck =>
        simp only
        split_ifs
        · exact Or.inr ⟨th, { th with pc := Pc.ret ERR_NO_PORT_SET }, rfl, rfl,
            Or.inr (Or.inr (Or.inl ⟨by rw [hpc]; trivial, trivial, rfl,
              Or.inl ⟨rfl, fun hb => absurd hb id⟩⟩))⟩
        · exact Or.inr ⟨th, { th with pc := Pc.purge }, rfl, rfl,
            Or.inr (Or.inr (Or.inl ⟨by rw [hpc]; trivial, trivial, rfl,
              Or.inl ⟨rfl, fun hb => absurd hb id⟩⟩))⟩
      | purge =>
        simp only
        refine Or.inr ⟨th, _, rfl, rfl, Or.inr (Or.inr (Or.inl ⟨by rw [hpc]; trivial, ?_, rfl,
          Or.inr ⟨PortOp.purge, rfl, fun hn => absurd rfl hn⟩⟩))⟩
        split_ifs <;> trivial
      | write =>
        simp only
        refine Or.inr ⟨th, _, rfl, rfl, Or.inr (Or.inr (Or.inl ⟨by rw [hpc]; trivial, ?_, rfl,
          Or.inr ⟨PortOp.write call.msg, rfl, fun _ => by rw [hpc]; trivial⟩⟩))⟩
        split_ifs <;> trivial
      | clock =>
        exact Or.inr ⟨th, { th with pc := Pc.loop s.port.now ASCII_NACK 0 }, rfl, rfl,
          Or.inr (Or.inr (Or.inl ⟨by rw [hpc]; trivial, trivial, rfl,
            Or.inl ⟨rfl, fun _ => by rw [hpc]; trivial⟩⟩))⟩
      | loop startTime answer bytesRead =>
        simp only
        split_ifs with hc hr
        · exact Or.inr ⟨th, _, rfl, rfl, Or.inr (Or.inr (Or.inl ⟨by rw [hpc]; trivial, trivial,
            rfl, Or.inr ⟨PortOp.read, rfl, fun _ => by rw [hpc]; trivial⟩⟩))⟩
        · refine Or.inr ⟨th, _, rfl, rfl, Or.inr (Or.inr (Or.inl ⟨by rw [hpc]; trivial, ?_,
            rfl, Or.inr ⟨PortOp.read, rfl, fun _ => by rw [hpc]; trivial⟩⟩))⟩
          show Pc.inside (match _ with
            | some b => Pc.loop startTime b 1
            | none => Pc.loop startTime answer 0)
          split <;> trivial
        · exact Or.inr ⟨th, { th with pc := Pc.test answer }, rfl, rfl,
            Or.inr (Or.inr (Or.inl ⟨by rw [hpc]; trivial, trivial, rfl,
              Or.inl ⟨rfl, fun _ => by rw [hpc]; trivial⟩⟩))⟩
      | test answer =>
        simp only
        split_ifs
        · exact Or.inr ⟨th, { th with pc := Pc.ret ERR_COMMUNICATION }, rfl, rfl,
            Or.inr (Or.inr (Or.inl ⟨by rw [hpc]; trivial, trivial, rfl,
              Or.inl ⟨rfl, fun _ => by rw [hpc]; trivial⟩⟩))⟩
        · cases call with
          | SendCommand hd pl =>
            exact Or.inr ⟨th, { th with pc := Pc.ret DEVICE_OK }, rfl, rfl,
              Or.inr (Or.inr (Or.inl ⟨by rw [hpc]; trivial, trivial, rfl,
                Or.inl ⟨rfl, fun _ => by rw [hpc]; trivial⟩⟩))⟩
          | AskAnswer hd =>
            exact Or.inr ⟨th, { th with pc := Pc.getAnswer }, rfl, rfl,
              Or.inr (Or.inr (Or.inl ⟨by rw [hpc]; trivial, trivial, rfl,
                Or.inl ⟨rfl, fun _ => by rw [hpc]; trivial⟩⟩))⟩
      | getAnswer =>
        exact Or.inr ⟨th, _, rfl, rfl, Or.inr (Or.inr (Or.inl ⟨by rw [hpc]; trivial, trivial,
          rfl, Or.inr ⟨PortOp.answer, rfl, fun _ => by rw [hpc]; trivial⟩⟩))⟩
      | ret code =>
        exact Or.inr ⟨th, _, rfl, rfl, Or.inr (Or.inr (Or.inr ⟨by rw [hpc]; trivial, id, rfl,
          rfl⟩))⟩

theorem Pc.begun_inside (pc : Pc) (h : pc.begun) : pc.inside := by
  cases pc <;> trivial

/-- A call appended to the log keeps the exchanges apart when it opens an
exchange or follows a call of the same thread. -/
theorem ExchangesApart_append (log : List (Nat × PortOp)) (e : Nat × PortOp)
    (h : ExchangesApart log)
    (he : e.2 = PortOp.purge ∨ ∃ l op, log = l ++ [(e.1, op)]) :
    ExchangesApart (log ++ [e]) := by
  constructor
  · intro e0 h0
    cases log with
    | nil =>
      simp only [List.nil_append, List.getElem?_cons_zero, Option.some.injEq] at h0
      subst h0
      rcases he with he | ⟨l, op, hl⟩
      · exact he
      · exact absurd hl (by simp)
    | cons a as =>
      apply h.1
      simpa using h0
  · intro k e1 e2 h1 h2 hne
    by_cases hk : k + 1 < log.length
    · rw [List.getElem?_append_left (by omega)] at h1
      rw [List.getElem?_append_left hk] at h2
      exact h.2 k e1 e2 h1 h2 hne
    · have hk2 : k + 1 = log.length := by
        by_contra hn
        have hgt : (log ++ [e]).length ≤ k + 1 := by
          rw [List.length_append, List.length_singleton]
          omega
        rw [List.getElem?_eq_none hgt] at h2
        cases h2
      rw [List.getElem?_append_right (by omega), hk2, Nat.sub_self] at h2
      simp only [List.getElem?_cons_zero, Option.some.injEq] at h2
      subst h2
      rcases he with he | ⟨l, op, hl⟩
      · exact absurd he hne
      · subst hl
        have hlen : k = l.length := by
          rw [List.length_append, List.length_singleton] at hk2
          omega
        rw [List.getElem?_append_left (by rw [List.length_append, List.length_singleton]; omega),
          hlen, List.getElem?_concat_length] at h1
        simp only [Option.some.injEq] at h1
        subst h1
        rfl

theorem getElem?_set_thread (l : List Thread) (t u : Nat) (th th2 x : Thread)
    (ht : l[t]? = some th) (hu : (l.set t th2)[u]? = some x) :
    (u = t ∧ x = th2) ∨ (u ≠ t ∧ l[u]? = some x) := by
  by_cases hut : u = t
  · subst hut
    have hlt : u < l.length := by
      by_contra hn
      rw [List.getElem?_eq_none (not_lt.mp hn)] at ht
      cases ht
    rw [List.getElem?_set_self hlt] at hu
    exact Or.inl ⟨rfl, (Option.some.inj hu).symm⟩
  · rw [List.getElem?_set_ne (fun h => hut h.symm)] at hu
    exact Or.inr ⟨hut, hu⟩

theorem Sys.Guarded_step (s : Sys) (t : Nat) (h : s.Guarded) : (s.step t).Guarded := by
  obtain ⟨i1, i2, i3⟩ := h
  rcases Sys.step_cases s t with hs | ⟨th, th2, hth, hset, hc⟩
  · rw [hs]
    exact ⟨i1, i2, i3⟩
  · rcases hc with ⟨a1, a2, a3, a4⟩ | ⟨b1, b2, b3, b4, b5, b6⟩ | ⟨c1, c2, c3, c4⟩ |
      ⟨d1, d2, d3, d4⟩
    · refine ⟨fun u x hu hin => ?_, fun u x hu hb => ?_, by rw [a4]; exact i3⟩
      · rw [hset] at hu
        rcases getElem?_set_thread _ t u th th2 x hth hu with ⟨_, rfl⟩ | ⟨_, hx⟩
        · exact absurd hin a2
        · rw [a3]
          exact i1 u x hx hin
      · rw [hset] at hu
        rcases getElem?_set_thread _ t u th th2 x hth hu with ⟨_, rfl⟩ | ⟨_, hx⟩
        · exact absurd (Pc.begun_inside _ hb) a2
        · rw [a4]
          exact i2 u x hx hb
    · refine ⟨fun u x hu hin => ?_, fun u x hu hb => ?_, by rw [b6]; exact i3⟩
      · rw [hset] at hu
        rcases getElem?_set_thread _ t u th th2 x hth hu with ⟨rfl, rfl⟩ | ⟨_, hx⟩
        · exact b5
        · have := i1 u x hx hin
          rw [b4] at this
          cases this
      · rw [hset] at hu
        rcases getElem?_set_thread _ t u th th2 x hth hu with ⟨_, rfl⟩ | ⟨_, hx⟩
        · exact absurd hb b3
        · have := i1 u x hx (Pc.begun_inside _ hb)
          rw [b4] at this
          cases this
    · have hlock : s.lock_ = some t := i1 t th hth c1
      have hother : ∀ u x, u ≠ t → s.threads[u]? = some x → ¬ x.pc.inside := by
        intro u x hut hx hin
        have := i1 u x hx hin
        rw [hlock] at this
        exact hut (Option.some.inj this).symm
      refine ⟨fun u x hu hin => ?_, fun u x hu hb => ?_, ?_⟩
      · rw [hset] at hu
        rcases getElem?_set_thread _ t u th th2 x hth hu with ⟨rfl, rfl⟩ | ⟨hut, hx⟩
        · rw [c3]
          exact hlock
        · exact absurd hin (hother u x hut hx)
      · rw [hset] at hu
        rcases getElem?_set_thread _ t u th th2 x hth hu with ⟨rfl, rfl⟩ | ⟨hut, hx⟩
        · rcases c4 with ⟨e1, e2⟩ | ⟨op, e1, _⟩
          · rw [e1]
            exact i2 u th hth (e2 hb)
          · exact ⟨s.log, op, e1⟩
        · exact absurd (Pc.begun_inside _ hb) (hother u x hut hx)
      · rcases c4 with ⟨e1, _⟩ | ⟨op, e1, e2⟩
        · rw [e1]
          exact i3
        · rw [e1]
          apply ExchangesApart_append _ _ i3
          by_cases hop : op = PortOp.purge
          · exact Or.inl hop
          · exact Or.inr (i2 t th hth (e2 hop))
    · have hlock : s.lock_ = some t := i1 t th hth d1
      refine ⟨fun u x hu hin => ?_, fun u x hu hb => ?_, by rw [d4]; exact i3⟩
      · rw [hset] at hu
        rcases getElem?_set_thread _ t u th th2 x hth hu with ⟨_, rfl⟩ | ⟨hut, hx⟩
        · exact absurd hin d2
        · have := i1 u x hx hin
          rw [hlock] at this
          exact absurd (Option.some.inj this).symm hut
      · rw [hset] at hu
        rcases getElem?_set_thread _ t u th th2 x hth hu with ⟨_, rfl⟩ | ⟨hut, hx⟩
        · exact absurd (Pc.begun_inside _ hb) d2
        · have := i1 u x hx (Pc.begun_inside _ hb)
          rw [hlock] at this
          exact absurd (Option.some.inj this).symm hut

theorem Sys.Guarded_run (schedule : List Nat) :
    ∀ s : Sys, s.Guarded → (s.run schedule).Guarded := by
  induction schedule with
  | nil => intro s h; exact h
  | cons t ts ih => intro s h; exact ih _ (Sys.Guarded_step s t h)

theorem Sys.Guarded_initial (s : Sys) (h : s.Initial) : s.Guarded := by
  obtain ⟨_, h2, h3⟩ := h
  have hidle : ∀ (t : Nat) (th : Thread), s.threads[t]? = some th → th.pc = Pc.idle := by
    intro t th ht
    exact h3 th (List.mem_iff_getElem?.mpr ⟨t, ht⟩)
  refine ⟨fun t th ht hin => ?_, fun t th ht hb => ?_, ?_⟩
  · rw [hidle t th ht] at hin
    exact absurd hin id
  · rw [hidle t th ht] at hb
    exact absurd hb id
  · rw [h2]
    constructor
    · intro e he
      simp at he
    · intro k e1 e2 h1
      simp at h1

/-- C22: threads that run `SendCommand` and `AskAnswer` statement by statement
under any schedule, from a state in which nobody holds `lock_`: at every moment
at most one thread is between the guard declaration and the return of one of
the two functions, and that thread holds the lock; the calls on the port
(purge, write, reads of the response, read of the answer line) come exchange
by exchange: the first is a purge, and every call other than the purge that
opens an exchange directly follows a call of the same thread, so the calls of
two exchanges never interleave. -/
theorem exchanges_never_interleave (s : Sys) (h : s.Initial) (schedule : List Nat) :
    (∀ (t u : Nat) (th tu : Thread), (s.run schedule).threads[t]? = some th →
        (s.run schedule).threads[u]? = some tu → th.pc.inside → tu.pc.inside → t = u) ∧
      (∀ (t : Nat) (th : Thread), (s.run schedule).threads[t]? = some th → th.pc.inside →
        (s.run schedule).lock_ = some t) ∧
      ExchangesApart (s.run schedule).log := by
  obtain ⟨i1, _, i3⟩ := Sys.Guarded_run schedule s (Sys.Guarded_initial s h)
  refine ⟨fun t u th tu ht hu hin huin => ?_, i1, i3⟩
  have e1 := i1 t th ht hin
  have e2 := i1 u tu hu huin
  rw [e1] at e2
  exact Option.some.inj e2

theorem exchanges_never_interleave_witness :
    twoThreads.Initial ∧
      (twoThreads.run twoThreadsSchedule).log
        = [(0, PortOp.purge), (0, PortOp.write [1, 78, 48, 53, 4]), (0, PortOp.read),
            (1, PortOp.purge), (1, PortOp.write [1, 70, 4]), (1, PortOp.read),
            (1, PortOp.answer)] ∧
      ExchangesApart
        (twoThreads.run twoThreadsSchedule).log :=
  ⟨⟨rfl, rfl, by decide⟩, by decide!,
    (exchanges_never_interleave twoThreads ⟨rfl, rfl, by decide⟩
      twoThreadsSchedule).2.2⟩

/-- A thread that runs alone ends its call with the code and the port of the
functions `SendCommand` and `AskAnswer`. -/
theorem solo_thread_matches :
    ((twoThreads.run (List.replicate 10 0)).threads[0]?.map Thread.returned
        = some [(sampleWorld.hub.SendCommand HEADER_NSTEPS [48, 53] versionPort).1]) ∧
      (twoThreads.run (List.replicate 10 0)).port
        = (sampleWorld.hub.SendCommand HEADER_NSTEPS [48, 53] versionPort).2 ∧
      ((twoThreads.run (List.replicate 11 1)).threads[1]?.map Thread.returned
        = some [(sampleWorld.hub.AskAnswer HEADER_FIRMWARE [] versionPort).1]) ∧
      ((twoThreads.run (List.replicate 11 1)).threads[1]?.map Thread.answer
        = some (sampleWorld.hub.AskAnswer HEADER_FIRMWARE [] versionPort).2.1) ∧
      (twoThreads.run (List.replicate 11 1)).port
        = (sampleWorld.hub.AskAnswer HEADER_FIRMWARE [] versionPort).2.2 := by
  decide!

end ArduControl
